import Mathlib

/-!
# Declaration nodes of the Decaf compiler (`ast_decl.cc`)

A shallow embedding of the declaration passes of `src/ast_decl.cc`:
`CheckDecls` (pass 1), `Inherit` (pass 2), `Check` with `CheckAgainstParents`
and `CheckAgainstInterfaces` (pass 3) and `Emit`.

Conventions of the embedding.

* Pointers become values or indices.  A declaration node is a value that
  carries its `Identifier`; the identifier holds the source position, which is
  what tells two nodes with the same name apart.
* The error sink `ReportError` becomes a list of `Report`s returned by each
  function, in the order of the calls.
* A result of type `Option` is `none` exactly when the C++ code does not return
  normally: a failed `Assert`, a NULL dereference, an out-of-range list access
  or a loop that never ends.
* `symtab`, `hashtable`, `list`, `ast_type`, `ast_stmt`, `codegen` and the frame
  allocator are not among the embedded files.  Their parts used by
  `ast_decl.cc` are modelled from the specification (section 4.1, 4.3, 6) and
  are marked as such; what the specification leaves open is a parameter
  (`Ext`).
-/

namespace Decaf

/-! ## Abstract syntax -/

/-- Identifier node: a name plus its source position. -/
structure Identifier where
  name : String
  loc : Nat
  deriving DecidableEq, Repr

/-- Modelled from the spec: the type nodes of `ast_type` (built-in types, named
types, array types).  Only their identity is used here; equivalence and
resolution are parameters. -/
inductive Ty where
  | base (name : String)
  | named (id : Identifier)
  | array (elem : Ty)
  deriving DecidableEq, Repr

/-- The sentinel `Type::errorType`. -/
def Ty.errorType : Ty := Ty.base "error"

/-- Node `NamedType`: the name of a class or interface as written in an
`extends` or `implements` clause. -/
structure NamedType where
  id : Identifier
  deriving DecidableEq, Repr

/-- Accessor `NamedType::GetName`. -/
def NamedType.GetName (t : NamedType) : String := t.id.name

/-- Statement node used as a function body.  `ast_stmt` is not embedded: a body
is a handle, and what its passes do is a parameter (`Ext`). -/
structure Stmt where
  handle : Nat
  deriving DecidableEq, Repr

/-- Node `VarDecl`. -/
structure VarDecl where
  id : Identifier
  type : Ty
  deriving DecidableEq, Repr

/-- Node `FnDecl`: `body` is `none` for an interface prototype. -/
structure FnDecl where
  id : Identifier
  returnType : Ty
  formals : List VarDecl
  body : Option Stmt
  deriving DecidableEq, Repr

/-- Accessor `Decl::GetName` on a function. -/
def FnDecl.GetName (f : FnDecl) : String := f.id.name

/-- Accessor `Decl::GetName` on a variable. -/
def VarDecl.GetName (v : VarDecl) : String := v.id.name

/-- Member of a class: the two variants that the `dynamic_cast`s of
`CheckAgainstParents` and `Emit` accept (anything else fails their `Assert`). -/
inductive Member where
  | method (f : FnDecl)
  | field (v : VarDecl)
  deriving DecidableEq, Repr

/-- Node `ClassDecl` (constructor arguments only; the fields filled in by the
passes are returned by the passes). -/
structure ClassDecl where
  id : Identifier
  extends_ : Option NamedType
  implements : List NamedType
  members : List Member
  deriving DecidableEq, Repr

/-- Node `InterfaceDecl`; `Inherit` asserts that every member is a `FnDecl`. -/
structure InterfaceDecl where
  id : Identifier
  members : List FnDecl
  deriving DecidableEq, Repr

/-- Base class `Decl` with its four variants. -/
inductive Decl where
  | var (v : VarDecl)
  | fn (f : FnDecl)
  | cls (c : ClassDecl)
  | intf (i : InterfaceDecl)
  deriving DecidableEq, Repr

/-- Accessor `Decl::GetName`. -/
def Decl.GetName : Decl → String
  | .var v => v.id.name
  | .fn f => f.id.name
  | .cls c => c.id.name
  | .intf i => i.id.name

/-- A class member as a `Decl`. -/
def Member.toDecl : Member → Decl
  | .method f => .fn f
  | .field v => .var v

/-! ## Error sink -/

/-- What an unresolved identifier was looked up as (`reasonT` of `errors.h`). -/
inductive reasonT where
  | LookingForType
  | LookingForClass
  | LookingForInterface
  deriving DecidableEq, Repr

/-- One call of the error sink `ReportError` (specification, section 6). -/
inductive Report where
  | DeclConflict (newDecl : Decl) (prevDecl : Decl)
  | OverrideMismatch (fn : FnDecl)
  | IdentifierNotDeclared (ident : Identifier) (whyNeeded : reasonT)
  | InterfaceNotImplemented (cd : ClassDecl) (intfType : NamedType)
  deriving DecidableEq, Repr

/-! ## Symbol table (modelled from the specification, section 4.1) -/

/-- Kind tag of a symbol. -/
inductive SymbolType where
  | S_VARIABLE
  | S_CLASS
  | S_INTERFACE
  | S_FUNCTION
  deriving DecidableEq, Repr

/-- Frame segments of a location. -/
inductive Segment where
  | fpRelative
  | gpRelative
  | classRelative
  deriving DecidableEq, Repr

/-- Frame location: segment and offset. -/
structure Location where
  segment : Segment
  offset : Int
  deriving DecidableEq, Repr

/-- Modelled from the spec: `Symbol` of `symtab` ("binds a name to the
declaration that introduced it and, after allocation, to a frame location"),
with its kind tag and, for a class, interface or function, the scope opened
for it. -/
structure Symbol where
  kind : SymbolType
  node : Decl
  env : Option Nat
  location : Option Location
  deriving DecidableEq, Repr

/-- Modelled from the spec: one scope of `symtab` ("a mapping from name to
symbol", the lexically enclosing scope, "an optional super scope link" and "an
optional this scope link").  Scopes refer to each other by their index in
`Scopes`. -/
structure SymTable where
  table : List (String × Symbol)
  parentEnv : Option Nat
  superEnv : Option Nat
  thisEnv : Option Nat
  deriving DecidableEq, Repr

/-- All scopes created so far; a `SymTable *` of the source is an index. -/
abbrev Scopes := List SymTable

/-- Modelled from the spec: lookup by name inside one scope. -/
def SymTable.lookup (s : SymTable) (name : String) : Option Symbol :=
  (s.table.find? (fun e => e.1 == name)).map Prod.snd

/-- Modelled from the spec: lookup by name inside one scope, "optionally
filtered by symbol kind". -/
def SymTable.lookupKind (s : SymTable) (name : String) (kind : Option SymbolType) :
    Option Symbol :=
  match s.lookup name with
  | none => none
  | some sym =>
    match kind with
    | none => some sym
    | some k => if sym.kind = k then some sym else none

/-- Modelled from the spec: `SymTable::findLocal`, "searches only the current
scope". -/
def findLocal (h : Scopes) (env : Nat) (name : String) : Option Symbol :=
  match h[env]? with
  | none => none
  | some s => s.lookup name

/-- Modelled from the spec: `SymTable::add` (declareLocal), which "fails ... if
name already exists in the current scope"; the symbol of a plain `add` is a
variable.  `none` is the `false` result. -/
def add (h : Scopes) (env : Nat) (name : String) (node : Decl) : Option Scopes :=
  match h[env]? with
  | none => none
  | some s =>
    match s.lookup name with
    | some _ => none
    | none =>
      some (h.set env
        { s with table := s.table ++ [(name, ⟨SymbolType.S_VARIABLE, node, none, none⟩)] })

/-- Modelled from the spec: `SymTable::addWithScope` (openScope), which "creates
and registers a child scope ..., returns it".  The child inherits the this link
of its parent.  The name is bound to the new symbol unless the scope already
binds it: "only the first declaration is retained in the symbol table".  The
result is the child scope (`none` is NULL) and the new scopes. -/
def addWithScope (h : Scopes) (env : Nat) (name : String) (node : Decl)
    (kind : SymbolType) : Option Nat × Scopes :=
  match h[env]? with
  | none => (none, h)
  | some s =>
    let child : SymTable := ⟨[], some env, none, s.thisEnv⟩
    let childId := h.length
    let s2 : SymTable :=
      match s.lookup name with
      | some _ => s
      | none => { s with table := s.table ++ [(name, ⟨kind, node, some childId, none⟩)] }
    (some childId, (h.set env s2) ++ [child])

/-- Modelled from the spec: `SymTable::setThis`. -/
def setThis (h : Scopes) (env : Nat) (t : Nat) : Scopes :=
  match h[env]? with
  | none => h
  | some s => h.set env { s with thisEnv := some t }

/-- Modelled from the spec: `SymTable::setSuper`. -/
def setSuper (h : Scopes) (env : Nat) (sup : Option Nat) : Scopes :=
  match h[env]? with
  | none => h
  | some s => h.set env { s with superEnv := sup }

/-- Walk along the lexical parent links; `none` when the fuel runs out. -/
def findFrom (h : Scopes) (name : String) (kind : Option SymbolType) :
    Nat → Option Nat → Option (Option Symbol)
  | 0, _ => none
  | _ + 1, none => some none
  | fuel + 1, some env =>
    match h[env]? with
    | none => some none
    | some s =>
      match s.lookupKind name kind with
      | some sym => some (some sym)
      | none => findFrom h name kind fuel s.parentEnv

/-- Modelled from the spec: `SymTable::find`, which "searches the current scope
then outward through lexically enclosing scopes (optionally filtered by symbol
kind)".  The outer `none` is a walk that never ends (a cycle of links that
does not hold the name). -/
def find (h : Scopes) (env : Nat) (name : String) (kind : Option SymbolType) :
    Option (Option Symbol) :=
  findFrom h name kind (h.length + 1) (some env)

/-- Modelled from the spec: `SymTable::findInClass`, which "searches only the
nearest enclosing class scope (via the this link), not its super chain". -/
def findInClass (h : Scopes) (env : Nat) (name : String) (kind : Option SymbolType) :
    Option Symbol :=
  match h[env]? with
  | none => none
  | some s =>
    match s.thisEnv with
    | none => none
    | some t =>
      match h[t]? with
      | none => none
      | some c => c.lookupKind name kind

/-- Walk along the super links; `none` when the fuel runs out. -/
def findSuperFrom (h : Scopes) (name : String) (kind : Option SymbolType) :
    Nat → Option Nat → Option (Option Symbol)
  | 0, _ => none
  | _ + 1, none => some none
  | fuel + 1, some env =>
    match h[env]? with
    | none => some none
    | some s =>
      match s.lookupKind name kind with
      | some sym => some (some sym)
      | none => findSuperFrom h name kind fuel s.superEnv

/-- Modelled from the spec: `SymTable::findSuper`, which "searches starting at
the class scope's super link and continues up the super chain".  The outer
`none` is a walk that never ends (a cycle of super links that does not hold the
name). -/
def findSuper (h : Scopes) (env : Nat) (name : String) (kind : Option SymbolType) :
    Option (Option Symbol) :=
  match h[env]? with
  | none => some none
  | some s =>
    match s.thisEnv with
    | none => some none
    | some t =>
      match h[t]? with
      | none => some none
      | some c => findSuperFrom h name kind (h.length + 1) c.superEnv

/-! ## Frame allocator and code generator (modelled from the specification, 4.3 and 6) -/

/-- Growth direction of a frame allocator. -/
inductive Direction where
  | FRAME_UP
  | FRAME_DOWN
  deriving DecidableEq, Repr

/-- Modelled from the spec: the frame allocator, "constructed with a base
segment ... and a growth direction"; `offset` is the current cursor and `base`
the cursor it started from. -/
structure FrameAllocator where
  segment : Segment
  direction : Direction
  base : Int
  offset : Int
  deriving DecidableEq, Repr

/-- Modelled from the spec: `FrameAllocator::Alloc`, which "returns a new frame
location at the current cursor and advances the cursor by sizeInBytes in the
configured direction". -/
def FrameAllocator.Alloc (fa : FrameAllocator) (_name : String) (size : Int) :
    Location × FrameAllocator :=
  (⟨fa.segment, fa.offset⟩,
    { fa with offset :=
        match fa.direction with
        | Direction.FRAME_UP => fa.offset + size
        | Direction.FRAME_DOWN => fa.offset - size })

/-- Modelled from the spec: `new FrameAllocator(parent->GetFalloc())`, an
allocator that "continue[s] from the exact ending cursor of the parent's
allocator". -/
def FrameAllocator.inherit (p : FrameAllocator) : FrameAllocator :=
  ⟨p.segment, p.direction, p.base, p.offset⟩

/-- Modelled from the spec: `FrameAllocator::GetSize`, the bytes handed out
since the base. -/
def FrameAllocator.GetSize (fa : FrameAllocator) : Nat := (fa.offset - fa.base).natAbs

/-- One request to the instruction-emission interface (specification, section
6), `SetFrameSize` being the later call on the `BeginFunc` marker and `Instr`
any instruction asked for by a statement. -/
inductive Request where
  | NewClassLabel (name : String)
  | GenLabel (label : String)
  | GenBeginFunc
  | SetFrameSize (size : Nat)
  | GenEndFunc
  | GenVTable (classLabel : String) (methodLabels : List (Option String))
  | Instr (text : String)
  deriving DecidableEq, Repr

/-! ## External collaborators -/

/-- What the embedded files take from `ast_type`, `ast_stmt` and `codegen` and
the specification leaves open.  Every field is a function of the source of the
same name; a statement pass returns its flag, its reports and the scopes it
leaves behind. -/
structure Ext where
  IsEquivalentTo : Ty → Ty → Bool
  TypeCheck : Ty → Scopes → Nat → Bool
  GetIdent : Ty → Identifier
  StmtCheckDecls : Stmt → Scopes → Nat → Bool × List Report × Scopes
  StmtCheck : Stmt → Scopes → Nat → Bool × List Report
  StmtEmit : Stmt → FrameAllocator → Scopes → Nat → List Request × FrameAllocator × Scopes
  NewClassLabel : String → String
  FrameBase : Segment → Direction → Int

/-! ## Pass 1: `CheckDecls` -/

/-- Result of a `CheckDecls` call: the returned flag, the reports made, the
scopes afterwards, and the scope fields (`classEnv`, `interfaceEnv`, `fnEnv`)
that the call assigned, keyed by the identifier of the declaration. -/
structure DeclsResult where
  ret : Bool
  reports : List Report
  scopes : Scopes
  envs : List (Identifier × Nat)
  deriving DecidableEq, Repr

/-- Method `VarDecl::CheckDecls`. -/
def VarDecl.CheckDecls (v : VarDecl) (h : Scopes) (env : Nat) : DeclsResult :=
  match findLocal h env v.id.name with
  | some sym => ⟨false, [Report.DeclConflict (Decl.var v) sym.node], h, []⟩
  | none =>
    match add h env v.id.name (Decl.var v) with
    | none => ⟨false, [], h, []⟩
    | some h2 => ⟨true, [], h2, []⟩

/-- The loop `for (i...) ret &= formals->Nth(i)->CheckDecls(fnEnv)`. -/
def CheckDeclsFormals (h : Scopes) (env : Nat) : List VarDecl → DeclsResult
  | [] => ⟨true, [], h, []⟩
  | v :: vs =>
    let r := v.CheckDecls h env
    let rs := CheckDeclsFormals r.scopes env vs
    ⟨r.ret && rs.ret, r.reports ++ rs.reports, rs.scopes, r.envs ++ rs.envs⟩

/-- Method `FnDecl::CheckDecls`. -/
def FnDecl.CheckDecls (x : Ext) (f : FnDecl) (h : Scopes) (env : Nat) : DeclsResult :=
  let conflict : List Report :=
    match findLocal h env f.id.name with
    | some sym => [Report.DeclConflict (Decl.fn f) sym.node]
    | none => []
  let ret := (findLocal h env f.id.name).isNone
  match addWithScope h env f.id.name (Decl.fn f) SymbolType.S_FUNCTION with
  | (none, h1) => ⟨false, conflict, h1, []⟩
  | (some fnEnv, h1) =>
    let rf := CheckDeclsFormals h1 fnEnv f.formals
    match f.body with
    | none => ⟨ret && rf.ret, conflict ++ rf.reports, rf.scopes, (f.id, fnEnv) :: rf.envs⟩
    | some body =>
      let rb := x.StmtCheckDecls body rf.scopes fnEnv
      if rb.1 then
        ⟨ret && rf.ret, conflict ++ rf.reports ++ rb.2.1, rb.2.2, (f.id, fnEnv) :: rf.envs⟩
      else
        ⟨false, conflict ++ rf.reports ++ rb.2.1, rb.2.2, (f.id, fnEnv) :: rf.envs⟩

/-- Virtual call `members->Nth(i)->CheckDecls(env)` on a class member. -/
def Member.CheckDecls (x : Ext) (m : Member) (h : Scopes) (env : Nat) : DeclsResult :=
  match m with
  | .method f => f.CheckDecls x h env
  | .field v => v.CheckDecls h env

/-- The member loop of `ClassDecl::CheckDecls`; the flag is kept here although
the class discards it. -/
def CheckDeclsMembers (x : Ext) (h : Scopes) (env : Nat) : List Member → DeclsResult
  | [] => ⟨true, [], h, []⟩
  | m :: ms =>
    let r := m.CheckDecls x h env
    let rs := CheckDeclsMembers x r.scopes env ms
    ⟨r.ret && rs.ret, r.reports ++ rs.reports, rs.scopes, r.envs ++ rs.envs⟩

/-- Method `ClassDecl::CheckDecls`: the results of the members are not used,
the function returns `true` once the class scope exists. -/
def ClassDecl.CheckDecls (x : Ext) (c : ClassDecl) (h : Scopes) (env : Nat) : DeclsResult :=
  let conflict : List Report :=
    match findLocal h env c.id.name with
    | some sym => [Report.DeclConflict (Decl.cls c) sym.node]
    | none => []
  match addWithScope h env c.id.name (Decl.cls c) SymbolType.S_CLASS with
  | (none, h1) => ⟨false, conflict, h1, []⟩
  | (some classEnv, h1) =>
    let h2 := setThis h1 classEnv classEnv
    let rm := CheckDeclsMembers x h2 classEnv c.members
    ⟨true, conflict ++ rm.reports, rm.scopes, (c.id, classEnv) :: rm.envs⟩

/-- The member loop of `InterfaceDecl::CheckDecls`. -/
def CheckDeclsPrototypes (x : Ext) (h : Scopes) (env : Nat) : List FnDecl → DeclsResult
  | [] => ⟨true, [], h, []⟩
  | f :: fs =>
    let r := f.CheckDecls x h env
    let rs := CheckDeclsPrototypes x r.scopes env fs
    ⟨r.ret && rs.ret, r.reports ++ rs.reports, rs.scopes, r.envs ++ rs.envs⟩

/-- Method `InterfaceDecl::CheckDecls`. -/
def InterfaceDecl.CheckDecls (x : Ext) (i : InterfaceDecl) (h : Scopes) (env : Nat) :
    DeclsResult :=
  let conflict : List Report :=
    match findLocal h env i.id.name with
    | some sym => [Report.DeclConflict (Decl.intf i) sym.node]
    | none => []
  let ret := (findLocal h env i.id.name).isNone
  match addWithScope h env i.id.name (Decl.intf i) SymbolType.S_INTERFACE with
  | (none, h1) => ⟨false, conflict, h1, []⟩
  | (some interfaceEnv, h1) =>
    let rm := CheckDeclsPrototypes x h1 interfaceEnv i.members
    ⟨ret && rm.ret, conflict ++ rm.reports, rm.scopes, (i.id, interfaceEnv) :: rm.envs⟩

/-- Virtual method `Decl::CheckDecls`. -/
def Decl.CheckDecls (x : Ext) (d : Decl) (h : Scopes) (env : Nat) : DeclsResult :=
  match d with
  | .var v => v.CheckDecls h env
  | .fn f => f.CheckDecls x h env
  | .cls c => c.CheckDecls x h env
  | .intf i => i.CheckDecls x h env

/-- Whether a report is a `DeclConflict` whose new declaration is `d`. -/
def Report.isConflictOf (d : Decl) : Report → Bool
  | .DeclConflict n _ => decide (n = d)
  | _ => false

/-! ## Signature equality -/

/-- The loop of `FnDecl::TypeEqual` over the formals, position by position; it
runs after the two lengths were found equal. -/
def TypeEqualFormals (x : Ext) : List VarDecl → List VarDecl → Bool
  | a :: as, b :: bs =>
    if !x.IsEquivalentTo a.type b.type then false else TypeEqualFormals x as bs
  | _, _ => true

/-- Method `FnDecl::TypeEqual`. -/
def FnDecl.TypeEqual (x : Ext) (f fn : FnDecl) : Bool :=
  if !x.IsEquivalentTo f.returnType fn.returnType then false
  else if f.formals.length != fn.formals.length then false
  else TypeEqualFormals x f.formals fn.formals

/-! ## Hashtable (modelled from the specification) -/

/-- Modelled from the spec: `Hashtable` of `hashtable.h`, "a mapping from ...
names to ... records": a list of keyed entries in the order they were
entered.  Its iterator visits the entries of this list; the order of the visit
is not fixed by the specification. -/
abbrev Hashtable (V : Type) := List (String × V)

/-- Modelled from the spec: `Hashtable::Lookup`, the value of a key or NULL. -/
def Hashtable.Lookup {V : Type} (t : Hashtable V) (key : String) : Option V :=
  (t.find? (fun e => e.1 == key)).map Prod.snd

/-- Modelled from the spec: `Hashtable::Enter(key, value, overwrite)`.  With
`overwrite` (the default) the value of an existing key is replaced; without it
an existing key keeps its entry and the table stays "deduplicated by ...
name". -/
def Hashtable.Enter {V : Type} (t : Hashtable V) (key : String) (v : V) (overwrite : Bool) :
    Hashtable V :=
  match t.Lookup key with
  | none => t ++ [(key, v)]
  | some _ => if overwrite then t.map (fun e => if e.1 == key then (key, v) else e) else t

/-- Class `VFunction`: an interface obligation. -/
structure VFunction where
  prototype : FnDecl
  intfType : NamedType
  implemented : Bool
  deriving DecidableEq, Repr

/-- Constructor `VFunction::VFunction`. -/
def VFunction.new (p : FnDecl) (type : NamedType) : VFunction := ⟨p, type, false⟩

/-! ## Pass 2: `Inherit` -/

/-- Lines `env->find(extends->GetName(), S_CLASS)` with the cast that follows:
the base class symbol and its declaration.  The outer `none` is a lookup that
does not return or a failed `Assert(parent != 0)`. -/
def resolveClass (h : Scopes) (env : Nat) (t : NamedType) :
    Option (Option (Symbol × ClassDecl)) :=
  match find h env t.GetName (some SymbolType.S_CLASS) with
  | none => none
  | some none => some none
  | some (some baseClass) =>
    match baseClass.node with
    | .cls parent => some (some (baseClass, parent))
    | _ => none

/-- Lines `env->find(interface->GetName(), S_INTERFACE)` with the cast that
follows.  The outer `none` is a lookup that does not return or a failed
`Assert(intfDecl != 0)`. -/
def resolveInterface (h : Scopes) (env : Nat) (t : NamedType) :
    Option (Option InterfaceDecl) :=
  match find h env t.GetName (some SymbolType.S_INTERFACE) with
  | none => none
  | some none => some none
  | some (some intfSym) =>
    match intfSym.node with
    | .intf intfDecl => some (some intfDecl)
    | _ => none

/-- State of the two loops of `Inherit`: the flag `ret`, the reports so far and
the table `vFunctions`. -/
structure InheritState where
  ret : Bool
  reports : List Report
  vFunctions : Hashtable VFunction
  deriving DecidableEq, Repr

/-- Body of the inner loop of `Inherit` for the member `fn` of the interface
named by the entry `intf` of the implements list. -/
def InheritMethod (x : Ext) (intf : NamedType) (st : InheritState) (fn : FnDecl) :
    InheritState :=
  match st.vFunctions.Lookup fn.GetName with
  | none =>
    { st with vFunctions := st.vFunctions.Enter fn.GetName (VFunction.new fn intf) true }
  | some vf =>
    if !fn.TypeEqual x vf.prototype then
      { st with ret := false, reports := st.reports ++ [Report.OverrideMismatch fn] }
    else st

/-- The inner loop of `Inherit` over the members of one interface. -/
def InheritMethods (x : Ext) (intf : NamedType) (st : InheritState) (fns : List FnDecl) :
    InheritState :=
  fns.foldl (InheritMethod x intf) st

/-- The outer loop of `Inherit` over the implements list. -/
def InheritInterfaces (x : Ext) (h : Scopes) (env : Nat) :
    List NamedType → InheritState → Option InheritState
  | [], st => some st
  | intf :: rest, st =>
    match resolveInterface h env intf with
    | none => none
    | some none => InheritInterfaces x h env rest st
    | some (some intfDecl) =>
      InheritInterfaces x h env rest (InheritMethods x intf st intfDecl.members)

/-- Result of `ClassDecl::Inherit`: the flag, the reports, the scopes with the
super link set, and the fields `parent` and `vFunctions` of the class. -/
structure InheritResult where
  ret : Bool
  reports : List Report
  scopes : Scopes
  parent : Option ClassDecl
  vFunctions : Hashtable VFunction
  deriving DecidableEq, Repr

/-- The `if (extends)` block of `ClassDecl::Inherit`: the new scopes and the
field `parent`. -/
def InheritParent (c : ClassDecl) (h : Scopes) (env classEnv : Nat) :
    Option (Scopes × Option ClassDecl) :=
  match c.extends_ with
  | none => some (h, none)
  | some ex =>
    match resolveClass h env ex with
    | none => none
    | some none => some (h, none)
    | some (some (baseClass, parent)) => some (setSuper h classEnv baseClass.env, some parent)

/-- Method `ClassDecl::Inherit`; `classEnv` is the field set by `CheckDecls`. -/
def ClassDecl.Inherit (x : Ext) (c : ClassDecl) (h : Scopes) (env classEnv : Nat) :
    Option InheritResult :=
  match InheritParent c h env classEnv with
  | none => none
  | some (h1, parent) =>
    match InheritInterfaces x h1 env c.implements ⟨true, [], []⟩ with
    | none => none
    | some st => some ⟨st.ret, st.reports, h1, parent, st.vFunctions⟩

/-! ## Pass 3: `CheckAgainstParents` and `CheckAgainstInterfaces` -/

/-- Flag and reports of a checking function. -/
structure CheckResult where
  ret : Bool
  reports : List Report
  deriving DecidableEq, Repr

/-- Body of the member loop of `ClassDecl::CheckAgainstParents`. -/
def CheckAgainstParentsMember (x : Ext) (h : Scopes) (classEnv : Nat) (m : Member) :
    Option CheckResult :=
  match m with
  | .method method =>
    match findSuper h classEnv method.GetName (some SymbolType.S_FUNCTION) with
    | none => none
    | some none => some ⟨true, []⟩
    | some (some sym) =>
      match sym.node with
      | .fn otherMethod =>
        if !method.TypeEqual x otherMethod then
          some ⟨false, [Report.OverrideMismatch method]⟩
        else some ⟨true, []⟩
      | _ => none
  | .field field =>
    match findSuper h classEnv field.GetName (some SymbolType.S_VARIABLE) with
    | none => none
    | some none => some ⟨true, []⟩
    | some (some sym) => some ⟨false, [Report.DeclConflict (Decl.var field) sym.node]⟩

/-- The member loop of `ClassDecl::CheckAgainstParents`. -/
def CheckAgainstParentsMembers (x : Ext) (h : Scopes) (classEnv : Nat) :
    List Member → Option CheckResult
  | [] => some ⟨true, []⟩
  | m :: ms =>
    match CheckAgainstParentsMember x h classEnv m with
    | none => none
    | some r =>
      match CheckAgainstParentsMembers x h classEnv ms with
      | none => none
      | some rs => some ⟨r.ret && rs.ret, r.reports ++ rs.reports⟩

/-- The block "Check that parent exists" of `ClassDecl::CheckAgainstParents`. -/
def CheckParentExists (c : ClassDecl) (h : Scopes) (env : Nat) : Option CheckResult :=
  match c.extends_ with
  | none => some ⟨true, []⟩
  | some ex =>
    match find h env ex.GetName none with
    | none => none
    | some none => some ⟨false, [Report.IdentifierNotDeclared ex.id reasonT.LookingForClass]⟩
    | some (some _) => some ⟨true, []⟩

/-- Method `ClassDecl::CheckAgainstParents`. -/
def ClassDecl.CheckAgainstParents (x : Ext) (c : ClassDecl) (h : Scopes) (env classEnv : Nat) :
    Option CheckResult :=
  match CheckParentExists c h env with
  | none => none
  | some r =>
    match CheckAgainstParentsMembers x h classEnv c.members with
    | none => none
    | some rs => some ⟨r.ret && rs.ret, r.reports ++ rs.reports⟩

/-- The loop "Check that all interfaces implemented exists" of
`ClassDecl::CheckAgainstInterfaces`. -/
def CheckInterfacesExist (h : Scopes) (env : Nat) : List NamedType → Option CheckResult
  | [] => some ⟨true, []⟩
  | intf :: rest =>
    match find h env intf.GetName none with
    | none => none
    | some none =>
      match CheckInterfacesExist h env rest with
      | none => none
      | some rs =>
        some ⟨false, Report.IdentifierNotDeclared intf.id reasonT.LookingForInterface
          :: rs.reports⟩
    | some (some _) => CheckInterfacesExist h env rest

/-- State of the obligation loop of `CheckAgainstInterfaces`: the flag, the
reports so far and the table `incompleteIntfs`. -/
structure ObligationState where
  ret : Bool
  reports : List Report
  incompleteIntfs : Hashtable NamedType
  deriving DecidableEq, Repr

/-- Body of the loop over `vFunctions` in `CheckAgainstInterfaces`. -/
def CheckObligation (x : Ext) (h : Scopes) (classEnv : Nat) (st : ObligationState)
    (vf : VFunction) : Option ObligationState :=
  match findInClass h classEnv vf.prototype.GetName (some SymbolType.S_FUNCTION) with
  | none =>
    some { st with
      incompleteIntfs := st.incompleteIntfs.Enter vf.intfType.GetName vf.intfType false,
      ret := false }
  | some sym =>
    match sym.node with
    | .fn method =>
      if !method.TypeEqual x vf.prototype then
        some { st with reports := st.reports ++ [Report.OverrideMismatch method], ret := false }
      else some st
    | _ => none

/-- The loop over `vFunctions` in `CheckAgainstInterfaces`. -/
def CheckObligations (x : Ext) (h : Scopes) (classEnv : Nat) :
    List VFunction → ObligationState → Option ObligationState
  | [], st => some st
  | vf :: rest, st =>
    match CheckObligation x h classEnv st vf with
    | none => none
    | some st2 => CheckObligations x h classEnv rest st2

/-- Method `ClassDecl::CheckAgainstInterfaces`; `vFunctions` is the field set
by `Inherit`. -/
def ClassDecl.CheckAgainstInterfaces (x : Ext) (c : ClassDecl) (h : Scopes) (env classEnv : Nat)
    (vFunctions : Hashtable VFunction) : Option CheckResult :=
  match CheckInterfacesExist h env c.implements with
  | none => none
  | some r =>
    match CheckObligations x h classEnv (vFunctions.map Prod.snd) ⟨r.ret, r.reports, []⟩ with
    | none => none
    | some st =>
      some ⟨st.ret,
        st.reports ++ st.incompleteIntfs.map (fun e => Report.InterfaceNotImplemented c e.2)⟩

/-! ## Pass 3: `Check` -/

/-- Method `VarDecl::Check`: the result and the variable with its `type` field
as the call leaves it. -/
def VarDecl.Check (x : Ext) (v : VarDecl) (h : Scopes) (env : Nat) : CheckResult × VarDecl :=
  let ret := x.TypeCheck v.type h env
  if !ret then
    (⟨ret, [Report.IdentifierNotDeclared (x.GetIdent v.type) reasonT.LookingForType]⟩,
      { v with type := Ty.errorType })
  else (⟨ret, []⟩, v)

/-- The loop `for (i...) ret &= formals->Nth(i)->Check(env)`. -/
def CheckFormals (x : Ext) (h : Scopes) (env : Nat) : List VarDecl → CheckResult × List VarDecl
  | [] => (⟨true, []⟩, [])
  | v :: vs =>
    let r := v.Check x h env
    let rs := CheckFormals x h env vs
    (⟨r.1.ret && rs.1.ret, r.1.reports ++ rs.1.reports⟩, r.2 :: rs.2)

/-- Method `FnDecl::Check`. -/
def FnDecl.Check (x : Ext) (f : FnDecl) (h : Scopes) (env : Nat) : CheckResult × FnDecl :=
  let r0 := x.TypeCheck f.returnType h env
  let rf := CheckFormals x h env f.formals
  match f.body with
  | none => (⟨r0 && rf.1.ret, rf.1.reports⟩, { f with formals := rf.2 })
  | some body =>
    let rb := x.StmtCheck body h env
    (⟨r0 && rf.1.ret && rb.1, rf.1.reports ++ rb.2⟩, { f with formals := rf.2 })

/-- Virtual call `members->Nth(i)->Check(env)` on a class member. -/
def Member.Check (x : Ext) (m : Member) (h : Scopes) (env : Nat) : CheckResult × Member :=
  match m with
  | .method f => let r := f.Check x h env; (r.1, Member.method r.2)
  | .field v => let r := v.Check x h env; (r.1, Member.field r.2)

/-- The loop "Check all members" of `ClassDecl::Check`. -/
def CheckMembers (x : Ext) (h : Scopes) (env : Nat) : List Member → CheckResult × List Member
  | [] => (⟨true, []⟩, [])
  | m :: ms =>
    let r := m.Check x h env
    let rs := CheckMembers x h env ms
    (⟨r.1.ret && rs.1.ret, r.1.reports ++ rs.1.reports⟩, r.2 :: rs.2)

/-- Method `ClassDecl::Check`; `classEnv` and `vFunctions` are the fields set by
passes 1 and 2. -/
def ClassDecl.Check (x : Ext) (c : ClassDecl) (h : Scopes) (env classEnv : Nat)
    (vFunctions : Hashtable VFunction) : Option (CheckResult × ClassDecl) :=
  match c.CheckAgainstParents x h env classEnv with
  | none => none
  | some rp =>
    match c.CheckAgainstInterfaces x h env classEnv vFunctions with
    | none => none
    | some ri =>
      let rm := CheckMembers x h env c.members
      some (⟨rp.ret && ri.ret && rm.1.ret, rp.reports ++ ri.reports ++ rm.1.reports⟩,
        { c with members := rm.2 })

/-- The member loop of `InterfaceDecl::Check`. -/
def CheckPrototypes (x : Ext) (h : Scopes) (env : Nat) : List FnDecl → CheckResult × List FnDecl
  | [] => (⟨true, []⟩, [])
  | f :: fs =>
    let r := f.Check x h env
    let rs := CheckPrototypes x h env fs
    (⟨r.1.ret && rs.1.ret, r.1.reports ++ rs.1.reports⟩, r.2 :: rs.2)

/-- Method `InterfaceDecl::Check`. -/
def InterfaceDecl.Check (x : Ext) (i : InterfaceDecl) (h : Scopes) (env : Nat) :
    CheckResult × InterfaceDecl :=
  let rm := CheckPrototypes x h env i.members
  (rm.1, { i with members := rm.2 })

/-! ## The three passes over a program (modelled from the specification, section 4.2) -/

/-- The fields of a `ClassDecl` object that passes 1 and 2 fill in. -/
structure ClassInfo where
  decl : ClassDecl
  classEnv : Nat
  parent : Option ClassDecl
  vFunctions : Hashtable VFunction
  deriving DecidableEq, Repr

/-- The global scope before pass 1. -/
def globalScopes : Scopes := [⟨[], none, none, none⟩]

/-- Modelled from the spec: pass 1 of the checker, "for every declaration, in
lexical order", in the scope `env`. -/
def CheckDeclsProgram (x : Ext) (h : Scopes) (env : Nat) : List Decl → DeclsResult
  | [] => ⟨true, [], h, []⟩
  | d :: ds =>
    let r := d.CheckDecls x h env
    let rs := CheckDeclsProgram x r.scopes env ds
    ⟨r.ret && rs.ret, r.reports ++ rs.reports, rs.scopes, r.envs ++ rs.envs⟩

/-- The scope field that pass 1 assigned to the declaration `id`. -/
def envOf (envs : List (Identifier × Nat)) (id : Identifier) : Option Nat :=
  (envs.find? (fun e => e.1 == id)).map Prod.snd

/-- Result of pass 2 over a program. -/
structure InheritProgramResult where
  ret : Bool
  reports : List Report
  scopes : Scopes
  classes : List ClassInfo
  deriving DecidableEq, Repr

/-- Modelled from the spec: pass 2 of the checker, `Inherit` "for each class" in
lexical order. -/
def InheritProgram (x : Ext) (envs : List (Identifier × Nat)) (env : Nat) :
    List Decl → Scopes → Option InheritProgramResult
  | [], h => some ⟨true, [], h, []⟩
  | Decl.cls c :: ds, h =>
    match envOf envs c.id with
    | none => none
    | some classEnv =>
      match c.Inherit x h env classEnv with
      | none => none
      | some r =>
        match InheritProgram x envs env ds r.scopes with
        | none => none
        | some rs =>
          some ⟨r.ret && rs.ret, r.reports ++ rs.reports, rs.scopes,
            ⟨c, classEnv, r.parent, r.vFunctions⟩ :: rs.classes⟩
  | _ :: ds, h => InheritProgram x envs env ds h

/-- The class object of the declaration `id`. -/
def classOf (classes : List ClassInfo) (id : Identifier) : Option ClassInfo :=
  classes.find? (fun ci => ci.decl.id == id)

/-- Modelled from the spec: pass 3 of the checker, `Check` of every top-level
declaration in lexical order.  Every declaration is checked in the scopes that
pass 2 left: a `type` that `VarDecl::Check` overwrites with the error type is
part of the declaration that the call returns and is not stored back into the
symbols, so the later checks of the run read the types as declared. -/
def CheckProgram (x : Ext) (classes : List ClassInfo) (h : Scopes) (env : Nat) :
    List Decl → Option CheckResult
  | [] => some ⟨true, []⟩
  | d :: ds =>
    let r : Option CheckResult :=
      match d with
      | .var v => some (v.Check x h env).1
      | .fn f => some (f.Check x h env).1
      | .intf i => some (i.Check x h env).1
      | .cls c =>
        match classOf classes c.id with
        | none => none
        | some ci => (c.Check x h env ci.classEnv ci.vFunctions).map Prod.fst
    match r with
    | none => none
    | some r1 =>
      match CheckProgram x classes h env ds with
      | none => none
      | some rs => some ⟨r1.ret && rs.ret, r1.reports ++ rs.reports⟩

/-- Outcome of the three passes: the aggregate flag, all reports, the scopes
and the class objects. -/
structure Checked where
  ok : Bool
  reports : List Report
  scopes : Scopes
  envs : List (Identifier × Nat)
  classes : List ClassInfo
  deriving DecidableEq, Repr

/-- Modelled from the spec: the checker, "three sequential passes — declare,
resolve hierarchy, type/override-check", each over the whole program, with the
flags of the passes combined by AND. -/
def CheckAll (x : Ext) (decls : List Decl) : Option Checked :=
  let r1 := CheckDeclsProgram x globalScopes 0 decls
  match InheritProgram x r1.envs 0 decls r1.scopes with
  | none => none
  | some r2 =>
    match CheckProgram x r2.classes r2.scopes 0 decls with
    | none => none
    | some r3 =>
      some ⟨r1.ret && r2.ret && r3.ret, r1.reports ++ r2.reports ++ r3.reports,
        r2.scopes, r1.envs, r2.classes⟩

/-! ## Emission -/

/-- Modelled from the spec: `List::Nth`; an index outside the list does not
return. -/
def Nth {α : Type} (l : List α) (i : Nat) : Option α := l[i]?

/-- Modelled from the spec: `List::RemoveAt`; an index outside the list does
not return. -/
def RemoveAt {α : Type} (l : List α) (i : Nat) : Option (List α) :=
  if i < l.length then some (l.eraseIdx i) else none

/-- Modelled from the spec: `List::InsertAt`; an index behind the end of the
list does not return. -/
def InsertAt {α : Type} (l : List α) (a : α) (i : Nat) : Option (List α) :=
  if i ≤ l.length then some (l.take i ++ a :: l.drop i) else none

/-- A `ClassDecl` object during emission: the fields of passes 1 and 2 and the
fields `classFalloc`, `vTable` and `fields`.  The two lists are pointers in the
source and indices into the list stores of `EmitState` here. -/
structure ClassObj where
  info : ClassInfo
  classFalloc : Option FrameAllocator
  vTable : Option Nat
  fields : Option Nat
  deriving DecidableEq, Repr

/-- Modelled from the spec: accessor `ClassDecl::GetVTable` (`ast_decl.h`).  A
subclass "inherits ... the dispatch table": it is handed the list object of its
parent, not a copy. -/
def ClassObj.GetVTable (o : ClassObj) : Option Nat := o.vTable

/-- Modelled from the spec: accessor `ClassDecl::GetFields` (`ast_decl.h`), the
field list object of the class, not a copy. -/
def ClassObj.GetFields (o : ClassObj) : Option Nat := o.fields

/-- Modelled from the spec: accessor `ClassDecl::GetFalloc` (`ast_decl.h`). -/
def ClassObj.GetFalloc (o : ClassObj) : Option FrameAllocator := o.classFalloc

/-- What emission reads and writes: the scopes, the class objects, the
`List<FnDecl*>` and `List<VarDecl*>` objects created so far, the `methodLabel`
and `fnEnv` fields of the functions, and the requests made to the code
generator, oldest first. -/
structure EmitState where
  scopes : Scopes
  classes : List ClassObj
  vTables : List (List FnDecl)
  fieldLists : List (List VarDecl)
  methodLabels : List (Identifier × String)
  fnEnvs : List (Identifier × Nat)
  requests : List Request
  deriving DecidableEq, Repr

/-- The class object of the declaration `id`. -/
def getClass (st : EmitState) (id : Identifier) : Option ClassObj :=
  st.classes.find? (fun o => o.info.decl.id == id)

/-- Store the class object `obj` in place of the one with its identifier. -/
def setClass (st : EmitState) (obj : ClassObj) : EmitState :=
  { st with classes :=
      st.classes.map (fun o => if o.info.decl.id == obj.info.decl.id then obj else o) }

/-- Record a request to the code generator. -/
def EmitState.request (st : EmitState) (r : Request) : EmitState :=
  { st with requests := st.requests ++ [r] }

/-- Method `FnDecl::SetMethodLabel`: the label `classLabel.name`. -/
def SetMethodLabel (st : EmitState) (f : FnDecl) (classLabel : String) : EmitState :=
  { st with methodLabels := (f.id, classLabel ++ "." ++ f.id.name) :: st.methodLabels }

/-- Accessor `FnDecl::GetMethodLabel`; `none` is NULL. -/
def GetMethodLabel (st : EmitState) (f : FnDecl) : Option String :=
  (st.methodLabels.find? (fun e => e.1 == f.id)).map Prod.snd

/-- The scope in which the walk of `find` finds the name; `none` when the fuel
runs out. -/
def findEnvFrom (h : Scopes) (name : String) (kind : Option SymbolType) :
    Nat → Option Nat → Option (Option Nat)
  | 0, _ => none
  | _ + 1, none => some none
  | fuel + 1, some env =>
    match h[env]? with
    | none => some none
    | some s =>
      match s.lookupKind name kind with
      | some _ => some (some env)
      | none => findEnvFrom h name kind fuel s.parentEnv

/-- Modelled from the spec: `Symbol::setLocation` on the symbol that
`find(name, kind)` returns from the scope `env`; a NULL symbol or a walk that
does not end does not return. -/
def setLocation (h : Scopes) (env : Nat) (name : String) (kind : Option SymbolType)
    (loc : Location) : Option Scopes :=
  match findEnvFrom h name kind (h.length + 1) (some env) with
  | some (some e) =>
    match h[e]? with
    | none => none
    | some s =>
      let located : Symbol → Symbol := fun sym => { sym with location := some loc }
      let table2 := s.table.map (fun p => if p.1 == name then (p.1, located p.2) else p)
      some (h.set e { s with table := table2 })
  | _ => none

/-- Method `VarDecl::Emit`: four bytes from `falloc`, stored as the location of
the variable's symbol. -/
def VarDecl.Emit (v : VarDecl) (falloc : FrameAllocator) (h : Scopes) (env : Nat) :
    Option (FrameAllocator × Scopes) :=
  let r := falloc.Alloc v.id.name 4
  match setLocation h env v.id.name (some SymbolType.S_VARIABLE) r.1 with
  | none => none
  | some h2 => some (r.2, h2)

/-- The loop `for (i...) formals->Nth(i)->Emit(paramFalloc, codegen, fnEnv)`. -/
def EmitFormals (falloc : FrameAllocator) (h : Scopes) (env : Nat) :
    List VarDecl → Option (FrameAllocator × Scopes)
  | [] => some (falloc, h)
  | v :: vs =>
    match v.Emit falloc h env with
    | none => none
    | some r => EmitFormals r.1 r.2 env vs

/-- Method `FnDecl::Emit`.  The allocator passed in is not used.  `fnEnv` is
the field set by `CheckDecls`; a function without a body or without `fnEnv`
does not return (NULL dereference). -/
def FnDecl.Emit (x : Ext) (f : FnDecl) (st : EmitState) : Option EmitState :=
  let paramFalloc : FrameAllocator :=
    ⟨Segment.fpRelative, Direction.FRAME_UP,
      x.FrameBase Segment.fpRelative Direction.FRAME_UP,
      x.FrameBase Segment.fpRelative Direction.FRAME_UP⟩
  let bodyFalloc : FrameAllocator :=
    ⟨Segment.fpRelative, Direction.FRAME_DOWN,
      x.FrameBase Segment.fpRelative Direction.FRAME_DOWN,
      x.FrameBase Segment.fpRelative Direction.FRAME_DOWN⟩
  let label :=
    match GetMethodLabel st f with
    | some methodLabel => methodLabel
    | none => f.id.name
  let st1 := (st.request (Request.GenLabel label)).request Request.GenBeginFunc
  match envOf st.fnEnvs f.id with
  | none => none
  | some fnEnv =>
    match EmitFormals paramFalloc st1.scopes fnEnv f.formals with
    | none => none
    | some rf =>
      match f.body with
      | none => none
      | some body =>
        let rb := x.StmtEmit body bodyFalloc rf.2 fnEnv
        some { st1 with
          scopes := rb.2.2,
          requests := st1.requests ++ rb.1
            ++ [Request.SetFrameSize rb.2.1.GetSize, Request.GenEndFunc] }

/-- The loop `for (j = 0; j < vTable->NumElements(); j++)` of
`ClassDecl::Emit` for the method at member position `i`, with `n` rounds left.
Every round reads `vTable->Nth(i)`.  The result is the table after
`RemoveAt(i)` and `InsertAt(method, i)` when a round breaks out, and `none`
inside when `j` reaches `NumElements`. -/
def overrideLoop (x : Ext) (method : FnDecl) (vTable : List FnDecl) (i : Nat) :
    Nat → Option (Option (List FnDecl))
  | 0 => some none
  | n + 1 =>
    match Nth vTable i with
    | none => none
    | some slot =>
      if method.TypeEqual x slot then
        match RemoveAt vTable i with
        | none => none
        | some t1 =>
          match InsertAt t1 method i with
          | none => none
          | some t2 => some (some t2)
      else overrideLoop x method vTable i n

/-- Body of the member loop of `ClassDecl::Emit` for the member at position
`i` of the class `cid` with label `classLabel`. -/
def EmitMember (x : Ext) (cid : Identifier) (classLabel : String) (i : Nat) (m : Member)
    (st : EmitState) : Option EmitState :=
  match getClass st cid with
  | none => none
  | some obj =>
    match m with
    | .method method =>
      match obj.vTable with
      | none => none
      | some vt =>
        match st.vTables[vt]? with
        | none => none
        | some vTable =>
          match overrideLoop x method vTable i vTable.length with
          | none => none
          | some (some t2) =>
            method.Emit x (SetMethodLabel { st with vTables := st.vTables.set vt t2 }
              method classLabel)
          | some none =>
            method.Emit x (SetMethodLabel
              { st with vTables := st.vTables.set vt (vTable ++ [method]) } method classLabel)
    | .field field =>
      match obj.fields, obj.classFalloc with
      | some fl, some classFalloc =>
        match st.fieldLists[fl]? with
        | none => none
        | some fields =>
          match field.Emit classFalloc st.scopes obj.info.classEnv with
          | none => none
          | some r =>
            some (setClass
              { st with fieldLists := st.fieldLists.set fl (fields ++ [field]), scopes := r.2 }
              { obj with classFalloc := some r.1 })
      | _, _ => none

/-- The member loop of `ClassDecl::Emit`, from member position `i` on. -/
def EmitMembers (x : Ext) (cid : Identifier) (classLabel : String) :
    Nat → List Member → EmitState → Option EmitState
  | _, [], st => some st
  | i, m :: ms, st =>
    match EmitMember x cid classLabel i m st with
    | none => none
    | some st1 => EmitMembers x cid classLabel (i + 1) ms st1

/-- The lines "Emit vtable" of `ClassDecl::Emit`. -/
def EmitVTable (cid : Identifier) (classLabel : String) (st : EmitState) : Option EmitState :=
  match getClass st cid with
  | none => none
  | some obj =>
    match obj.vTable with
    | none => none
    | some vt =>
      match st.vTables[vt]? with
      | none => none
      | some vTable =>
        some (st.request (Request.GenVTable classLabel (vTable.map (GetMethodLabel st))))

/-- Method `ClassDecl::Emit` on the class `cid`.  The first argument bounds the
depth of the calls `parent->Emit`: `none` with no fuel left stands for a
recursion that never ends.  With a parent, the class takes the list objects
that `GetVTable` and `GetFields` return and a new allocator made from
`GetFalloc`. -/
def ClassDecl.Emit (x : Ext) : Nat → Identifier → EmitState → Option EmitState
  | 0, _, _ => none
  | fuel + 1, cid, st =>
    match getClass st cid with
    | none => none
    | some obj =>
      if obj.classFalloc.isSome then some st
      else
        let classLabel := x.NewClassLabel obj.info.decl.id.name
        let st0 := st.request (Request.NewClassLabel obj.info.decl.id.name)
        let inherited : Option EmitState :=
          match obj.info.decl.extends_ with
          | some _ =>
            match obj.info.parent with
            | none => none
            | some parent =>
              match ClassDecl.Emit x fuel parent.id st0 with
              | none => none
              | some st1 =>
                match getClass st1 parent.id with
                | none => none
                | some pobj =>
                  match pobj.GetFalloc with
                  | none => none
                  | some pf =>
                    some (setClass st1
                      { obj with vTable := pobj.GetVTable, fields := pobj.GetFields,
                                 classFalloc := some pf.inherit })
          | none =>
            some (setClass
              { st0 with vTables := st0.vTables ++ [[]], fieldLists := st0.fieldLists ++ [[]] }
              { obj with vTable := some st0.vTables.length,
                         fields := some st0.fieldLists.length,
                         classFalloc := some ⟨Segment.classRelative, Direction.FRAME_UP,
                           x.FrameBase Segment.classRelative Direction.FRAME_UP,
                           x.FrameBase Segment.classRelative Direction.FRAME_UP⟩ })
        match inherited with
        | none => none
        | some st2 =>
          match EmitMembers x cid classLabel 0 obj.info.decl.members st2 with
          | none => none
          | some st3 => EmitVTable cid classLabel st3

/-- Modelled from the spec: the state in which emission starts after the three
passes: no class is emitted yet, no list exists, nothing was requested. -/
def EmitState.start (r : Checked) : EmitState :=
  ⟨r.scopes, r.classes.map (fun ci => ⟨ci, none, none, none⟩), [], [], [], r.envs, []⟩

/-- Modelled from the spec: the emitter "walks the checked AST" and calls
`ClassDecl::Emit` for every class of the program in lexical order; the calls
for the parents come from `ClassDecl::Emit` itself. -/
def EmitClasses (x : Ext) : List Decl → EmitState → Option EmitState
  | [], st => some st
  | Decl.cls c :: ds, st =>
    match ClassDecl.Emit x (st.classes.length + 1) c.id st with
    | none => none
    | some st1 => EmitClasses x ds st1
  | _ :: ds, st => EmitClasses x ds st

/-- The dispatch table of the class `id`: the list its `vTable` field points
to. -/
def vTableOf (st : EmitState) (id : Identifier) : Option (List FnDecl) :=
  match getClass st id with
  | none => none
  | some obj =>
    match obj.vTable with
    | none => none
    | some vt => st.vTables[vt]?

/-- The label list of the `GenVTable` requests made for the class label
`classLabel`. -/
def vTableRequests (st : EmitState) (classLabel : String) : List (List (Option String)) :=
  st.requests.filterMap (fun r =>
    match r with
    | Request.GenVTable l ls => if l = classLabel then some ls else none
    | _ => none)

/-- The allocator of the class `id`, once `ClassDecl::Emit` has created it. -/
def fallocOf (st : EmitState) (id : Identifier) : Option FrameAllocator :=
  match getClass st id with
  | none => none
  | some o => o.classFalloc

/-- The test `classFalloc != NULL` at the head of `ClassDecl::Emit`. -/
def emitted (st : EmitState) (id : Identifier) : Bool := (fallocOf st id).isSome

/-- From `st` to `st2` no class object appears or disappears and a class whose
`classFalloc` is set keeps it set. -/
def ClassesKept (st st2 : EmitState) : Prop :=
  ∀ c, (getClass st2 c).isSome = (getClass st c).isSome
    ∧ (emitted st c = true → emitted st2 c = true)

/-- The field list of the class `id`: the list its `fields` field points to. -/
def fieldsOf (st : EmitState) (id : Identifier) : Option (List VarDecl) :=
  match getClass st id with
  | none => none
  | some obj =>
    match obj.fields with
    | none => none
    | some fl => st.fieldLists[fl]?

/-- The allocator `fa` after `k` more allocations of four bytes. -/
def FrameAllocator.after (fa : FrameAllocator) (k : Nat) : FrameAllocator :=
  { fa with offset :=
      match fa.direction with
      | Direction.FRAME_UP => fa.offset + 4 * k
      | Direction.FRAME_DOWN => fa.offset - 4 * k }

/-- The number of fields among members. -/
def fieldCount : List Member → Nat
  | [] => 0
  | Member.field _ :: ms => fieldCount ms + 1
  | Member.method _ :: ms => fieldCount ms

/-- Every class allocator that exists is class-relative and grows up. -/
def ClassAllocators (st : EmitState) : Prop :=
  ∀ c fa, fallocOf st c = some fa
    → fa.segment = Segment.classRelative ∧ fa.direction = Direction.FRAME_UP

/-- The fields of passes 1 and 2 of the class object `id`. -/
def infoOf (st : EmitState) (id : Identifier) : Option ClassInfo :=
  (getClass st id).map (fun o => o.info)

/-- Whether the request is a `GenVTable`. -/
def Request.isGenVTable : Request → Bool
  | Request.GenVTable _ _ => true
  | _ => false

/-- Every `methodLabel` set so far is the one `SetMethodLabel` builds for a
method of a class: the label of that class, a dot, the name of the method. -/
def LabelsInv (x : Ext) (st : EmitState) : Prop :=
  ∀ e ∈ st.methodLabels, ∃ c info g,
    infoOf st c = some info ∧ Member.method g ∈ info.decl.members ∧ g.id = e.1
      ∧ e.2 = x.NewClassLabel info.decl.id.name ++ "." ++ g.id.name

/-- Every entry of every dispatch table has its `methodLabel` set. -/
def TablesLabelled (st : EmitState) : Prop :=
  ∀ vTable ∈ st.vTables, ∀ f ∈ vTable, (GetMethodLabel st f).isSome = true

/-- Statement bodies do not register dispatch tables. -/
def StmtsPlain (x : Ext) : Prop :=
  ∀ body fa h env r, r ∈ (x.StmtEmit body fa h env).1 → r.isGenVTable = false

/-- The allocator `new FrameAllocator(fpRelative, FRAME_UP)` of `FnDecl::Emit`,
from which the formals are allocated. -/
def paramFalloc (x : Ext) : FrameAllocator :=
  ⟨Segment.fpRelative, Direction.FRAME_UP,
    x.FrameBase Segment.fpRelative Direction.FRAME_UP,
    x.FrameBase Segment.fpRelative Direction.FRAME_UP⟩

/-- The allocator `new FrameAllocator(fpRelative, FRAME_DOWN)` of
`FnDecl::Emit`, which is passed to the body. -/
def bodyFalloc (x : Ext) : FrameAllocator :=
  ⟨Segment.fpRelative, Direction.FRAME_DOWN,
    x.FrameBase Segment.fpRelative Direction.FRAME_DOWN,
    x.FrameBase Segment.fpRelative Direction.FRAME_DOWN⟩

/-! ## Interface obligations, as the specification words them -/

/-- The interface method occurrences of an implements list: for every entry
that resolves to an interface, in the order of the list, the methods of that
interface in member order, each with the entry that brings it in. -/
def occurrences (h : Scopes) (env : Nat) : List NamedType → List (NamedType × FnDecl)
  | [] => []
  | t :: rest =>
    (match resolveInterface h env t with
      | some (some d) => d.members.map (fun fn => (t, fn))
      | _ => [])
    ++ occurrences h env rest

/-- The first occurrence of a method name among occurrences. -/
def firstOccurrence (occ : List (NamedType × FnDecl)) (name : String) :
    Option (NamedType × FnDecl) :=
  occ.find? (fun o => o.2.GetName == name)

/-- The occurrences, in order, whose name has an earlier occurrence (in `seen`
or before it in the list) the first of which is not type-equal to it. -/
def mismatches (x : Ext) : List (NamedType × FnDecl) → List (NamedType × FnDecl) → List FnDecl
  | _, [] => []
  | seen, o :: rest =>
    (match firstOccurrence seen o.2.GetName with
      | some first => if o.2.TypeEqual x first.2 then [] else [o.2]
      | none => [])
    ++ mismatches x (seen ++ [o]) rest

/-- The obligation table agrees with the occurrences seen so far. -/
def TableInv (T : Hashtable VFunction) (seen : List (NamedType × FnDecl)) : Prop :=
  (T.map Prod.fst).Nodup
    ∧ (∀ name, T.Lookup name
        = (firstOccurrence seen name).map (fun o => (⟨o.2, o.1, false⟩ : VFunction)))
    ∧ ∀ e ∈ T, e.1 = e.2.prototype.GetName

/-- Whether a report is an `InterfaceNotImplemented` for an interface type
named `n`. -/
def Report.isNotImplemented (n : String) : Report → Bool
  | .InterfaceNotImplemented _ t => t.GetName == n
  | _ => false

/-- The obligation `vf` is missing in the class: `findInClass` finds no function
with the name of its prototype. -/
def missingIn (h : Scopes) (classEnv : Nat) (vf : VFunction) : Bool :=
  (findInClass h classEnv vf.prototype.GetName (some SymbolType.S_FUNCTION)).isNone

/-- The `Assert(method != 0)` of `CheckAgainstInterfaces` holds for the
obligation `vf`: what `findInClass` finds for it is a function declaration. -/
def methodCastOk (h : Scopes) (classEnv : Nat) (vf : VFunction) : Bool :=
  match findInClass h classEnv vf.prototype.GetName (some SymbolType.S_FUNCTION) with
  | none => true
  | some sym =>
    match sym.node with
    | .fn _ => true
    | _ => false

/-- The table `incompleteIntfs` agrees with the obligations processed so far,
and no `InterfaceNotImplemented` was reported yet. -/
def IncompleteInv (h : Scopes) (classEnv : Nat) (st : ObligationState)
    (done : List VFunction) : Prop :=
  (st.incompleteIntfs.map Prod.fst).Nodup
    ∧ (∀ e ∈ st.incompleteIntfs, e.1 = e.2.GetName
        ∧ ∃ vf ∈ done, vf.intfType = e.2 ∧ missingIn h classEnv vf = true)
    ∧ (∀ vf ∈ done, missingIn h classEnv vf = true
        → vf.intfType.GetName ∈ st.incompleteIntfs.map Prod.fst)
    ∧ ∀ rep ∈ st.reports, ∀ cd t, rep ≠ Report.InterfaceNotImplemented cd t

/-! ## Scanner tokens (`lscanner.h`) -/

/-- Enumeration `TokenType`, enumerators in the order of the declaration. -/
inductive TokenType where
  | T_Void | T_Int | T_Double | T_Bool | T_String | T_Class | T_Null | T_Dims | T_LessEqual
  | T_GreaterEqual | T_Equal | T_NotEqual | T_And | T_Or | T_While | T_For | T_If | T_Else
  | T_Return | T_Break | T_Extends | T_This | T_Implements | T_Interface | T_New
  | T_NewArray | T_Identifier | T_StringConstant | T_IntConstant | T_DoubleConstant
  | T_BoolConstant | T_Print | T_ReadInteger | T_ReadLine | T_Unsigned | T_Continue
  | T_LeftShift | T_RightShift | T_Increment | T_Decrement | T_Sizeof | T_Typeof
  | T_NumTokenTypes
  deriving DecidableEq, Repr

/-- The enumerators of `TokenType` in the order of the declaration. -/
def TokenType.enumerators : List TokenType :=
  [.T_Void, .T_Int, .T_Double, .T_Bool, .T_String, .T_Class, .T_Null, .T_Dims,
   .T_LessEqual, .T_GreaterEqual, .T_Equal, .T_NotEqual, .T_And, .T_Or, .T_While, .T_For,
   .T_If, .T_Else, .T_Return, .T_Break, .T_Extends, .T_This, .T_Implements, .T_Interface,
   .T_New, .T_NewArray, .T_Identifier, .T_StringConstant, .T_IntConstant,
   .T_DoubleConstant, .T_BoolConstant, .T_Print, .T_ReadInteger, .T_ReadLine, .T_Unsigned,
   .T_Continue, .T_LeftShift, .T_RightShift, .T_Increment, .T_Decrement, .T_Sizeof,
   .T_Typeof, .T_NumTokenTypes]

/-- Value of an enumerator: `T_Void = 256`, every later one is one more than
the one before it. -/
def TokenType.val (t : TokenType) : Nat := 256 + TokenType.enumerators.indexOf t

/-- The token types proper: the enumerators declared before `T_NumTokenTypes`. -/
def TokenType.tokens : List TokenType :=
  TokenType.enumerators.filter (fun t => decide (t.val < TokenType.T_NumTokenTypes.val))

/-- The initialisers of `gTokenNames`, as written in the braces. -/
def gTokenNamesInit : List String :=
  ["T_Void", "T_Int", "T_Double", "T_Bool", "T_String", "T_Class", "T_Null", "T_Dims",
   "T_LessEqual", "T_GreaterEqual", "T_Equal", "T_NotEqual", "T_And", "T_Or", "T_While",
   "T_For", "T_If", "T_Else", "T_Return", "T_Break", "T_Extends", "T_This", "T_Implements",
   "T_Interface", "T_New", "T_NewArray", "T_Identifier", "T_StringConstant",
   "T_IntConstant", "T_DoubleConstant", "T_BoolConstant", "T_Print", "T_ReadInteger",
   "T_ReadLine"]

/-- Array `gTokenNames[T_NumTokenTypes]`: the elements that have an initialiser
hold it, the elements behind the last initialiser are null pointers (`none`). -/
def gTokenNames : List (Option String) :=
  (List.range TokenType.T_NumTokenTypes.val).map (fun i => gTokenNamesInit[i]?)

/-- The entry of `gTokenNames` at the position of the token, its value minus
`T_Void`; the outer `none` is an index outside the array. -/
def gTokenName (t : TokenType) : Option (Option String) :=
  gTokenNames[t.val - TokenType.T_Void.val]?

/-- The printable name the specification asks for: the identifier of the
enumerator as a string. -/
def TokenType.identifier : TokenType → String
  | .T_Void => "T_Void"
  | .T_Int => "T_Int"
  | .T_Double => "T_Double"
  | .T_Bool => "T_Bool"
  | .T_String => "T_String"
  | .T_Class => "T_Class"
  | .T_Null => "T_Null"
  | .T_Dims => "T_Dims"
  | .T_LessEqual => "T_LessEqual"
  | .T_GreaterEqual => "T_GreaterEqual"
  | .T_Equal => "T_Equal"
  | .T_NotEqual => "T_NotEqual"
  | .T_And => "T_And"
  | .T_Or => "T_Or"
  | .T_While => "T_While"
  | .T_For => "T_For"
  | .T_If => "T_If"
  | .T_Else => "T_Else"
  | .T_Return => "T_Return"
  | .T_Break => "T_Break"
  | .T_Extends => "T_Extends"
  | .T_This => "T_This"
  | .T_Implements => "T_Implements"
  | .T_Interface => "T_Interface"
  | .T_New => "T_New"
  | .T_NewArray => "T_NewArray"
  | .T_Identifier => "T_Identifier"
  | .T_StringConstant => "T_StringConstant"
  | .T_IntConstant => "T_IntConstant"
  | .T_DoubleConstant => "T_DoubleConstant"
  | .T_BoolConstant => "T_BoolConstant"
  | .T_Print => "T_Print"
  | .T_ReadInteger => "T_ReadInteger"
  | .T_ReadLine => "T_ReadLine"
  | .T_Unsigned => "T_Unsigned"
  | .T_Continue => "T_Continue"
  | .T_LeftShift => "T_LeftShift"
  | .T_RightShift => "T_RightShift"
  | .T_Increment => "T_Increment"
  | .T_Decrement => "T_Decrement"
  | .T_Sizeof => "T_Sizeof"
  | .T_Typeof => "T_Typeof"
  | .T_NumTokenTypes => "T_NumTokenTypes"

/-! ## Example inputs -/

/-- Example externals: two types are equivalent when they are the same, every
type resolves, a body declares nothing, checks and emits nothing, a class label is the
class name, allocators start at offset 0. -/
def exExt : Ext where
  IsEquivalentTo := fun a b => decide (a = b)
  TypeCheck := fun _ _ _ => true
  GetIdent := fun t =>
    match t with
    | Ty.named id => id
    | _ => ⟨"", 0⟩
  StmtCheckDecls := fun _ h _ => (true, [], h)
  StmtCheck := fun _ _ _ => (true, [])
  StmtEmit := fun _ fa h _ => ([], fa, h)
  NewClassLabel := fun n => n
  FrameBase := fun _ _ => 0

/-- The type `int`. -/
def exInt : Ty := Ty.base "int"

/-- The type `void`. -/
def exVoid : Ty := Ty.base "void"

/-- A global scope that already binds `Shape` to a variable. -/
def exBoundScopes : Scopes :=
  [⟨[("Shape", ⟨SymbolType.S_VARIABLE, Decl.var ⟨⟨"Shape", 1⟩, exInt⟩, none, none⟩)],
    none, none, none⟩]

/-- A later class `Shape { int x; int area(int x, int x) }`. -/
def exShape : ClassDecl :=
  ⟨⟨"Shape", 2⟩, none, [],
    [Member.field ⟨⟨"x", 3⟩, exInt⟩,
     Member.method ⟨⟨"area", 4⟩, exInt, [⟨⟨"x", 5⟩, exInt⟩, ⟨⟨"x", 6⟩, exInt⟩], some ⟨0⟩⟩]⟩

/-- A one-argument method `int f(int a)` at position `loc`. -/
def exF1 (loc : Nat) : FnDecl := ⟨⟨"f", loc⟩, exInt, [⟨⟨"a", loc + 1⟩, exInt⟩], some ⟨loc⟩⟩

/-- A two-argument method `int f(int a, int b)` at position `loc`. -/
def exF2 (loc : Nat) : FnDecl :=
  ⟨⟨"f", loc⟩, exInt, [⟨⟨"a", loc + 1⟩, exInt⟩, ⟨⟨"b", loc + 2⟩, exInt⟩], some ⟨loc⟩⟩

/-- Scenario 3 of the specification: `class P { int f(int a) }` and
`class Q extends P { int x; int f(int a, int b) }`. -/
def exP : ClassDecl := ⟨⟨"P", 10⟩, none, [], [Member.method (exF1 11)]⟩

/-- The subclass of scenario 3. -/
def exQ : ClassDecl :=
  ⟨⟨"Q", 20⟩, some ⟨⟨"P", 21⟩⟩, [], [Member.field ⟨⟨"x", 22⟩, exInt⟩, Member.method (exF2 23)]⟩

/-- The scopes of scenario 3 after passes 1 and 2. -/
def exPQScopes : Scopes :=
  match CheckAll exExt [Decl.cls exP, Decl.cls exQ] with
  | some r => r.scopes
  | none => []

/-- A class `R extends P { int f; }`: a field with the name of the method `f`
of `P`. -/
def exR : ClassDecl := ⟨⟨"R", 30⟩, some ⟨⟨"P", 31⟩⟩, [], [Member.field ⟨⟨"f", 32⟩, exInt⟩]⟩

/-- The scopes of `P` and `R` after passes 1 and 2. -/
def exPRScopes : Scopes :=
  match CheckAll exExt [Decl.cls exP, Decl.cls exR] with
  | some r => r.scopes
  | none => []

/-- A class `A { int x; }`. -/
def exA : ClassDecl := ⟨⟨"A", 40⟩, none, [], [Member.field ⟨⟨"x", 41⟩, exInt⟩]⟩

/-- A class `B extends A { int x; }` that declares the field of `A` again. -/
def exB : ClassDecl := ⟨⟨"B", 50⟩, some ⟨⟨"A", 51⟩⟩, [], [Member.field ⟨⟨"x", 52⟩, exInt⟩]⟩

/-- The scopes of `A` and `B` after passes 1 and 2. -/
def exABScopes : Scopes :=
  match CheckAll exExt [Decl.cls exA, Decl.cls exB] with
  | some r => r.scopes
  | none => []

/-- Interface `I { int f(int a); void g(); }`. -/
def exI : InterfaceDecl :=
  ⟨⟨"I", 60⟩, [⟨⟨"f", 61⟩, exInt, [⟨⟨"a", 62⟩, exInt⟩], none⟩, ⟨⟨"g", 63⟩, exVoid, [], none⟩]⟩

/-- Interface `J { void f(); void k(); }`: its `f` differs from the `f` of `I`. -/
def exJ : InterfaceDecl :=
  ⟨⟨"J", 70⟩, [⟨⟨"f", 71⟩, exVoid, [], none⟩, ⟨⟨"k", 72⟩, exVoid, [], none⟩]⟩

/-- Class `C implements I, Missing, J { int f(int a) }`; `Missing` is not
declared. -/
def exC : ClassDecl :=
  ⟨⟨"C", 80⟩, none, [⟨⟨"I", 81⟩⟩, ⟨⟨"Missing", 82⟩⟩, ⟨⟨"J", 83⟩⟩], [Member.method (exF1 84)]⟩

/-- The scopes of `I`, `J` and `C` after pass 1. -/
def exIJCScopes : Scopes :=
  (CheckDeclsProgram exExt globalScopes 0 [Decl.intf exI, Decl.intf exJ, Decl.cls exC]).scopes

/-- The entry `I` of the implements list of `exC`. -/
def exEntryI : NamedType := ⟨⟨"I", 81⟩⟩

/-- The entry `J` of the implements list of `exC`. -/
def exEntryJ : NamedType := ⟨⟨"J", 83⟩⟩

/-- Interface `I1 { void m(); }`, the first of two interfaces that require `m`;
the class `D implements I1, I2 { }` declares no method. -/
def exI1 : InterfaceDecl := ⟨⟨"I1", 90⟩, [⟨⟨"m", 91⟩, exVoid, [], none⟩]⟩

/-- The second interface, which requires `m` as well. -/
def exI2 : InterfaceDecl :=
  ⟨⟨"I2", 92⟩, [⟨⟨"m", 93⟩, exVoid, [], none⟩]⟩

/-- The class that implements `I1` and `I2`. -/
def exD : ClassDecl := ⟨⟨"D", 95⟩, none, [⟨⟨"I1", 96⟩⟩, ⟨⟨"I2", 97⟩⟩], []⟩

/-- The scopes of `I1`, `I2` and `D` after pass 1. -/
def exDScopes : Scopes :=
  (CheckDeclsProgram exExt globalScopes 0 [Decl.intf exI1, Decl.intf exI2, Decl.cls exD]).scopes

/-- The obligation table of `D` after `Inherit`. -/
def exDvFunctions : Hashtable VFunction :=
  match exD.Inherit exExt exDScopes 0 5 with
  | some r => r.vFunctions
  | none => []

/-- A method `void g()` at position `loc`. -/
def exG (loc : Nat) : FnDecl := ⟨⟨"g", loc⟩, exVoid, [], some ⟨loc⟩⟩

/-- A class `Q2 extends P { void g(); int f(int a) }`: its `f` overrides the
`f` of `P` with the same signature. -/
def exQ2 : ClassDecl :=
  ⟨⟨"Q2", 100⟩, some ⟨⟨"P", 101⟩⟩, [], [Member.method (exG 102), Member.method (exF1 103)]⟩

/-- The program `class P { int f(int a) } class Q2 extends P { void g(); int f(int a) }`. -/
def exOverrideProgram : List Decl := [Decl.cls exP, Decl.cls exQ2]

/-- The emission state of a program after the three passes, classes emitted in
lexical order. -/
def emitAfterCheck (x : Ext) (decls : List Decl) : Option EmitState :=
  match CheckAll x decls with
  | none => none
  | some r => EmitClasses x decls (EmitState.start r)

/-- A class `S extends P { void g() }`. -/
def exS : ClassDecl := ⟨⟨"S", 110⟩, some ⟨⟨"P", 111⟩⟩, [], [Member.method (exG 112)]⟩

/-- A class `T extends P { }` without members. -/
def exT : ClassDecl := ⟨⟨"T", 120⟩, some ⟨⟨"P", 121⟩⟩, [], []⟩

/-- The program `class P { int f(int a) } class S extends P { void g() }
class T extends P { }`. -/
def exSiblingProgram : List Decl := [Decl.cls exP, Decl.cls exS, Decl.cls exT]

/-- An interface `K { }` and a class `U extends K { }`. -/
def exK : InterfaceDecl := ⟨⟨"K", 130⟩, []⟩

/-- The class that names an interface in its extends clause. -/
def exU : ClassDecl := ⟨⟨"U", 140⟩, some ⟨⟨"K", 141⟩⟩, [], []⟩

/-- The program `interface K { } class U extends K { }`. -/
def exExtendsInterface : List Decl := [Decl.intf exK, Decl.cls exU]

/-- Interface `I3 { void p(); void q(); }`. -/
def exI3 : InterfaceDecl :=
  ⟨⟨"I3", 150⟩, [⟨⟨"p", 151⟩, exVoid, [], none⟩, ⟨⟨"q", 152⟩, exVoid, [], none⟩]⟩

/-- Class `E implements I3 { int x; }`, which declares neither `p` nor `q`. -/
def exE : ClassDecl := ⟨⟨"E", 160⟩, none, [⟨⟨"I3", 161⟩⟩], [Member.field ⟨⟨"x", 162⟩, exInt⟩]⟩

/-- The scopes of `I3` and `E` after pass 1. -/
def exEScopes : Scopes :=
  (CheckDeclsProgram exExt globalScopes 0 [Decl.intf exI3, Decl.cls exE]).scopes

/-- The obligation table of `E` after `Inherit`. -/
def exEvFunctions : Hashtable VFunction :=
  match exE.Inherit exExt exEScopes 0 4 with
  | some r => r.vFunctions
  | none => []

/-- A class `Dup { int x; int x; }` that declares the field `x` twice. -/
def exDup : ClassDecl :=
  ⟨⟨"Dup", 180⟩, none, [], [Member.field ⟨⟨"x", 181⟩, exInt⟩, Member.field ⟨⟨"x", 182⟩, exInt⟩]⟩

/-- An interface `DupI { void m(); void m(); }` that declares `m` twice. -/
def exDupI : InterfaceDecl :=
  ⟨⟨"DupI", 185⟩, [⟨⟨"m", 186⟩, exVoid, [], none⟩, ⟨⟨"m", 187⟩, exVoid, [], none⟩]⟩

/-- Example externals in which no named type resolves. -/
def exStrictExt : Ext := { exExt with
  TypeCheck := fun t _ _ =>
    match t with
    | Ty.named _ => false
    | _ => true }

/-- A class `Q3 extends P { Missing y; int f(int a, int b) }`: its `f` does not
match the `f` of `P` and the type of its field does not resolve. -/
def exQ3 : ClassDecl :=
  ⟨⟨"Q3", 190⟩, some ⟨⟨"P", 191⟩⟩, [],
    [Member.field ⟨⟨"y", 192⟩, Ty.named ⟨"Missing", 193⟩⟩, Member.method (exF2 194)]⟩

/-- The scopes of `P` and `Q3` after passes 1 and 2. -/
def exPQ3Scopes : Scopes :=
  match CheckAll exStrictExt [Decl.cls exP, Decl.cls exQ3] with
  | some r => r.scopes
  | none => []

/-- Interface `I4 { int f(int a); }`. -/
def exI4 : InterfaceDecl := ⟨⟨"I4", 200⟩, [⟨⟨"f", 201⟩, exInt, [⟨⟨"a", 202⟩, exInt⟩], none⟩]⟩

/-- Class `G implements I4 { int f(int a) }`, which meets its obligation. -/
def exGood : ClassDecl := ⟨⟨"G", 210⟩, none, [⟨⟨"I4", 211⟩⟩], [Member.method (exF1 212)]⟩

/-- Class `H implements I4 { int f(int a, int b) }`: a function with the name of
the obligation and another signature. -/
def exH : ClassDecl := ⟨⟨"H", 220⟩, none, [⟨⟨"I4", 221⟩⟩], [Member.method (exF2 222)]⟩

/-- The program `interface I4 { int f(int a); } class G implements I4 { int f(int a) }`. -/
def exGoodProgram : List Decl := [Decl.intf exI4, Decl.cls exGood]

/-- The program `interface I4 { int f(int a); } class H implements I4 { int f(int a, int b) }`. -/
def exMismatchProgram : List Decl := [Decl.intf exI4, Decl.cls exH]

/-- The scopes of a program after the three passes. -/
def scopesOf (x : Ext) (decls : List Decl) : Scopes :=
  match CheckAll x decls with
  | some r => r.scopes
  | none => []

/-- The obligation table that pass 2 leaves in the class `id` of a program. -/
def vFunctionsOf (x : Ext) (decls : List Decl) (id : Identifier) : Hashtable VFunction :=
  match CheckAll x decls with
  | some r =>
    match classOf r.classes id with
    | some ci => ci.vFunctions
    | none => []
  | none => []

/-- The state in which emission of the sibling program starts. -/
def exSiblingStart : EmitState :=
  match CheckAll exExt exSiblingProgram with
  | some r => EmitState.start r
  | none => ⟨[], [], [], [], [], [], []⟩

/-- The sibling program with `P` emitted. -/
def exSiblingAfterP : EmitState :=
  match ClassDecl.Emit exExt 4 exP.id exSiblingStart with
  | some st => st
  | none => exSiblingStart

/-- A class `B2 extends A { int y; }`. -/
def exB2 : ClassDecl := ⟨⟨"B2", 230⟩, some ⟨⟨"A", 231⟩⟩, [], [Member.field ⟨⟨"y", 232⟩, exInt⟩]⟩

/-- A class `C2 extends A { int z; }`, a sibling of `B2`. -/
def exC2 : ClassDecl := ⟨⟨"C2", 240⟩, some ⟨⟨"A", 241⟩⟩, [], [Member.field ⟨⟨"z", 242⟩, exInt⟩]⟩

/-- The program `class A { int x; } class B2 extends A { int y; }
class C2 extends A { int z; }`. -/
def exFieldProgram : List Decl := [Decl.cls exA, Decl.cls exB2, Decl.cls exC2]

/-- The state in which emission of the field program starts. -/
def exFieldStart : EmitState :=
  match CheckAll exExt exFieldProgram with
  | some r => EmitState.start r
  | none => ⟨[], [], [], [], [], [], []⟩

/-- The field program after `ClassDecl::Emit` on `B2`, which emits `A` first. -/
def exFieldAfterB2 : EmitState :=
  match ClassDecl.Emit exExt 4 exB2.id exFieldStart with
  | some st => st
  | none => exFieldStart

/-- The class object of `B2` before emission. -/
def exB2Obj : ClassObj := ⟨⟨exB2, 2, some exA, []⟩, none, none, none⟩

/-- The class object of `S` in the sibling program before emission. -/
def exSObj : ClassObj :=
  match getClass exSiblingStart exS.id with
  | some o => o
  | none => ⟨⟨exS, 0, none, []⟩, none, none, none⟩

/-- The sibling program after `ClassDecl::Emit` on `S`, called before any
other class was emitted. -/
def exSiblingAfterS : EmitState :=
  match ClassDecl.Emit exExt 4 exS.id exSiblingStart with
  | some st => st
  | none => exSiblingStart

/-- The sibling program before emission, with the method label of `P.f` set as
`ClassDecl::Emit` sets it. -/
def exLabelled : EmitState := SetMethodLabel exSiblingStart (exF1 11) "P"

/-- The state after `FnDecl::Emit` on `P.f`. -/
def exAfterF : EmitState :=
  match (exF1 11).Emit exExt exLabelled with
  | some st => st
  | none => exLabelled

/-- A method `void h()` at position `loc`. -/
def exH0 (loc : Nat) : FnDecl := ⟨⟨"h", loc⟩, exVoid, [], some ⟨loc⟩⟩

/-- A class `W { void g() int f(int a) }` without parent and with two methods. -/
def exW : ClassDecl :=
  ⟨⟨"W", 300⟩, none, [], [Member.method (exG 301), Member.method (exF1 302)]⟩

/-- The state in which emission of the program `class W` starts. -/
def exWStart : EmitState :=
  match CheckAll exExt [Decl.cls exW] with
  | some r => EmitState.start r
  | none => ⟨[], [], [], [], [], [], []⟩

/-- The state of `ClassDecl::Emit` on `W` when the member loop begins: the
class label was requested, the table and the field list are new and empty. -/
def exWEntered : EmitState :=
  match getClass exWStart exW.id with
  | some obj =>
    setClass
      { exWStart.request (Request.NewClassLabel "W") with vTables := [[]], fieldLists := [[]] }
      { obj with vTable := some 0, fields := some 0,
                 classFalloc := some ⟨Segment.classRelative, Direction.FRAME_UP, 0, 0⟩ }
  | none => exWStart

/-- A class `L extends L { }` that names itself as its parent. -/
def exLoop : ClassDecl := ⟨⟨"L", 310⟩, some ⟨⟨"L", 311⟩⟩, [], []⟩

/-- The state in which emission of the program `class L extends L` starts. -/
def exLoopStart : EmitState :=
  match CheckAll exExt [Decl.cls exLoop] with
  | some r => EmitState.start r
  | none => ⟨[], [], [], [], [], [], []⟩

/-- The class object of `L` before emission. -/
def exLoopObj : ClassObj := ⟨⟨exLoop, 1, some exLoop, []⟩, none, none, none⟩

/-- A class `V extends P { void g() void h() }`: two methods with the same
signature and different names. -/
def exV : ClassDecl :=
  ⟨⟨"V", 320⟩, some ⟨⟨"P", 321⟩⟩, [], [Member.method (exG 322), Member.method (exH0 323)]⟩

/-- The program `class P { int f(int a) } class V extends P { void g() void h() }`. -/
def exReplaceProgram : List Decl := [Decl.cls exP, Decl.cls exV]

/-- A function `int other(int q)`: the signature of `exF1` under other names. -/
def exRenamed : FnDecl := ⟨⟨"other", 400⟩, exInt, [⟨⟨"q", 401⟩, exInt⟩], none⟩

/-- A class `Z extends P { int a; int b; void g() int c; }`: a method between
the fields. -/
def exZ : ClassDecl :=
  ⟨⟨"Z", 500⟩, some ⟨⟨"P", 501⟩⟩, [],
    [Member.field ⟨⟨"a", 502⟩, exInt⟩, Member.field ⟨⟨"b", 503⟩, exInt⟩,
     Member.method (exG 504), Member.field ⟨⟨"c", 505⟩, exInt⟩]⟩

/-- The program `class P { int f(int a) }
class Z extends P { int a; int b; void g() int c; }`. -/
def exUnreachedProgram : List Decl := [Decl.cls exP, Decl.cls exZ]

/-- The state in which emission of the program of `Z` starts. -/
def exZStart : EmitState :=
  match CheckAll exExt exUnreachedProgram with
  | some r => EmitState.start r
  | none => ⟨[], [], [], [], [], [], []⟩

/-- The program of `Z` with `P` emitted. -/
def exZAfterP : EmitState :=
  match ClassDecl.Emit exExt 3 exP.id exZStart with
  | some st => st
  | none => exZStart

/-- The class object of `Z` before its emission. -/
def exZObj : ClassObj :=
  match getClass exZAfterP exZ.id with
  | some o => o
  | none => ⟨⟨exZ, 0, none, []⟩, none, none, none⟩

/-- The class object of `P` after its emission. -/
def exPObj : ClassObj :=
  match getClass exZAfterP exP.id with
  | some o => o
  | none => ⟨⟨exP, 0, none, []⟩, none, none, none⟩

/-- The state of `ClassDecl::Emit` on `Z` when the member loop begins: the
class label was requested, the call on `P` returned at once, and `Z` took the
lists of `P` and a copy of its allocator. -/
def exZEntered : EmitState :=
  setClass (exZAfterP.request (Request.NewClassLabel "Z"))
    { exZObj with vTable := exPObj.vTable, fields := exPObj.fields,
                  classFalloc := some (FrameAllocator.inherit
                    ⟨Segment.classRelative, Direction.FRAME_UP, 0, 0⟩) }

/-- A method `void push(int v)`. -/
def exPush : FnDecl := ⟨⟨"push", 602⟩, exVoid, [⟨⟨"v", 603⟩, exInt⟩], some ⟨602⟩⟩

/-- A method `int pop()`. -/
def exPop : FnDecl := ⟨⟨"pop", 604⟩, exInt, [], some ⟨604⟩⟩

/-- A class `Stack { int sp; void push(int v) int pop() }` without parent. -/
def exStack : ClassDecl :=
  ⟨⟨"Stack", 600⟩, none, [],
    [Member.field ⟨⟨"sp", 601⟩, exInt⟩, Member.method exPush, Member.method exPop]⟩

/-- The state in which emission of the program `class Stack` starts. -/
def exStackStart : EmitState :=
  match CheckAll exExt [Decl.cls exStack] with
  | some r => EmitState.start r
  | none => ⟨[], [], [], [], [], [], []⟩

/-- The class object of `Stack` before its emission. -/
def exStackObj : ClassObj :=
  match getClass exStackStart exStack.id with
  | some o => o
  | none => ⟨⟨exStack, 0, none, []⟩, none, none, none⟩

/-- The state of `ClassDecl::Emit` on `Stack` when the member loop begins: the
class label was requested, the table and the field list are new and empty. -/
def exStackEntered : EmitState :=
  setClass
    { exStackStart.request (Request.NewClassLabel "Stack") with
      vTables := [[]], fieldLists := [[]] }
    { exStackObj with vTable := some 0, fields := some 0,
                      classFalloc := some ⟨Segment.classRelative, Direction.FRAME_UP, 0, 0⟩ }

/-! ## Pass 1: a declaration whose name is already bound -/

theorem getElem?_set_append_lt (h : Scopes) (env : Nat) (s c : SymTable) (henv : h[env]? = some s)
    (i : Nat) (hi : i < h.length) : ((h.set env s) ++ [c])[i]? = h[i]? := by
  rw [List.getElem?_append_left (by simpa using hi)]
  by_cases hie : env = i
  · subst hie
    rw [List.getElem?_set_self (by simpa using hi), henv]
  · rw [List.getElem?_set_ne hie]

theorem lt_length_of_getElem? {h : Scopes} {env : Nat} {s : SymTable} (henv : h[env]? = some s) :
    env < h.length := by
  rcases List.getElem?_eq_some.1 henv with ⟨hlt, _⟩
  exact hlt

theorem add_frame (h h2 : Scopes) (env : Nat) (name : String) (node : Decl)
    (hadd : add h env name node = some h2) (i : Nat) (hi : i ≠ env) : h2[i]? = h[i]? := by
  unfold add at hadd
  split at hadd
  · simp at hadd
  · split at hadd
    · simp at hadd
    · simp only [Option.some.injEq] at hadd
      subst hadd
      rw [List.getElem?_set_ne (Ne.symm hi)]

theorem VarDecl_CheckDecls_frame (v : VarDecl) (h : Scopes) (env i : Nat) (hi : i ≠ env) :
    (v.CheckDecls h env).scopes[i]? = h[i]? := by
  unfold VarDecl.CheckDecls
  split
  · rfl
  · split
    · rfl
    · next h2 hadd => exact add_frame h h2 env _ _ hadd i hi

theorem CheckDeclsFormals_frame (vs : List VarDecl) (h : Scopes) (env i : Nat) (hi : i ≠ env) :
    (CheckDeclsFormals h env vs).scopes[i]? = h[i]? := by
  induction vs generalizing h with
  | nil => rfl
  | cons v vs ih =>
    simp only [CheckDeclsFormals]
    rw [ih, VarDecl_CheckDecls_frame v h env i hi]

/-- The scopes that `addWithScope` leaves in front of the scope it worked on. -/
theorem addWithScope_frame (h : Scopes) (env : Nat) (name : String) (node : Decl)
    (kind : SymbolType) (i : Nat) (hi : i < env) :
    (addWithScope h env name node kind).2[i]? = h[i]? := by
  unfold addWithScope
  split
  · rfl
  · next s henv =>
    have hlt := lt_length_of_getElem? henv
    simp only
    rw [List.getElem?_append_left (by simp; omega), List.getElem?_set_ne (by omega)]

/-- The child scope of `addWithScope` lies behind the scope it was opened in. -/
theorem addWithScope_child (h : Scopes) (env : Nat) (name : String) (node : Decl)
    (kind : SymbolType) (c : Nat) (hc : (addWithScope h env name node kind).1 = some c) :
    env < c := by
  unfold addWithScope at hc
  split at hc
  · simp at hc
  · next s henv =>
    have hlt := lt_length_of_getElem? henv
    simp only [Option.some.injEq] at hc
    omega

theorem FnDecl_CheckDecls_frame (x : Ext)
    (hframe : ∀ s h e i, i < e → (x.StmtCheckDecls s h e).2.2[i]? = h[i]?)
    (f : FnDecl) (h : Scopes) (env i : Nat) (hi : i < env) :
    (f.CheckDecls x h env).scopes[i]? = h[i]? := by
  have h1 := addWithScope_frame h env f.id.name (Decl.fn f) SymbolType.S_FUNCTION i hi
  have h2 := addWithScope_child h env f.id.name (Decl.fn f) SymbolType.S_FUNCTION
  unfold FnDecl.CheckDecls
  rcases hres : addWithScope h env f.id.name (Decl.fn f) SymbolType.S_FUNCTION with ⟨o, hs⟩
  rw [hres] at h1 h2
  cases o with
  | none => simpa using h1
  | some c =>
    have hc : env < c := h2 c rfl
    have hf := CheckDeclsFormals_frame f.formals hs c i (by omega)
    simp only at h1
    cases hb : f.body with
    | none => simp only [hf, h1]
    | some b =>
      have hb2 := hframe b (CheckDeclsFormals hs c f.formals).scopes c i (by omega)
      simp only
      split <;> simp only [hb2, hf, h1]

theorem Member_CheckDecls_frame (x : Ext)
    (hframe : ∀ s h e i, i < e → (x.StmtCheckDecls s h e).2.2[i]? = h[i]?)
    (m : Member) (h : Scopes) (env i : Nat) (hi : i < env) :
    (m.CheckDecls x h env).scopes[i]? = h[i]? := by
  cases m with
  | method f => exact FnDecl_CheckDecls_frame x hframe f h env i hi
  | field v => exact VarDecl_CheckDecls_frame v h env i (by omega)

theorem CheckDeclsMembers_frame (x : Ext)
    (hframe : ∀ s h e i, i < e → (x.StmtCheckDecls s h e).2.2[i]? = h[i]?)
    (ms : List Member) (h : Scopes) (env i : Nat) (hi : i < env) :
    (CheckDeclsMembers x h env ms).scopes[i]? = h[i]? := by
  induction ms generalizing h with
  | nil => rfl
  | cons m ms ih =>
    simp only [CheckDeclsMembers]
    rw [ih, Member_CheckDecls_frame x hframe m h env i hi]

theorem CheckDeclsPrototypes_frame (x : Ext)
    (hframe : ∀ s h e i, i < e → (x.StmtCheckDecls s h e).2.2[i]? = h[i]?)
    (fs : List FnDecl) (h : Scopes) (env i : Nat) (hi : i < env) :
    (CheckDeclsPrototypes x h env fs).scopes[i]? = h[i]? := by
  induction fs generalizing h with
  | nil => rfl
  | cons f fs ih =>
    simp only [CheckDeclsPrototypes]
    rw [ih, FnDecl_CheckDecls_frame x hframe f h env i hi]

theorem VarDecl_CheckDecls_reports (d : Decl) (hd : ∀ w, d ≠ Decl.var w) (v : VarDecl)
    (h : Scopes) (env : Nat) :
    ∀ r ∈ (v.CheckDecls h env).reports, Report.isConflictOf d r = false := by
  unfold VarDecl.CheckDecls
  split
  · intro r hr
    simp only [List.mem_singleton] at hr
    subst hr
    simpa [Report.isConflictOf] using (hd v).symm
  · split <;> simp

theorem CheckDeclsFormals_reports (d : Decl) (hd : ∀ w, d ≠ Decl.var w) (vs : List VarDecl)
    (h : Scopes) (env : Nat) :
    ∀ r ∈ (CheckDeclsFormals h env vs).reports, Report.isConflictOf d r = false := by
  induction vs generalizing h with
  | nil => simp [CheckDeclsFormals]
  | cons v vs ih =>
    intro r hr
    simp only [CheckDeclsFormals, List.mem_append] at hr
    rcases hr with hr | hr
    · exact VarDecl_CheckDecls_reports d hd v h env r hr
    · exact ih _ r hr

theorem FnDecl_CheckDecls_reports (x : Ext) (d : Decl) (hd : ∀ w, d ≠ Decl.var w)
    (hbody : ∀ s h e, ∀ r ∈ (x.StmtCheckDecls s h e).2.1, Report.isConflictOf d r = false)
    (f : FnDecl) (hf : d ≠ Decl.fn f) (h : Scopes) (env : Nat) :
    ∀ r ∈ (f.CheckDecls x h env).reports, Report.isConflictOf d r = false := by
  have hconf : ∀ r ∈ (match findLocal h env f.id.name with
      | some sym => [Report.DeclConflict (Decl.fn f) sym.node]
      | none => []), Report.isConflictOf d r = false := by
    intro r hr
    split at hr
    · simp only [List.mem_singleton] at hr
      subst hr
      simpa [Report.isConflictOf] using hf.symm
    · simp at hr
  unfold FnDecl.CheckDecls
  rcases addWithScope h env f.id.name (Decl.fn f) SymbolType.S_FUNCTION with ⟨o, hs⟩
  cases o with
  | none => simpa using hconf
  | some c =>
    have hfm := CheckDeclsFormals_reports d hd f.formals hs c
    cases hb : f.body with
    | none =>
      intro r hr
      simp only [List.mem_append] at hr
      rcases hr with hr | hr
      · exact hconf r hr
      · exact hfm r hr
    | some b =>
      have hb2 := hbody b (CheckDeclsFormals hs c f.formals).scopes c
      intro r hr
      simp only at hr
      split at hr <;>
      · simp only [List.mem_append] at hr
        rcases hr with (hr | hr) | hr
        · exact hconf r hr
        · exact hfm r hr
        · exact hb2 r hr

theorem CheckDeclsMembers_reports (x : Ext) (d : Decl) (hd : ∀ w, d ≠ Decl.var w)
    (hdf : ∀ g, d ≠ Decl.fn g)
    (hbody : ∀ s h e, ∀ r ∈ (x.StmtCheckDecls s h e).2.1, Report.isConflictOf d r = false)
    (ms : List Member) (h : Scopes) (env : Nat) :
    ∀ r ∈ (CheckDeclsMembers x h env ms).reports, Report.isConflictOf d r = false := by
  induction ms generalizing h with
  | nil => simp [CheckDeclsMembers]
  | cons m ms ih =>
    intro r hr
    simp only [CheckDeclsMembers, List.mem_append] at hr
    rcases hr with hr | hr
    · cases m with
      | method f => exact FnDecl_CheckDecls_reports x d hd hbody f (hdf f) h env r hr
      | field v => exact VarDecl_CheckDecls_reports d hd v h env r hr
    · exact ih _ r hr

theorem CheckDeclsPrototypes_reports (x : Ext) (d : Decl) (hd : ∀ w, d ≠ Decl.var w)
    (hdf : ∀ g, d ≠ Decl.fn g)
    (hbody : ∀ s h e, ∀ r ∈ (x.StmtCheckDecls s h e).2.1, Report.isConflictOf d r = false)
    (fs : List FnDecl) (h : Scopes) (env : Nat) :
    ∀ r ∈ (CheckDeclsPrototypes x h env fs).reports, Report.isConflictOf d r = false := by
  induction fs generalizing h with
  | nil => simp [CheckDeclsPrototypes]
  | cons f fs ih =>
    intro r hr
    simp only [CheckDeclsPrototypes, List.mem_append] at hr
    rcases hr with hr | hr
    · exact FnDecl_CheckDecls_reports x d hd hbody f (hdf f) h env r hr
    · exact ih _ r hr

theorem filter_conflict_cons (d p : Decl) (rs : List Report)
    (hrs : ∀ r ∈ rs, Report.isConflictOf d r = false) :
    (Report.DeclConflict d p :: rs).filter (Report.isConflictOf d) = [Report.DeclConflict d p] := by
  rw [List.filter_cons_of_pos (by simp [Report.isConflictOf])]
  rw [List.filter_eq_nil_iff.2 (by simpa using hrs)]

/-- What `addWithScope` does when the name is already bound in the scope. -/
theorem addWithScope_bound (h : Scopes) (env : Nat) (name : String) (node : Decl)
    (kind : SymbolType) (sym : Symbol) (hb : findLocal h env name = some sym) :
    ∃ s, h[env]? = some s ∧ addWithScope h env name node kind
      = (some h.length, (h.set env s) ++ [⟨[], some env, none, s.thisEnv⟩]) := by
  unfold findLocal at hb
  unfold addWithScope
  cases henv : h[env]? with
  | none => simp [henv] at hb
  | some s =>
    simp only [henv] at hb
    exact ⟨s, rfl, by simp [hb]⟩

theorem findLocal_congr (h h2 : Scopes) (env : Nat) (name : String) (he : h2[env]? = h[env]?) :
    findLocal h2 env name = findLocal h env name := by
  unfold findLocal
  rw [he]

theorem setThis_frame (h : Scopes) (env t i : Nat) (hi : i ≠ env) :
    (setThis h env t)[i]? = h[i]? := by
  unfold setThis
  split
  · rfl
  · rw [List.getElem?_set_ne (Ne.symm hi)]

/-- C1. For each of the four declaration kinds, `CheckDecls` on a declaration
whose name the current scope already binds reports `DeclConflict(new, existing)`
and no other conflict for the new declaration, and a local lookup of the name
in that scope afterwards still gives the symbol of the first declaration.
Function bodies are external: their pass is taken not to report a conflict for
the enclosing declaration and not to touch scopes older than the one it is
called on. -/
theorem CheckDecls_name_bound (x : Ext) (d : Decl) (h : Scopes) (env : Nat) (sym : Symbol)
    (hframe : ∀ s h e i, i < e → (x.StmtCheckDecls s h e).2.2[i]? = h[i]?)
    (hbody : ∀ s h e, ∀ r ∈ (x.StmtCheckDecls s h e).2.1, Report.isConflictOf d r = false)
    (hbound : findLocal h env d.GetName = some sym) :
    (d.CheckDecls x h env).reports.filter (Report.isConflictOf d)
        = [Report.DeclConflict d sym.node]
      ∧ (d.CheckDecls x h env).reports.count (Report.DeclConflict d sym.node) = 1
      ∧ findLocal (d.CheckDecls x h env).scopes env d.GetName = some sym := by
  have key : (d.CheckDecls x h env).reports.filter (Report.isConflictOf d)
        = [Report.DeclConflict d sym.node]
      ∧ findLocal (d.CheckDecls x h env).scopes env d.GetName = some sym := by
    cases d with
    | var v =>
      simp only [Decl.GetName] at hbound
      simp [Decl.CheckDecls, VarDecl.CheckDecls, hbound, Decl.GetName, Report.isConflictOf]
    | fn f =>
      simp only [Decl.GetName] at hbound ⊢
      obtain ⟨s, henv, hadd⟩ :=
        addWithScope_bound h env f.id.name (Decl.fn f) SymbolType.S_FUNCTION sym hbound
      have hlt := lt_length_of_getElem? henv
      have hfm := CheckDeclsFormals_reports (Decl.fn f) (by simp) f.formals
        ((h.set env s) ++ [⟨[], some env, none, s.thisEnv⟩]) h.length
      have hfr := CheckDeclsFormals_frame f.formals
        ((h.set env s) ++ [⟨[], some env, none, s.thisEnv⟩]) h.length env (by omega)
      rw [getElem?_set_append_lt h env s _ henv env hlt] at hfr
      simp only [Decl.CheckDecls, FnDecl.CheckDecls, hadd, hbound]
      cases hb : f.body with
      | none =>
        dsimp only
        refine ⟨filter_conflict_cons _ _ _ hfm, ?_⟩
        exact (findLocal_congr h _ env _ hfr).trans hbound
      | some b =>
        have hb1 := hbody b (CheckDeclsFormals ((h.set env s) ++
          [⟨[], some env, none, s.thisEnv⟩]) h.length f.formals).scopes h.length
        have hb2 := hframe b (CheckDeclsFormals ((h.set env s) ++
          [⟨[], some env, none, s.thisEnv⟩]) h.length f.formals).scopes h.length env hlt
        simp only
        split <;>
        · refine ⟨?_, ?_⟩
          · simp only [List.singleton_append, List.cons_append]
            apply filter_conflict_cons
            intro r hr
            rcases List.mem_append.1 hr with hr | hr
            · exact hfm r hr
            · exact hb1 r hr
          · exact (findLocal_congr h _ env _ (hb2.trans hfr)).trans hbound
    | cls c =>
      simp only [Decl.GetName] at hbound ⊢
      obtain ⟨s, henv, hadd⟩ :=
        addWithScope_bound h env c.id.name (Decl.cls c) SymbolType.S_CLASS sym hbound
      have hlt := lt_length_of_getElem? henv
      have hbody2 : ∀ s h e, ∀ r ∈ (x.StmtCheckDecls s h e).2.1,
          Report.isConflictOf (Decl.cls c) r = false := hbody
      have hrm := CheckDeclsMembers_reports x (Decl.cls c) (by simp) (by simp) hbody2 c.members
        (setThis ((h.set env s) ++ [⟨[], some env, none, s.thisEnv⟩]) h.length h.length) h.length
      have hfr := CheckDeclsMembers_frame x hframe c.members
        (setThis ((h.set env s) ++ [⟨[], some env, none, s.thisEnv⟩]) h.length h.length)
        h.length env hlt
      rw [setThis_frame _ _ _ _ (by omega), getElem?_set_append_lt h env s _ henv env hlt] at hfr
      simp only [Decl.CheckDecls, ClassDecl.CheckDecls, hadd, hbound]
      refine ⟨filter_conflict_cons _ _ _ hrm, ?_⟩
      exact (findLocal_congr h _ env _ hfr).trans hbound
    | intf i =>
      simp only [Decl.GetName] at hbound ⊢
      obtain ⟨s, henv, hadd⟩ :=
        addWithScope_bound h env i.id.name (Decl.intf i) SymbolType.S_INTERFACE sym hbound
      have hlt := lt_length_of_getElem? henv
      have hbody2 : ∀ s h e, ∀ r ∈ (x.StmtCheckDecls s h e).2.1,
          Report.isConflictOf (Decl.intf i) r = false := hbody
      have hrm := CheckDeclsPrototypes_reports x (Decl.intf i) (by simp) (by simp) hbody2
        i.members ((h.set env s) ++ [⟨[], some env, none, s.thisEnv⟩]) h.length
      have hfr := CheckDeclsPrototypes_frame x hframe i.members
        ((h.set env s) ++ [⟨[], some env, none, s.thisEnv⟩]) h.length env hlt
      rw [getElem?_set_append_lt h env s _ henv env hlt] at hfr
      simp only [Decl.CheckDecls, InterfaceDecl.CheckDecls, hadd, hbound]
      refine ⟨filter_conflict_cons _ _ _ hrm, ?_⟩
      exact (findLocal_congr h _ env _ hfr).trans hbound
  refine ⟨key.1, ?_, key.2⟩
  have hc : (d.CheckDecls x h env).reports.count (Report.DeclConflict d sym.node)
      = ((d.CheckDecls x h env).reports.filter (Report.isConflictOf d)).count
          (Report.DeclConflict d sym.node) := by
    rw [List.count_filter (by simp [Report.isConflictOf])]
  rw [hc, key.1]
  simp

/-- Witness for C1: a class `Shape` declared where `Shape` is already a
variable. -/
theorem CheckDecls_name_bound_witness :
    findLocal exBoundScopes 0 (Decl.cls exShape).GetName
        = some ⟨SymbolType.S_VARIABLE, Decl.var ⟨⟨"Shape", 1⟩, exInt⟩, none, none⟩
      ∧ ((Decl.cls exShape).CheckDecls exExt exBoundScopes 0).reports.filter
          (Report.isConflictOf (Decl.cls exShape))
        = [Report.DeclConflict (Decl.cls exShape) (Decl.var ⟨⟨"Shape", 1⟩, exInt⟩)]
      ∧ ((Decl.cls exShape).CheckDecls exExt exBoundScopes 0).reports.count
          (Report.DeclConflict (Decl.cls exShape) (Decl.var ⟨⟨"Shape", 1⟩, exInt⟩)) = 1
      ∧ findLocal ((Decl.cls exShape).CheckDecls exExt exBoundScopes 0).scopes 0
          (Decl.cls exShape).GetName
        = some ⟨SymbolType.S_VARIABLE, Decl.var ⟨⟨"Shape", 1⟩, exInt⟩, none, none⟩ :=
  ⟨by decide,
   CheckDecls_name_bound exExt (Decl.cls exShape) exBoundScopes 0
    ⟨SymbolType.S_VARIABLE, Decl.var ⟨⟨"Shape", 1⟩, exInt⟩, none, none⟩
    (fun _ _ _ _ _ => rfl) (fun _ _ _ r hr => by simp [exExt] at hr) (by decide)⟩

/-! ## Signature equality, position by position -/

theorem TypeEqualFormals_iff (x : Ext) (as bs : List VarDecl) (hlen : as.length = bs.length) :
    TypeEqualFormals x as bs = true ↔
      ∀ i (hi : i < as.length) (hj : i < bs.length),
        x.IsEquivalentTo (as[i]).type (bs[i]).type = true := by
  induction as generalizing bs with
  | nil =>
    cases bs with
    | nil => simp [TypeEqualFormals]
    | cons b bs => simp at hlen
  | cons a as ih =>
    cases bs with
    | nil => simp at hlen
    | cons b bs =>
      have hl : as.length = bs.length := by simpa using hlen
      simp only [TypeEqualFormals]
      constructor
      · intro hte i hi hj
        cases hab : x.IsEquivalentTo a.type b.type with
        | false => simp [hab] at hte
        | true =>
          simp only [hab, Bool.not_true, Bool.false_eq_true, if_false] at hte
          cases i with
          | zero => simpa using hab
          | succ i =>
            simp only [List.getElem_cons_succ]
            exact (ih bs hl).1 hte i (by simpa using hi) (by simpa using hj)
      · intro hall
        have h0 := hall 0 (by simp) (by simp)
        simp only [List.getElem_cons_zero] at h0
        simp only [h0, Bool.not_true, Bool.false_eq_true, if_false]
        refine (ih bs hl).2 ?_
        intro i hi hj
        have := hall (i + 1) (by simpa using hi) (by simpa using hj)
        simpa using this

/-- `FnDecl::TypeEqual` spelled out: equivalent return types, as many formals,
and equivalent types of the formals at every position. -/
theorem TypeEqual_iff (x : Ext) (f g : FnDecl) :
    f.TypeEqual x g = true ↔
      x.IsEquivalentTo f.returnType g.returnType = true
        ∧ f.formals.length = g.formals.length
        ∧ ∀ i (hi : i < f.formals.length) (hj : i < g.formals.length),
            x.IsEquivalentTo (f.formals[i]).type (g.formals[i]).type = true := by
  unfold FnDecl.TypeEqual
  cases hr : x.IsEquivalentTo f.returnType g.returnType with
  | false => simp
  | true =>
    by_cases hl : f.formals.length = g.formals.length
    · simp only [Bool.not_true, Bool.false_eq_true, if_false, hl, bne_self_eq_false, true_and]
      simpa [hl] using TypeEqualFormals_iff x f.formals g.formals hl
    · simp [hl]

/-! ## Pass 3: members against the super chain -/

theorem CheckAgainstParentsMembers_returns (x : Ext) (h : Scopes) (classEnv : Nat)
    (ms : List Member)
    (hall : ∀ m ∈ ms, CheckAgainstParentsMember x h classEnv m ≠ none) :
    ∃ r, CheckAgainstParentsMembers x h classEnv ms = some r := by
  induction ms with
  | nil => exact ⟨_, rfl⟩
  | cons m ms ih =>
    obtain ⟨rs, hrs⟩ := ih (fun m2 hm2 => hall m2 (List.mem_cons_of_mem _ hm2))
    have hm := hall m (List.mem_cons_self _ _)
    cases hb : CheckAgainstParentsMember x h classEnv m with
    | none => exact absurd hb hm
    | some r => exact ⟨⟨r.ret && rs.ret, r.reports ++ rs.reports⟩,
        by simp [CheckAgainstParentsMembers, hb, hrs]⟩

theorem CheckAgainstParentsMembers_cons (x : Ext) (h : Scopes) (classEnv : Nat)
    (m : Member) (ms : List Member) (r : CheckResult)
    (hr : CheckAgainstParentsMembers x h classEnv (m :: ms) = some r) :
    ∃ rm rs, CheckAgainstParentsMember x h classEnv m = some rm
      ∧ CheckAgainstParentsMembers x h classEnv ms = some rs
      ∧ r = ⟨rm.ret && rs.ret, rm.reports ++ rs.reports⟩ := by
  simp only [CheckAgainstParentsMembers] at hr
  cases hb : CheckAgainstParentsMember x h classEnv m with
  | none => simp [hb] at hr
  | some rm =>
    cases hs : CheckAgainstParentsMembers x h classEnv ms with
    | none => simp [hb, hs] at hr
    | some rs =>
      simp only [hb, hs, Option.some.injEq] at hr
      exact ⟨rm, rs, rfl, rfl, hr.symm⟩

/-- A member whose check fails makes the member loop fail, and its reports are
among those of the loop. -/
theorem CheckAgainstParentsMembers_mem (x : Ext) (h : Scopes) (classEnv : Nat)
    (ms : List Member) (r : CheckResult)
    (hr : CheckAgainstParentsMembers x h classEnv ms = some r)
    (m : Member) (hm : m ∈ ms) (rm : CheckResult)
    (hrm : CheckAgainstParentsMember x h classEnv m = some rm) :
    (rm.ret = false → r.ret = false) ∧ ∀ rep ∈ rm.reports, rep ∈ r.reports := by
  induction ms generalizing r with
  | nil => simp at hm
  | cons m2 ms ih =>
    obtain ⟨r2, rs, h2, hs, rfl⟩ := CheckAgainstParentsMembers_cons x h classEnv m2 ms r hr
    rcases List.mem_cons.1 hm with rfl | hm
    · rw [hrm] at h2
      cases h2
      exact ⟨fun hf => by simp [hf], fun rep hrep => List.mem_append_left _ hrep⟩
    · obtain ⟨i1, i2⟩ := ih rs hs hm
      exact ⟨fun hf => by simp [i1 hf], fun rep hrep => List.mem_append_right _ (i2 rep hrep)⟩

/-- How often the check of one member reports `OverrideMismatch` for a method
that the super chain resolves to `other`. -/
theorem CheckAgainstParentsMember_count (x : Ext) (h : Scopes) (classEnv : Nat)
    (method other : FnDecl) (sym : Symbol)
    (hfind : findSuper h classEnv method.GetName (some SymbolType.S_FUNCTION) = some (some sym))
    (hnode : sym.node = Decl.fn other) (m : Member) (rm : CheckResult)
    (hrm : CheckAgainstParentsMember x h classEnv m = some rm) :
    rm.reports.count (Report.OverrideMismatch method)
      = if m = Member.method method ∧ method.TypeEqual x other = false then 1 else 0 := by
  cases m with
  | field v =>
    simp only [CheckAgainstParentsMember] at hrm
    split at hrm
    · simp at hrm
    · simp only [Option.some.injEq] at hrm
      subst hrm
      simp
    · simp only [Option.some.injEq] at hrm
      subst hrm
      simp
  | method f =>
    by_cases hf : f = method
    · subst hf
      simp only [CheckAgainstParentsMember, hfind, hnode] at hrm
      cases hte : f.TypeEqual x other with
      | true =>
        simp only [hte, Bool.not_true, Bool.false_eq_true, if_false, Option.some.injEq] at hrm
        subst hrm
        simp
      | false =>
        simp only [hte, Bool.not_false, if_true, Option.some.injEq] at hrm
        subst hrm
        simp
    · have hne : ¬ (Member.method f = Member.method method) := by
        intro he
        exact hf (Member.method.inj he)
      simp only [hne, false_and, if_false]
      simp only [CheckAgainstParentsMember] at hrm
      split at hrm
      · simp at hrm
      · simp only [Option.some.injEq] at hrm
        subst hrm
        simp
      · split at hrm
        · split at hrm
          · simp only [Option.some.injEq] at hrm
            subst hrm
            have hne2 : ¬ (Report.OverrideMismatch f = Report.OverrideMismatch method) := by
              intro he
              exact hf (Report.OverrideMismatch.inj he)
            simp [List.count_cons, hne2]
          · simp only [Option.some.injEq] at hrm
            subst hrm
            simp
        · simp at hrm

theorem CheckAgainstParentsMembers_count (x : Ext) (h : Scopes) (classEnv : Nat)
    (method other : FnDecl) (sym : Symbol)
    (hfind : findSuper h classEnv method.GetName (some SymbolType.S_FUNCTION) = some (some sym))
    (hnode : sym.node = Decl.fn other) (ms : List Member) (r : CheckResult)
    (hr : CheckAgainstParentsMembers x h classEnv ms = some r) :
    r.reports.count (Report.OverrideMismatch method)
      = if method.TypeEqual x other = false then ms.count (Member.method method) else 0 := by
  induction ms generalizing r with
  | nil =>
    simp only [CheckAgainstParentsMembers, Option.some.injEq] at hr
    subst hr
    simp
  | cons m ms ih =>
    obtain ⟨rm, rs, hm, hs, rfl⟩ := CheckAgainstParentsMembers_cons x h classEnv m ms r hr
    have h1 := CheckAgainstParentsMember_count x h classEnv method other sym hfind hnode m rm hm
    have h2 := ih rs hs
    simp only [List.count_append, h1, h2]
    by_cases hte : method.TypeEqual x other = false
    · by_cases hmm : m = Member.method method
      · subst hmm
        simp [hte]
        omega
      · have hmm2 : ¬ (Member.method method = m) := fun hc => hmm hc.symm
        simp [hte, hmm, hmm2, List.count_cons]
    · simp [hte]

theorem CheckParentExists_count (c : ClassDecl) (h : Scopes) (env : Nat) (r : CheckResult)
    (hr : CheckParentExists c h env = some r) (f : FnDecl) :
    r.reports.count (Report.OverrideMismatch f) = 0 := by
  unfold CheckParentExists at hr
  split at hr
  · simp only [Option.some.injEq] at hr
    subst hr
    simp
  · split at hr
    · simp at hr
    · simp only [Option.some.injEq] at hr
      subst hr
      simp
    · simp only [Option.some.injEq] at hr
      subst hr
      simp

theorem CheckAgainstParents_returns (x : Ext) (c : ClassDecl) (h : Scopes) (env classEnv : Nat)
    (hparent : CheckParentExists c h env ≠ none)
    (hmembers : ∀ m ∈ c.members, CheckAgainstParentsMember x h classEnv m ≠ none) :
    ∃ rp rs, CheckParentExists c h env = some rp
      ∧ CheckAgainstParentsMembers x h classEnv c.members = some rs
      ∧ c.CheckAgainstParents x h env classEnv
          = some ⟨rp.ret && rs.ret, rp.reports ++ rs.reports⟩ := by
  obtain ⟨rs, hrs⟩ := CheckAgainstParentsMembers_returns x h classEnv c.members hmembers
  cases hp : CheckParentExists c h env with
  | none => exact absurd hp hparent
  | some rp => exact ⟨rp, rs, rfl, hrs, by simp [ClassDecl.CheckAgainstParents, hp, hrs]⟩

/-- The member loop of `CheckAgainstParents` taken apart at one member: the
reports are those of the members before it, its own, and those of the members
after it, and the flag is the conjunction of the three. -/
theorem CheckAgainstParentsMembers_append (x : Ext) (h : Scopes) (classEnv : Nat)
    (pre : List Member) (m : Member) (post : List Member) :
    ∀ rs, CheckAgainstParentsMembers x h classEnv (pre ++ m :: post) = some rs →
      ∃ rpre rm rpost,
        CheckAgainstParentsMembers x h classEnv pre = some rpre
        ∧ CheckAgainstParentsMember x h classEnv m = some rm
        ∧ CheckAgainstParentsMembers x h classEnv post = some rpost
        ∧ rs.reports = rpre.reports ++ rm.reports ++ rpost.reports
        ∧ rs.ret = (rpre.ret && (rm.ret && rpost.ret)) := by
  induction pre with
  | nil =>
    intro rs hrs
    obtain ⟨rm, rpost, h1, h2, rfl⟩ :=
      CheckAgainstParentsMembers_cons x h classEnv m post rs hrs
    exact ⟨⟨true, []⟩, rm, rpost, rfl, h1, h2, by simp, by simp⟩
  | cons a pre ih =>
    intro rs hrs
    obtain ⟨ra, rrest, h1, h2, rfl⟩ :=
      CheckAgainstParentsMembers_cons x h classEnv a (pre ++ m :: post) rs hrs
    obtain ⟨rpre, rm, rpost, g1, g2, g3, g4, g5⟩ := ih rrest h2
    refine ⟨⟨ra.ret && rpre.ret, ra.reports ++ rpre.reports⟩, rm, rpost, ?_, g2, g3, ?_, ?_⟩
    · simp [CheckAgainstParentsMembers, h1, g1]
    · simp [g4, List.append_assoc]
    · simp [g5, Bool.and_assoc]

/-- C3. Let `method` be a member of the class that is listed once, and let the
super-chain lookup by its name and kind function find the ancestor method
`other`.  Then `CheckAgainstParents` returns, and: if the two differ in
parameter count, or the return types are not equivalent, or the parameter types
at some position are not equivalent, it reports `OverrideMismatch` exactly once
with the overriding method `method` as argument and returns `false`, the round
of the member loop for `method` reporting just that; if the two are type-equal
the round for `method` reports nothing and leaves the flag alone: the reports
of the call are those of the test of the extends name, of the members before
`method` and of the members after it, and the flag is the conjunction of
theirs.  The lookups of the extends name and of the members are taken to
return. -/
theorem CheckAgainstParents_override (x : Ext) (c : ClassDecl) (h : Scopes)
    (env classEnv : Nat) (method other : FnDecl) (sym : Symbol)
    (hparent : CheckParentExists c h env ≠ none)
    (hmembers : ∀ m ∈ c.members, CheckAgainstParentsMember x h classEnv m ≠ none)
    (hone : c.members.count (Member.method method) = 1)
    (hfind : findSuper h classEnv method.GetName (some SymbolType.S_FUNCTION) = some (some sym))
    (hnode : sym.node = Decl.fn other) :
    ∃ r rp, c.CheckAgainstParents x h env classEnv = some r
      ∧ CheckParentExists c h env = some rp
      ∧ ((method.formals.length ≠ other.formals.length
            ∨ x.IsEquivalentTo method.returnType other.returnType = false
            ∨ (∃ i, ∃ (hi : i < method.formals.length) (hj : i < other.formals.length),
                x.IsEquivalentTo (method.formals[i]).type (other.formals[i]).type = false))
          → r.reports.count (Report.OverrideMismatch method) = 1 ∧ r.ret = false
            ∧ CheckAgainstParentsMember x h classEnv (Member.method method)
                = some ⟨false, [Report.OverrideMismatch method]⟩
            ∧ ∀ pre post, c.members = pre ++ Member.method method :: post →
                ∃ rpre rpost,
                  CheckAgainstParentsMembers x h classEnv pre = some rpre
                  ∧ CheckAgainstParentsMembers x h classEnv post = some rpost
                  ∧ r.reports = rp.reports ++ rpre.reports
                      ++ [Report.OverrideMismatch method] ++ rpost.reports)
      ∧ (method.TypeEqual x other = true
          → r.reports.count (Report.OverrideMismatch method) = 0
            ∧ CheckAgainstParentsMember x h classEnv (Member.method method) = some ⟨true, []⟩
            ∧ ∀ pre post, c.members = pre ++ Member.method method :: post →
                ∃ rpre rpost,
                  CheckAgainstParentsMembers x h classEnv pre = some rpre
                  ∧ CheckAgainstParentsMembers x h classEnv post = some rpost
                  ∧ r.reports = rp.reports ++ rpre.reports ++ rpost.reports
                  ∧ r.ret = (rp.ret && (rpre.ret && rpost.ret))) := by
  obtain ⟨rp, rs, hp, hs, hr⟩ := CheckAgainstParents_returns x c h env classEnv hparent hmembers
  have hcp := CheckParentExists_count c h env rp hp method
  have hcs := CheckAgainstParentsMembers_count x h classEnv method other sym hfind hnode
    c.members rs hs
  have hmem : Member.method method ∈ c.members :=
    List.count_pos_iff.1 (by rw [hone]; exact Nat.one_pos)
  have hround : ∀ pre post, c.members = pre ++ Member.method method :: post →
      ∀ rm, CheckAgainstParentsMember x h classEnv (Member.method method) = some rm →
      ∃ rpre rpost,
        CheckAgainstParentsMembers x h classEnv pre = some rpre
        ∧ CheckAgainstParentsMembers x h classEnv post = some rpost
        ∧ rs.reports = rpre.reports ++ rm.reports ++ rpost.reports
        ∧ rs.ret = (rpre.ret && (rm.ret && rpost.ret)) := by
    intro pre post hsplit rm hrm
    rw [hsplit] at hs
    obtain ⟨rpre, rm2, rpost, g1, g2, g3, g4, g5⟩ :=
      CheckAgainstParentsMembers_append x h classEnv pre _ post rs hs
    rw [hrm] at g2
    cases g2
    exact ⟨rpre, rpost, g1, g3, g4, g5⟩
  refine ⟨_, rp, hr, hp, ?_, ?_⟩
  · intro hdiff
    have hte : method.TypeEqual x other = false := by
      cases hv : method.TypeEqual x other with
      | false => rfl
      | true =>
        obtain ⟨h1, h2, h3⟩ := (TypeEqual_iff x method other).1 hv
        rcases hdiff with hd | hd | ⟨i, hi, hj, hd⟩
        · exact absurd h2 hd
        · rw [h1] at hd
          exact absurd hd (by simp)
        · rw [h3 i hi hj] at hd
          exact absurd hd (by simp)
    have hrm : CheckAgainstParentsMember x h classEnv (Member.method method)
        = some ⟨false, [Report.OverrideMismatch method]⟩ := by
      simp only [CheckAgainstParentsMember, hfind, hnode, hte, Bool.not_false, if_true]
    have hret := (CheckAgainstParentsMembers_mem x h classEnv c.members rs hs _ hmem _ hrm).1
      rfl
    refine ⟨?_, ?_, hrm, ?_⟩
    · simp only [List.count_append, hcp, hcs, hte, if_true, hone]
    · simp [hret]
    · intro pre post hsplit
      obtain ⟨rpre, rpost, g1, g3, g4, _⟩ := hround pre post hsplit _ hrm
      refine ⟨rpre, rpost, g1, g3, ?_⟩
      show rp.reports ++ rs.reports = _
      rw [g4]
      simp [List.append_assoc]
  · intro hte
    have hrm : CheckAgainstParentsMember x h classEnv (Member.method method)
        = some ⟨true, []⟩ := by
      simp [CheckAgainstParentsMember, hfind, hnode, hte]
    refine ⟨?_, hrm, ?_⟩
    · simp only [List.count_append, hcp, hcs, hte]
      simp
    · intro pre post hsplit
      obtain ⟨rpre, rpost, g1, g3, g4, g5⟩ := hround pre post hsplit _ hrm
      refine ⟨rpre, rpost, g1, g3, ?_, ?_⟩
      · show rp.reports ++ rs.reports = _
        rw [g4]
        simp [List.append_assoc]
      · show (rp.ret && rs.ret) = _
        rw [g5]
        simp

/-- Witness for C3: scenario 3 of the specification, `Q.f(int, int)` against
`P.f(int)`, which differ in parameter count; and `Q2.f(int)` against
`P.f(int)`, which are type-equal: `CheckAgainstParents` on `Q2` reports
nothing and returns `true`. -/
theorem CheckAgainstParents_override_witness :
    findSuper exPQScopes 3 (exF2 23).GetName (some SymbolType.S_FUNCTION)
        = some (some ⟨SymbolType.S_FUNCTION, Decl.fn (exF1 11), some 2, none⟩)
      ∧ exQ.CheckAgainstParents exExt exPQScopes 0 3
        = some ⟨false, [Report.OverrideMismatch (exF2 23)]⟩
      ∧ (exF1 103).TypeEqual exExt (exF1 11) = true
      ∧ exQ2.CheckAgainstParents exExt (scopesOf exExt exOverrideProgram) 0 3
        = some ⟨true, []⟩
      ∧ (
    ∃ r rp, exQ.CheckAgainstParents exExt exPQScopes 0 3 = some r
          ∧ CheckParentExists exQ exPQScopes 0 = some rp
          ∧ (((exF2 23).formals.length ≠ (exF1 11).formals.length
                ∨ exExt.IsEquivalentTo (exF2 23).returnType (exF1 11).returnType = false
                ∨ (∃ i, ∃ (hi : i < (exF2 23).formals.length) (hj : i < (exF1 11).formals.length),
                    exExt.IsEquivalentTo ((exF2 23).formals[i]).type ((exF1 11).formals[i]).type = false))
              → r.reports.count (Report.OverrideMismatch (exF2 23)) = 1 ∧ r.ret = false
                ∧ CheckAgainstParentsMember exExt exPQScopes 3 (Member.method (exF2 23))
                    = some ⟨false, [Report.OverrideMismatch (exF2 23)]⟩
                ∧ ∀ pre post, exQ.members = pre ++ Member.method (exF2 23) :: post →
                    ∃ rpre rpost,
                      CheckAgainstParentsMembers exExt exPQScopes 3 pre = some rpre
                      ∧ CheckAgainstParentsMembers exExt exPQScopes 3 post = some rpost
                      ∧ r.reports = rp.reports ++ rpre.reports
                          ++ [Report.OverrideMismatch (exF2 23)] ++ rpost.reports)
          ∧ ((exF2 23).TypeEqual exExt (exF1 11) = true
              → r.reports.count (Report.OverrideMismatch (exF2 23)) = 0
                ∧ CheckAgainstParentsMember exExt exPQScopes 3 (Member.method (exF2 23)) = some ⟨true, []⟩
                ∧ ∀ pre post, exQ.members = pre ++ Member.method (exF2 23) :: post →
                    ∃ rpre rpost,
                      CheckAgainstParentsMembers exExt exPQScopes 3 pre = some rpre
                      ∧ CheckAgainstParentsMembers exExt exPQScopes 3 post = some rpost
                      ∧ r.reports = rp.reports ++ rpre.reports ++ rpost.reports
                      ∧ r.ret = (rp.ret && (rpre.ret && rpost.ret))))
      ∧ (
    ∃ r rp, exQ2.CheckAgainstParents exExt (scopesOf exExt exOverrideProgram) 0 3 = some r
          ∧ CheckParentExists exQ2 (scopesOf exExt exOverrideProgram) 0 = some rp
          ∧ (((exF1 103).formals.length ≠ (exF1 11).formals.length
                ∨ exExt.IsEquivalentTo (exF1 103).returnType (exF1 11).returnType = false
                ∨ (∃ i, ∃ (_ : i < (exF1 103).formals.length) (hj : i < (exF1 11).formals.length),
                    exExt.IsEquivalentTo ((exF1 103).formals[i]).type ((exF1 11).formals[i]).type = false))
              → r.reports.count (Report.OverrideMismatch (exF1 103)) = 1 ∧ r.ret = false
                ∧ CheckAgainstParentsMember exExt (scopesOf exExt exOverrideProgram) 3 (Member.method (exF1 103))
                    = some ⟨false, [Report.OverrideMismatch (exF1 103)]⟩
                ∧ ∀ pre post, exQ2.members = pre ++ Member.method (exF1 103) :: post →
                    ∃ rpre rpost,
                      CheckAgainstParentsMembers exExt (scopesOf exExt exOverrideProgram) 3 pre = some rpre
                      ∧ CheckAgainstParentsMembers exExt (scopesOf exExt exOverrideProgram) 3 post = some rpost
                      ∧ r.reports = rp.reports ++ rpre.reports
                          ++ [Report.OverrideMismatch (exF1 103)] ++ rpost.reports)
          ∧ ((exF1 103).TypeEqual exExt (exF1 11) = true
              → r.reports.count (Report.OverrideMismatch (exF1 103)) = 0
                ∧ CheckAgainstParentsMember exExt (scopesOf exExt exOverrideProgram) 3 (Member.method (exF1 103)) = some ⟨true, []⟩
                ∧ ∀ pre post, exQ2.members = pre ++ Member.method (exF1 103) :: post →
                    ∃ rpre rpost,
                      CheckAgainstParentsMembers exExt (scopesOf exExt exOverrideProgram) 3 pre = some rpre
                      ∧ CheckAgainstParentsMembers exExt (scopesOf exExt exOverrideProgram) 3 post = some rpost
                      ∧ r.reports = rp.reports ++ rpre.reports ++ rpost.reports
                      ∧ r.ret = (rp.ret && (rpre.ret && rpost.ret)))) :=
  ⟨by decide, by decide, by decide, by decide,
   CheckAgainstParents_override exExt exQ exPQScopes 0 3 (exF2 23) (exF1 11)
    ⟨SymbolType.S_FUNCTION, Decl.fn (exF1 11), some 2, none⟩
    (by decide) (by decide) (by decide) (by decide) rfl,
   CheckAgainstParents_override exExt exQ2 (scopesOf exExt exOverrideProgram) 0 3
    (exF1 103) (exF1 11) ⟨SymbolType.S_FUNCTION, Decl.fn (exF1 11), some 2, none⟩
    (by decide) (by decide) (by decide) (by decide) rfl⟩

/-- Counterexample for C9: `P` declares the method `f`, `R extends P` declares
the field `f`.  A symbol named `f` is declared in the ancestor, yet
`CheckAgainstParents` reports nothing and returns `true`. -/
theorem CheckAgainstParents_field_counterexample :
    Member.field ⟨⟨"f", 32⟩, exInt⟩ ∈ exR.members
      ∧ findSuper exPRScopes 3 "f" none
          = some (some ⟨SymbolType.S_FUNCTION, Decl.fn (exF1 11), some 2, none⟩)
      ∧ exR.CheckAgainstParents exExt exPRScopes 0 3 = some ⟨true, []⟩ := by
  decide

/-- C9, amended. For a field of the class: if the super-chain lookup by the
field's name and kind variable finds a declaration in an ancestor class,
`CheckAgainstParents` returns, reports `DeclConflict(field, that declaration)`
and returns `false`.  The lookups of the extends name and of the members are
taken to return. -/
theorem CheckAgainstParents_field (x : Ext) (c : ClassDecl) (h : Scopes)
    (env classEnv : Nat) (field : VarDecl) (sym : Symbol)
    (hparent : CheckParentExists c h env ≠ none)
    (hmembers : ∀ m ∈ c.members, CheckAgainstParentsMember x h classEnv m ≠ none)
    (hmem : Member.field field ∈ c.members)
    (hfind : findSuper h classEnv field.GetName (some SymbolType.S_VARIABLE) = some (some sym)) :
    ∃ r, c.CheckAgainstParents x h env classEnv = some r
      ∧ Report.DeclConflict (Decl.var field) sym.node ∈ r.reports
      ∧ r.ret = false := by
  obtain ⟨rp, rs, hp, hs, hr⟩ := CheckAgainstParents_returns x c h env classEnv hparent hmembers
  have hrm : CheckAgainstParentsMember x h classEnv (Member.field field)
      = some ⟨false, [Report.DeclConflict (Decl.var field) sym.node]⟩ := by
    simp [CheckAgainstParentsMember, hfind]
  obtain ⟨i1, i2⟩ := CheckAgainstParentsMembers_mem x h classEnv c.members rs hs _ hmem _ hrm
  refine ⟨_, hr, ?_, ?_⟩
  · exact List.mem_append_right _ (i2 _ (List.mem_singleton_self _))
  · simp [i1 rfl]

/-- Witness for C9, amended: `B extends A` declares the field `x` of `A`
again. -/
theorem CheckAgainstParents_field_witness :
    findSuper exABScopes 2 (VarDecl.GetName ⟨⟨"x", 52⟩, exInt⟩) (some SymbolType.S_VARIABLE)
        = some (some ⟨SymbolType.S_VARIABLE, Decl.var ⟨⟨"x", 41⟩, exInt⟩, none, none⟩)
      ∧ ∃ r, exB.CheckAgainstParents exExt exABScopes 0 2 = some r
        ∧ Report.DeclConflict (Decl.var ⟨⟨"x", 52⟩, exInt⟩) (Decl.var ⟨⟨"x", 41⟩, exInt⟩)
            ∈ r.reports
        ∧ r.ret = false :=
  ⟨by decide,
   CheckAgainstParents_field exExt exB exABScopes 0 2 ⟨⟨"x", 52⟩, exInt⟩
    ⟨SymbolType.S_VARIABLE, Decl.var ⟨⟨"x", 41⟩, exInt⟩, none, none⟩
    (by decide) (by decide) (by decide) (by decide)⟩

/-! ## Pass 2: the obligation table -/

theorem getElem?_setSuper (h : Scopes) (ce : Nat) (sup : Option Nat) (i : Nat) :
    (setSuper h ce sup)[i]?
      = (h[i]?).map (fun s => if i = ce then { s with superEnv := sup } else s) := by
  unfold setSuper
  cases hce : h[ce]? with
  | none =>
    simp only
    by_cases hi : i = ce
    · subst hi
      simp [hce]
    · cases h[i]? <;> simp [hi]
  | some s =>
    simp only
    by_cases hi : i = ce
    · subst hi
      rw [List.getElem?_set_self (lt_length_of_getElem? hce)]
      simp [hce]
    · rw [List.getElem?_set_ne (Ne.symm hi)]
      cases h[i]? <;> simp [hi]

theorem length_setSuper (h : Scopes) (ce : Nat) (sup : Option Nat) :
    (setSuper h ce sup).length = h.length := by
  unfold setSuper
  split <;> simp

theorem findFrom_setSuper (h : Scopes) (ce : Nat) (sup : Option Nat) (name : String)
    (kind : Option SymbolType) (fuel : Nat) (start : Option Nat) :
    findFrom (setSuper h ce sup) name kind fuel start = findFrom h name kind fuel start := by
  induction fuel generalizing start with
  | zero => rfl
  | succ n ih =>
    cases start with
    | none => rfl
    | some e =>
      simp only [findFrom, getElem?_setSuper]
      cases he : h[e]? with
      | none => rfl
      | some s =>
        simp only [Option.map_some']
        by_cases hi : e = ce
        · simp only [hi, if_true]
          have hl : SymTable.lookupKind { s with superEnv := sup } name kind
              = s.lookupKind name kind := rfl
          rw [hl]
          cases s.lookupKind name kind with
          | none => exact ih _
          | some sym => rfl
        · simp only [hi, if_false]
          cases s.lookupKind name kind with
          | none => exact ih _
          | some sym => rfl

/-- Setting a super link does not change what the lexical lookup finds. -/
theorem find_setSuper (h : Scopes) (ce : Nat) (sup : Option Nat) (env : Nat) (name : String)
    (kind : Option SymbolType) :
    find (setSuper h ce sup) env name kind = find h env name kind := by
  unfold find
  rw [length_setSuper, findFrom_setSuper]

theorem resolveInterface_setSuper (h : Scopes) (ce : Nat) (sup : Option Nat) (env : Nat)
    (t : NamedType) :
    resolveInterface (setSuper h ce sup) env t = resolveInterface h env t := by
  unfold resolveInterface
  rw [find_setSuper]

/-- The two loops of `Inherit` as one pass over the occurrences. -/
theorem InheritInterfaces_eq (x : Ext) (h : Scopes) (env : Nat) (ts : List NamedType)
    (st : InheritState) (hres : ∀ t ∈ ts, resolveInterface h env t ≠ none) :
    InheritInterfaces x h env ts st
      = some ((occurrences h env ts).foldl (fun s o => InheritMethod x o.1 s o.2) st) := by
  induction ts generalizing st with
  | nil => rfl
  | cons t ts ih =>
    have ht := hres t (List.mem_cons_self _ _)
    have hts : ∀ t2 ∈ ts, resolveInterface h env t2 ≠ none :=
      fun t2 h2 => hres t2 (List.mem_cons_of_mem _ h2)
    simp only [InheritInterfaces, occurrences]
    cases hr : resolveInterface h env t with
    | none => exact absurd hr ht
    | some o =>
      cases o with
      | none => simpa using ih st hts
      | some d =>
        simp only [List.foldl_append]
        rw [ih _ hts]
        congr 2
        simp [InheritMethods, List.foldl_map]

theorem Lookup_eq_none {V : Type} (T : Hashtable V) (key : String) (hn : T.Lookup key = none) :
    key ∉ T.map Prod.fst := by
  unfold Hashtable.Lookup at hn
  simp only [Option.map_eq_none'] at hn
  rw [List.find?_eq_none] at hn
  intro hmem
  obtain ⟨e, he, hk⟩ := List.mem_map.1 hmem
  exact hn e he (by simp [hk])

theorem Lookup_append {V : Type} (T : Hashtable V) (k : String) (v : V) (name : String) :
    Hashtable.Lookup (T ++ [(k, v)]) name
      = match T.Lookup name with
        | some w => some w
        | none => if k == name then some v else none := by
  unfold Hashtable.Lookup
  rw [List.find?_append]
  cases hf : List.find? (fun e => e.1 == name) T with
  | some e => simp
  | none =>
    by_cases hk : (k == name) = true
    · simp [List.find?, hk]
    · simp [List.find?, hk]

theorem firstOccurrence_append (seen : List (NamedType × FnDecl)) (o : NamedType × FnDecl)
    (name : String) :
    firstOccurrence (seen ++ [o]) name
      = match firstOccurrence seen name with
        | some w => some w
        | none => if o.2.GetName == name then some o else none := by
  unfold firstOccurrence
  rw [List.find?_append]
  cases hf : List.find? (fun o => o.2.GetName == name) seen with
  | some e => simp
  | none =>
    by_cases hk : (o.2.GetName == name) = true
    · simp [List.find?, hk]
    · simp [List.find?, hk]

theorem InheritMethod_inv (x : Ext) (o : NamedType × FnDecl) (st : InheritState)
    (seen : List (NamedType × FnDecl)) (hinv : TableInv st.vFunctions seen) :
    TableInv (InheritMethod x o.1 st o.2).vFunctions (seen ++ [o])
      ∧ (InheritMethod x o.1 st o.2).reports
          = st.reports ++ (mismatches x seen [o]).map Report.OverrideMismatch
      ∧ (InheritMethod x o.1 st o.2).ret = (st.ret && (mismatches x seen [o]).isEmpty) := by
  obtain ⟨hnd, hlk, hkey⟩ := hinv
  have hname := hlk o.2.GetName
  unfold InheritMethod
  cases hl : st.vFunctions.Lookup o.2.GetName with
  | none =>
    rw [hl] at hname
    have hfo : firstOccurrence seen o.2.GetName = none := by
      cases hf : firstOccurrence seen o.2.GetName with
      | none => rfl
      | some w => simp [hf] at hname
    have hent : st.vFunctions.Enter o.2.GetName (VFunction.new o.2 o.1) true
        = st.vFunctions ++ [(o.2.GetName, VFunction.new o.2 o.1)] := by
      simp [Hashtable.Enter, hl]
    simp only [hent, mismatches, hfo, List.append_nil, List.map_nil, List.isEmpty_nil,
      Bool.and_true, and_true]
    refine ⟨?_, ?_, ?_⟩
    · rw [List.map_append, List.nodup_append]
      refine ⟨hnd, by simp, ?_⟩
      intro a ha hb
      simp only [List.map_cons, List.map_nil, List.mem_singleton] at hb
      subst hb
      exact Lookup_eq_none _ _ hl ha
    · intro name
      rw [Lookup_append, firstOccurrence_append, hlk name]
      cases hf : firstOccurrence seen name with
      | some w => rfl
      | none =>
        simp only [Option.map_none']
        by_cases hk : (o.2.GetName == name) = true
        · simp [hk, VFunction.new]
        · simp [hk]
    · intro e he
      rcases List.mem_append.1 he with he | he
      · exact hkey e he
      · simp only [List.mem_singleton] at he
        subst he
        rfl
  | some vf =>
    rw [hl] at hname
    obtain ⟨first, hfirst, hvf⟩ : ∃ first, firstOccurrence seen o.2.GetName = some first
        ∧ vf = ⟨first.2, first.1, false⟩ := by
      cases hf : firstOccurrence seen o.2.GetName with
      | none => simp [hf] at hname
      | some w =>
        refine ⟨w, rfl, ?_⟩
        simpa [hf] using hname
    have hinv2 : TableInv st.vFunctions (seen ++ [o]) := by
      refine ⟨hnd, ?_, hkey⟩
      intro name
      rw [firstOccurrence_append, hlk name]
      cases hf : firstOccurrence seen name with
      | some w => rfl
      | none =>
        by_cases hk : (o.2.GetName == name) = true
        · have hk2 : o.2.GetName = name := by simpa using hk
          rw [hk2] at hfirst
          rw [hfirst] at hf
          exact absurd hf (by simp)
        · simp [hk]
    subst hvf
    simp only [mismatches, hfirst, List.append_nil]
    cases hte : o.2.TypeEqual x first.2 with
    | true => simpa using hinv2
    | false => simpa using hinv2

theorem isEmpty_append_eq {α : Type} (a b : List α) :
    (a ++ b).isEmpty = (a.isEmpty && b.isEmpty) := by
  cases a <;> simp

/-- The pass over the occurrences keeps the table in step with them and
reports the mismatching occurrences in order. -/
theorem foldl_InheritMethod (x : Ext) (rest seen : List (NamedType × FnDecl))
    (st : InheritState) (hinv : TableInv st.vFunctions seen) :
    TableInv (rest.foldl (fun s o => InheritMethod x o.1 s o.2) st).vFunctions (seen ++ rest)
      ∧ (rest.foldl (fun s o => InheritMethod x o.1 s o.2) st).reports
          = st.reports ++ (mismatches x seen rest).map Report.OverrideMismatch
      ∧ (rest.foldl (fun s o => InheritMethod x o.1 s o.2) st).ret
          = (st.ret && (mismatches x seen rest).isEmpty) := by
  induction rest generalizing seen st with
  | nil => simpa [mismatches] using hinv
  | cons o rest ih =>
    obtain ⟨h1, h2, h3⟩ := InheritMethod_inv x o st seen hinv
    obtain ⟨i1, i2, i3⟩ := ih (seen ++ [o]) (InheritMethod x o.1 st o.2) h1
    simp only [List.foldl_cons]
    refine ⟨by simpa using i1, ?_, ?_⟩
    · rw [i2, h2]
      simp [mismatches]
    · rw [i3, h3]
      simp only [mismatches, List.append_nil, isEmpty_append_eq, Bool.and_assoc]

theorem mismatches_mem (x : Ext) (rest seen : List (NamedType × FnDecl)) :
    ∀ fn ∈ mismatches x seen rest, ∃ t, (t, fn) ∈ rest := by
  induction rest generalizing seen with
  | nil => simp [mismatches]
  | cons o rest ih =>
    intro fn hfn
    simp only [mismatches, List.mem_append] at hfn
    rcases hfn with hfn | hfn
    · refine ⟨o.1, ?_⟩
      split at hfn
      · split at hfn
        · simp at hfn
        · simp only [List.mem_singleton] at hfn
          subst hfn
          simp
      · simp at hfn
    · obtain ⟨t, ht⟩ := ih _ fn hfn
      exact ⟨t, List.mem_cons_of_mem _ ht⟩

theorem occurrences_mem (h : Scopes) (env : Nat) (ts : List NamedType) (t : NamedType)
    (fn : FnDecl) (hm : (t, fn) ∈ occurrences h env ts) :
    t ∈ ts ∧ ∃ d, resolveInterface h env t = some (some d) ∧ fn ∈ d.members := by
  induction ts with
  | nil => simp [occurrences] at hm
  | cons t2 ts ih =>
    simp only [occurrences, List.mem_append] at hm
    rcases hm with hm | hm
    · split at hm
      · next d hd =>
        obtain ⟨fn2, hfn2, heq⟩ := List.mem_map.1 hm
        cases heq
        exact ⟨List.mem_cons_self _ _, d, hd, hfn2⟩
      · simp at hm
    · obtain ⟨i1, i2⟩ := ih hm
      exact ⟨List.mem_cons_of_mem _ i1, i2⟩

theorem Inherit_eq (x : Ext) (c : ClassDecl) (h : Scopes) (env classEnv : Nat)
    (hparent : InheritParent c h env classEnv ≠ none)
    (hres : ∀ t ∈ c.implements, resolveInterface h env t ≠ none) :
    ∃ h1 parent, InheritParent c h env classEnv = some (h1, parent)
      ∧ c.Inherit x h env classEnv
        = some ⟨((occurrences h env c.implements).foldl
              (fun s o => InheritMethod x o.1 s o.2) ⟨true, [], []⟩).ret,
            ((occurrences h env c.implements).foldl
              (fun s o => InheritMethod x o.1 s o.2) ⟨true, [], []⟩).reports,
            h1, parent,
            ((occurrences h env c.implements).foldl
              (fun s o => InheritMethod x o.1 s o.2) ⟨true, [], []⟩).vFunctions⟩ := by
  cases hp : InheritParent c h env classEnv with
  | none => exact absurd hp hparent
  | some p =>
    obtain ⟨h1, parent⟩ := p
    refine ⟨h1, parent, rfl, ?_⟩
    have hsame : ∀ t, resolveInterface h1 env t = resolveInterface h env t := by
      intro t
      unfold InheritParent at hp
      split at hp
      · simp only [Option.some.injEq, Prod.mk.injEq] at hp
        rw [← hp.1]
      · split at hp
        · simp at hp
        · simp only [Option.some.injEq, Prod.mk.injEq] at hp
          rw [← hp.1]
        · simp only [Option.some.injEq, Prod.mk.injEq] at hp
          rw [← hp.1]
          exact resolveInterface_setSuper _ _ _ _ _
    have hocc : occurrences h1 env c.implements = occurrences h env c.implements := by
      generalize c.implements = ts
      induction ts with
      | nil => rfl
      | cons t ts ih => simp only [occurrences, hsame, ih]
    have hres1 : ∀ t ∈ c.implements, resolveInterface h1 env t ≠ none := by
      intro t ht
      rw [hsame]
      exact hres t ht
    simp only [ClassDecl.Inherit, hp, InheritInterfaces_eq x h1 env c.implements _ hres1, hocc]

theorem TableInv_nil : TableInv [] [] := by
  refine ⟨by simp, ?_, by simp⟩
  intro name
  simp [Hashtable.Lookup, firstOccurrence]

/-- C7. After `Inherit` the table `vFunctions` has no two records under one
name; under a method name it holds a record exactly when some interface of the
implements list that resolves declares the name, and that record is
`VFunction(first occurrence, implements entry that brings it, implemented =
false)`, the occurrences being ordered by implements entry and then by member;
every record is stored under the name of its prototype.  The lookups of the
extends and implements names are taken to return. -/
theorem Inherit_vFunctions (x : Ext) (c : ClassDecl) (h : Scopes) (env classEnv : Nat)
    (hparent : InheritParent c h env classEnv ≠ none)
    (hres : ∀ t ∈ c.implements, resolveInterface h env t ≠ none) :
    ∃ r, c.Inherit x h env classEnv = some r
      ∧ (r.vFunctions.map Prod.fst).Nodup
      ∧ (∀ name, r.vFunctions.Lookup name
          = (firstOccurrence (occurrences h env c.implements) name).map
              (fun o => (⟨o.2, o.1, false⟩ : VFunction)))
      ∧ (∀ e ∈ r.vFunctions, e.1 = e.2.prototype.GetName) := by
  obtain ⟨h1, parent, _, hr⟩ := Inherit_eq x c h env classEnv hparent hres
  obtain ⟨hinv, _, _⟩ := foldl_InheritMethod x (occurrences h env c.implements) []
    ⟨true, [], []⟩ TableInv_nil
  refine ⟨_, hr, ?_⟩
  simpa [TableInv] using hinv

/-- C8. `Inherit` reports `OverrideMismatch` once for every interface method
occurrence whose name has an earlier occurrence (so the name is in the table)
with a first occurrence (the prototype in the table) that is not type-equal to
it, in the order of the occurrences and for all of them, also those after a
mismatch; every report names a member of an interface that an implements entry
resolves to; the result is `false` exactly when there is such a report.  The
lookups of the extends and implements names are taken to return. -/
theorem Inherit_reports (x : Ext) (c : ClassDecl) (h : Scopes) (env classEnv : Nat)
    (hparent : InheritParent c h env classEnv ≠ none)
    (hres : ∀ t ∈ c.implements, resolveInterface h env t ≠ none) :
    ∃ r, c.Inherit x h env classEnv = some r
      ∧ r.reports = (mismatches x [] (occurrences h env c.implements)).map
          Report.OverrideMismatch
      ∧ (∀ rep ∈ r.reports, ∃ t d fn, t ∈ c.implements
          ∧ resolveInterface h env t = some (some d) ∧ fn ∈ d.members
          ∧ rep = Report.OverrideMismatch fn)
      ∧ (r.ret = false ↔ r.reports ≠ []) := by
  obtain ⟨h1, parent, _, hr⟩ := Inherit_eq x c h env classEnv hparent hres
  obtain ⟨_, hrep, hret⟩ := foldl_InheritMethod x (occurrences h env c.implements) []
    ⟨true, [], []⟩ TableInv_nil
  simp only [List.nil_append, Bool.true_and] at hrep hret
  refine ⟨_, hr, hrep, ?_, ?_⟩
  · intro rep hrep2
    rw [hrep] at hrep2
    obtain ⟨fn, hfn, rfl⟩ := List.mem_map.1 hrep2
    obtain ⟨t, ht⟩ := mismatches_mem x _ _ fn hfn
    obtain ⟨i1, d, i2, i3⟩ := occurrences_mem h env c.implements t fn ht
    exact ⟨t, d, fn, i1, i2, i3, rfl⟩
  · simp only [hret, hrep]
    cases hm : mismatches x [] (occurrences h env c.implements) <;> simp

/-- Witness for C7: `C implements I, Missing, J`; the table holds `f` and `g`
from `I` and `k` from `J`. -/
theorem Inherit_vFunctions_witness :
    exC.Inherit exExt exIJCScopes 0 7
        = some ⟨false, [Report.OverrideMismatch ⟨⟨"f", 71⟩, exVoid, [], none⟩], exIJCScopes, none,
            [("f", ⟨⟨⟨"f", 61⟩, exInt, [⟨⟨"a", 62⟩, exInt⟩], none⟩, exEntryI, false⟩),
             ("g", ⟨⟨⟨"g", 63⟩, exVoid, [], none⟩, exEntryI, false⟩),
             ("k", ⟨⟨⟨"k", 72⟩, exVoid, [], none⟩, exEntryJ, false⟩)]⟩
      ∧ ∃ r, exC.Inherit exExt exIJCScopes 0 7 = some r
        ∧ (r.vFunctions.map Prod.fst).Nodup
        ∧ (∀ name, r.vFunctions.Lookup name
            = (firstOccurrence (occurrences exIJCScopes 0 exC.implements) name).map
                (fun o => (⟨o.2, o.1, false⟩ : VFunction)))
        ∧ (∀ e ∈ r.vFunctions, e.1 = e.2.prototype.GetName) :=
  ⟨by decide, Inherit_vFunctions exExt exC exIJCScopes 0 7 (by decide) (by decide)⟩

/-- Witness for C8: the `f` of `J` differs from the `f` of `I` that is already
in the table; `k` of `J` is still processed. -/
theorem Inherit_reports_witness :
    mismatches exExt [] (occurrences exIJCScopes 0 exC.implements)
        = [⟨⟨"f", 71⟩, exVoid, [], none⟩]
      ∧ ∃ r, exC.Inherit exExt exIJCScopes 0 7 = some r
        ∧ r.reports = (mismatches exExt [] (occurrences exIJCScopes 0 exC.implements)).map
            Report.OverrideMismatch
        ∧ (∀ rep ∈ r.reports, ∃ t d fn, t ∈ exC.implements
            ∧ resolveInterface exIJCScopes 0 t = some (some d) ∧ fn ∈ d.members
            ∧ rep = Report.OverrideMismatch fn)
        ∧ (r.ret = false ↔ r.reports ≠ []) :=
  ⟨by decide, Inherit_reports exExt exC exIJCScopes 0 7 (by decide) (by decide)⟩

/-! ## Pass 3: obligations against the class -/

theorem CheckInterfacesExist_reports (h : Scopes) (env : Nat) (ts : List NamedType)
    (r : CheckResult) (hr : CheckInterfacesExist h env ts = some r) :
    ∀ rep ∈ r.reports, ∀ cd t, rep ≠ Report.InterfaceNotImplemented cd t := by
  induction ts generalizing r with
  | nil =>
    simp only [CheckInterfacesExist, Option.some.injEq] at hr
    subst hr
    simp
  | cons t ts ih =>
    simp only [CheckInterfacesExist] at hr
    split at hr
    · simp at hr
    · split at hr
      · simp at hr
      · next rs hrs =>
        simp only [Option.some.injEq] at hr
        subst hr
        intro rep hrep cd t2
        rcases List.mem_cons.1 hrep with hrep | hrep
        · subst hrep
          simp
        · exact ih rs hrs rep hrep cd t2
    · exact ih r hr

theorem CheckObligation_inv (x : Ext) (h : Scopes) (classEnv : Nat) (st st2 : ObligationState)
    (vf : VFunction) (done : List VFunction) (hinv : IncompleteInv h classEnv st done)
    (hstep : CheckObligation x h classEnv st vf = some st2) :
    IncompleteInv h classEnv st2 (done ++ [vf]) := by
  obtain ⟨hnd, hent, hmiss, hrep⟩ := hinv
  unfold CheckObligation at hstep
  cases hf : findInClass h classEnv vf.prototype.GetName (some SymbolType.S_FUNCTION) with
  | none =>
    have hmv : missingIn h classEnv vf = true := by simp [missingIn, hf]
    simp only [hf, Option.some.injEq] at hstep
    subst hstep
    cases hl : st.incompleteIntfs.Lookup vf.intfType.GetName with
    | none =>
      have hE : st.incompleteIntfs.Enter vf.intfType.GetName vf.intfType false
          = st.incompleteIntfs ++ [(vf.intfType.GetName, vf.intfType)] := by
        simp [Hashtable.Enter, hl]
      simp only [IncompleteInv, hE]
      refine ⟨?_, ?_, ?_, hrep⟩
      · rw [List.map_append, List.nodup_append]
        refine ⟨hnd, by simp, ?_⟩
        intro a ha hb
        simp only [List.map_cons, List.map_nil, List.mem_singleton] at hb
        subst hb
        exact Lookup_eq_none _ _ hl ha
      · intro e he
        rcases List.mem_append.1 he with he | he
        · obtain ⟨i1, w, hw, i2, i3⟩ := hent e he
          exact ⟨i1, w, List.mem_append_left _ hw, i2, i3⟩
        · simp only [List.mem_singleton] at he
          subst he
          exact ⟨rfl, vf, by simp, rfl, hmv⟩
      · intro w hw hwm
        rw [List.map_append]
        rcases List.mem_append.1 hw with hw | hw
        · exact List.mem_append_left _ (hmiss w hw hwm)
        · simp only [List.mem_singleton] at hw
          subst hw
          exact List.mem_append_right _ (by simp)
    | some t =>
      have hE : st.incompleteIntfs.Enter vf.intfType.GetName vf.intfType false
          = st.incompleteIntfs := by
        simp [Hashtable.Enter, hl]
      have hkey : vf.intfType.GetName ∈ st.incompleteIntfs.map Prod.fst := by
        unfold Hashtable.Lookup at hl
        obtain ⟨e, he, _⟩ := Option.map_eq_some'.1 hl
        have hp := List.find?_some he
        have hm := List.mem_of_find?_eq_some he
        exact List.mem_map.2 ⟨e, hm, by simpa using hp⟩
      simp only [IncompleteInv, hE]
      refine ⟨hnd, ?_, ?_, hrep⟩
      · intro e he
        obtain ⟨i1, w, hw, i2, i3⟩ := hent e he
        exact ⟨i1, w, List.mem_append_left _ hw, i2, i3⟩
      · intro w hw hwm
        rcases List.mem_append.1 hw with hw | hw
        · exact hmiss w hw hwm
        · simp only [List.mem_singleton] at hw
          subst hw
          exact hkey
  | some sym =>
    have hmv : missingIn h classEnv vf = false := by simp [missingIn, hf]
    simp only [hf] at hstep
    have hrest : (∀ e ∈ st.incompleteIntfs, e.1 = e.2.GetName
          ∧ ∃ w ∈ done ++ [vf], w.intfType = e.2 ∧ missingIn h classEnv w = true)
        ∧ (∀ w ∈ done ++ [vf], missingIn h classEnv w = true
          → w.intfType.GetName ∈ st.incompleteIntfs.map Prod.fst) := by
      refine ⟨?_, ?_⟩
      · intro e he
        obtain ⟨i1, w, hw, i2, i3⟩ := hent e he
        exact ⟨i1, w, List.mem_append_left _ hw, i2, i3⟩
      · intro w hw hwm
        rcases List.mem_append.1 hw with hw | hw
        · exact hmiss w hw hwm
        · simp only [List.mem_singleton] at hw
          subst hw
          rw [hmv] at hwm
          exact absurd hwm (by simp)
    split at hstep
    · split at hstep
      · simp only [Option.some.injEq] at hstep
        subst hstep
        refine ⟨hnd, hrest.1, hrest.2, ?_⟩
        intro rep hr cd t
        rcases List.mem_append.1 hr with hr | hr
        · exact hrep rep hr cd t
        · simp only [List.mem_singleton] at hr
          subst hr
          simp
      · simp only [Option.some.injEq] at hstep
        subst hstep
        exact ⟨hnd, hrest.1, hrest.2, hrep⟩
    · simp at hstep

theorem CheckObligations_inv (x : Ext) (h : Scopes) (classEnv : Nat) (vfs : List VFunction)
    (st st2 : ObligationState) (done : List VFunction)
    (hinv : IncompleteInv h classEnv st done)
    (hrun : CheckObligations x h classEnv vfs st = some st2) :
    IncompleteInv h classEnv st2 (done ++ vfs) := by
  induction vfs generalizing st done with
  | nil =>
    simp only [CheckObligations, Option.some.injEq] at hrun
    subst hrun
    simpa using hinv
  | cons vf vfs ih =>
    simp only [CheckObligations] at hrun
    cases hs : CheckObligation x h classEnv st vf with
    | none => simp [hs] at hrun
    | some s1 =>
      simp only [hs] at hrun
      have := ih s1 (done ++ [vf]) (CheckObligation_inv x h classEnv st s1 vf done hinv hs) hrun
      simpa using this

theorem CheckObligations_returns (x : Ext) (h : Scopes) (classEnv : Nat) (vfs : List VFunction)
    (st : ObligationState)
    (hfn : ∀ vf ∈ vfs, methodCastOk h classEnv vf = true) :
    ∃ st2, CheckObligations x h classEnv vfs st = some st2 := by
  induction vfs generalizing st with
  | nil => exact ⟨st, rfl⟩
  | cons vf vfs ih =>
    have hv := hfn vf (List.mem_cons_self _ _)
    have hrest : ∀ w ∈ vfs, methodCastOk h classEnv w = true :=
      fun w hw => hfn w (List.mem_cons_of_mem _ hw)
    simp only [CheckObligations]
    have hstep : ∃ s1, CheckObligation x h classEnv st vf = some s1 := by
      unfold CheckObligation
      cases hf : findInClass h classEnv vf.prototype.GetName (some SymbolType.S_FUNCTION) with
      | none => exact ⟨_, rfl⟩
      | some sym =>
        simp only [methodCastOk, hf] at hv
        cases hn : sym.node with
        | fn m =>
          simp only [hn]
          split
          · exact ⟨_, rfl⟩
          · exact ⟨_, rfl⟩
        | var v => simp [hn] at hv
        | cls v => simp [hn] at hv
        | intf v => simp [hn] at hv
    obtain ⟨s1, hs1⟩ := hstep
    rw [hs1]
    exact ih s1 hrest

theorem filter_isNotImplemented_nil (n : String) (rs : List Report)
    (hrs : ∀ rep ∈ rs, ∀ cd t, rep ≠ Report.InterfaceNotImplemented cd t) :
    rs.filter (Report.isNotImplemented n) = [] := by
  rw [List.filter_eq_nil_iff]
  intro rep hrep
  cases rep with
  | InterfaceNotImplemented cd t => exact absurd rfl (hrs _ hrep cd t)
  | DeclConflict a b => simp [Report.isNotImplemented]
  | OverrideMismatch f => simp [Report.isNotImplemented]
  | IdentifierNotDeclared i w => simp [Report.isNotImplemented]

theorem length_filter_incomplete (c : ClassDecl) (n : String) (K : Hashtable NamedType)
    (hkey : ∀ e ∈ K, e.1 = e.2.GetName) :
    ((K.map (fun e => Report.InterfaceNotImplemented c e.2)).filter
        (Report.isNotImplemented n)).length
      = (K.map Prod.fst).count n := by
  induction K with
  | nil => rfl
  | cons e K ih =>
    have he := hkey e (List.mem_cons_self _ _)
    have ih2 := ih (fun e2 h2 => hkey e2 (List.mem_cons_of_mem _ h2))
    simp only [List.map_cons, List.filter_cons, List.count_cons]
    by_cases hn : e.2.GetName = n
    · have h1 : (e.1 == n) = true := by simp [he, hn]
      simp only [Report.isNotImplemented, hn, beq_self_eq_true, if_true, List.length_cons, ih2, h1]
    · have h1 : (e.1 == n) = false := by simp [he, hn]
      have h2 : (e.2.GetName == n) = false := by simp [hn]
      simp only [Report.isNotImplemented, h2, Bool.false_eq_true, if_false, ih2, h1,
        Nat.add_zero]

/-- C2, amended. `CheckAgainstInterfaces` returns, and for every interface name
`n` it reports `InterfaceNotImplemented` for an interface type named `n` exactly
once when the obligation table holds at least one record brought in by an
interface named `n` whose method has no function of that name in the class
(however many such records there are), and not at all otherwise; every such
report is for the class itself and for the interface type of a record whose
method is missing.  The lookups of the implements names are taken to return, and
a function symbol of the class to hold a function declaration. -/
theorem CheckAgainstInterfaces_notImplemented (x : Ext) (c : ClassDecl) (h : Scopes)
    (env classEnv : Nat) (vFunctions : Hashtable VFunction)
    (hexist : CheckInterfacesExist h env c.implements ≠ none)
    (hfn : ∀ vf ∈ vFunctions.map Prod.snd, methodCastOk h classEnv vf = true) :
    ∃ r, c.CheckAgainstInterfaces x h env classEnv vFunctions = some r
      ∧ (∀ n, (r.reports.filter (Report.isNotImplemented n)).length
          = if (vFunctions.map Prod.snd).any
                (fun vf => vf.intfType.GetName == n && missingIn h classEnv vf)
            then 1 else 0)
      ∧ (∀ cd t, Report.InterfaceNotImplemented cd t ∈ r.reports
          → cd = c ∧ ∃ vf ∈ vFunctions.map Prod.snd,
              vf.intfType = t ∧ missingIn h classEnv vf = true) := by
  cases he : CheckInterfacesExist h env c.implements with
  | none => exact absurd he hexist
  | some r0 =>
    have hr0 := CheckInterfacesExist_reports h env c.implements r0 he
    obtain ⟨st, hst⟩ := CheckObligations_returns x h classEnv (vFunctions.map Prod.snd)
      ⟨r0.ret, r0.reports, []⟩ hfn
    have hinv0 : IncompleteInv h classEnv ⟨r0.ret, r0.reports, []⟩ [] := by
      refine ⟨by simp, by simp, by simp, hr0⟩
    have hinv := CheckObligations_inv x h classEnv (vFunctions.map Prod.snd) _ st [] hinv0 hst
    simp only [List.nil_append] at hinv
    obtain ⟨hnd, hent, hmiss, hrep⟩ := hinv
    refine ⟨⟨st.ret, st.reports
        ++ st.incompleteIntfs.map (fun e => Report.InterfaceNotImplemented c e.2)⟩,
      by simp only [ClassDecl.CheckAgainstInterfaces, he, hst], ?_, ?_⟩
    · intro n
      simp only [List.filter_append, filter_isNotImplemented_nil n st.reports hrep,
        List.nil_append]
      rw [length_filter_incomplete c n st.incompleteIntfs (fun e he2 => (hent e he2).1)]
      by_cases hany : (vFunctions.map Prod.snd).any
          (fun vf => vf.intfType.GetName == n && missingIn h classEnv vf) = true
      · rw [if_pos hany]
        obtain ⟨vf, hvf, hp⟩ := List.any_eq_true.1 hany
        simp only [Bool.and_eq_true, beq_iff_eq] at hp
        have hk := hmiss vf hvf hp.2
        rw [hp.1] at hk
        exact List.count_eq_one_of_mem hnd hk
      · rw [if_neg hany]
        rw [List.count_eq_zero]
        intro hk
        apply hany
        obtain ⟨e, he2, hen⟩ := List.mem_map.1 hk
        obtain ⟨i1, vf, hvf, i2, i3⟩ := hent e he2
        refine List.any_eq_true.2 ⟨vf, hvf, ?_⟩
        simp only [Bool.and_eq_true, beq_iff_eq]
        refine ⟨?_, i3⟩
        rw [i2, ← i1, hen]
    · intro cd t hmem
      rcases List.mem_append.1 hmem with hmem | hmem
      · exact absurd rfl (hrep _ hmem cd t)
      · obtain ⟨e, he2, heq⟩ := List.mem_map.1 hmem
        simp only [Report.InterfaceNotImplemented.injEq] at heq
        obtain ⟨i1, vf, hvf, i2, i3⟩ := hent e he2
        exact ⟨heq.1.symm, vf, hvf, i2.trans heq.2, i3⟩

/-- Counterexample for C2: `D implements I1, I2`, both interfaces require `m`,
`D` declares nothing.  `I2` resolves and its required method `m` has no
function in `D`, yet the only report is `InterfaceNotImplemented(D, I1)`:
there is none for `I2`. -/
theorem CheckAgainstInterfaces_counterexample :
    resolveInterface exDScopes 0 ⟨⟨"I2", 97⟩⟩ = some (some exI2)
      ∧ (⟨⟨"m", 93⟩, exVoid, [], none⟩ : FnDecl) ∈ exI2.members
      ∧ findInClass exDScopes 5 "m" (some SymbolType.S_FUNCTION) = none
      ∧ exD.CheckAgainstInterfaces exExt exDScopes 0 5 exDvFunctions
          = some ⟨false, [Report.InterfaceNotImplemented exD ⟨⟨"I1", 96⟩⟩]⟩
      ∧ [Report.InterfaceNotImplemented exD ⟨⟨"I1", 96⟩⟩].count
          (Report.InterfaceNotImplemented exD ⟨⟨"I2", 97⟩⟩) = 0 := by
  decide

/-- Witness for C2, amended: `E implements I3` lacks both methods `p` and `q`
of `I3` and gets one report for `I3`. -/
theorem CheckAgainstInterfaces_notImplemented_witness :
    exE.CheckAgainstInterfaces exExt exEScopes 0 4 exEvFunctions
        = some ⟨false, [Report.InterfaceNotImplemented exE ⟨⟨"I3", 161⟩⟩]⟩
      ∧ (exEvFunctions.map Prod.snd).map (fun vf => missingIn exEScopes 4 vf) = [true, true]
      ∧ ∃ r, exE.CheckAgainstInterfaces exExt exEScopes 0 4 exEvFunctions = some r
        ∧ (∀ n, (r.reports.filter (Report.isNotImplemented n)).length
            = if (exEvFunctions.map Prod.snd).any
                  (fun vf => vf.intfType.GetName == n && missingIn exEScopes 4 vf)
              then 1 else 0)
        ∧ (∀ cd t, Report.InterfaceNotImplemented cd t ∈ r.reports
            → cd = exE ∧ ∃ vf ∈ exEvFunctions.map Prod.snd,
                vf.intfType = t ∧ missingIn exEScopes 4 vf = true) :=
  ⟨by decide, by decide,
   CheckAgainstInterfaces_notImplemented exExt exE exEScopes 0 4 exEvFunctions
    (by decide) (by decide)⟩

/-! ## Emission: the dispatch table -/

/-- C4, evaluated. `class P { int f(int a) }`, `class Q2 extends P { void g();
int f(int a) }`: the program passes the three passes, `Q2.f` has the name and a
type-equal signature of the inherited `P.f` at index 0, and after emission the
table of `Q2` is `[P.f, Q2.g, Q2.f]`: the override sits at index 2, behind the
new method `g`, and slot 0 still holds `P.f`. -/
theorem Emit_override_not_in_place :
    (CheckAll exExt exOverrideProgram).map (fun r => (r.ok, r.reports)) = some (true, [])
      ∧ (exF1 103).GetName = (exF1 11).GetName
      ∧ (exF1 103).TypeEqual exExt (exF1 11) = true
      ∧ (emitAfterCheck exExt [Decl.cls exP]).bind (fun st => vTableOf st exP.id)
          = some [exF1 11]
      ∧ (emitAfterCheck exExt exOverrideProgram).bind (fun st => vTableOf st exQ2.id)
          = some [exF1 11, exG 102, exF1 103] := by
  decide

/-- C5, evaluated. The same program passes checking without a report, and the
dispatch table of `Q2` after emission holds two entries named `f`. -/
theorem Emit_duplicate_name :
    (CheckAll exExt exOverrideProgram).map (fun r => (r.ok, r.reports)) = some (true, [])
      ∧ ((emitAfterCheck exExt exOverrideProgram).bind (fun st => vTableOf st exQ2.id)).map
          (fun t => t.map FnDecl.GetName) = some ["f", "g", "f"]
      ∧ ¬ (["f", "g", "f"] : List String).Nodup := by
  decide

/-- C6, evaluated. `class P { int f(int a) }`, `class S extends P { void g() }`,
`class T extends P { }`: `T` has a parent and no methods, the list passed to
`GenVTable` for `P` is `[P.f]`, the list passed for `T` is `[P.f, S.g]`. -/
theorem Emit_sibling_table :
    (CheckAll exExt exSiblingProgram).map (fun r => (r.ok, r.reports)) = some (true, [])
      ∧ (emitAfterCheck exExt exSiblingProgram).map (fun st => vTableRequests st "P")
          = some [[some "P.f"]]
      ∧ (emitAfterCheck exExt exSiblingProgram).map (fun st => vTableRequests st "T")
          = some [[some "P.f", some "S.g"]] := by
  decide

/-- C10, evaluated. `interface K { }`, `class U extends K { }`: pass 2 leaves
the parent of `U` unset, pass 3 reports nothing and the three passes succeed,
and `ClassDecl::Emit` on `U` does not get past `Assert(parent != NULL)`, with
whatever fuel. -/
theorem Check_misses_unset_parent :
    (CheckAll exExt exExtendsInterface).map
        (fun r => (r.ok, r.reports, r.classes.map (fun ci => ci.parent)))
        = some (true, [], [none])
      ∧ ((CheckAll exExt exExtendsInterface).bind
          (fun r => (classOf r.classes exU.id).bind
            (fun ci => (exU.Check exExt r.scopes 0 ci.classEnv ci.vFunctions).map Prod.fst)))
        = some ⟨true, []⟩
      ∧ ∀ fuel, (CheckAll exExt exExtendsInterface).bind
          (fun r => ClassDecl.Emit exExt fuel exU.id (EmitState.start r)) = none := by
  refine ⟨by decide, by decide, ?_⟩
  intro fuel
  cases fuel with
  | zero => decide
  | succ n =>
    have hc : CheckAll exExt exExtendsInterface
        = some ⟨true, [], (CheckAll exExt exExtendsInterface).get (by decide) |>.scopes,
            (CheckAll exExt exExtendsInterface).get (by decide) |>.envs,
            [⟨exU, 2, none, []⟩]⟩ := by decide
    rw [hc]
    simp [ClassDecl.Emit, EmitState.start, getClass, EmitState.request, exU]

/-! ## Signature equality: both ways -/

/-- C12, evaluated. `class Dup { int x; int x; }`: `CheckDecls` of the second
member reports the conflict and returns `false`, yet `ClassDecl::CheckDecls`
returns `true`; the interface `DupI { void m(); void m(); }` goes through
`InterfaceDecl::CheckDecls`, which returns `false`. -/
theorem ClassDecl_CheckDecls_ignores_members :
    (exDup.CheckDecls exExt globalScopes 0).ret = true
      ∧ (exDup.CheckDecls exExt globalScopes 0).reports
          = [Report.DeclConflict (Decl.var ⟨⟨"x", 182⟩, exInt⟩) (Decl.var ⟨⟨"x", 181⟩, exInt⟩)]
      ∧ (CheckDeclsMembers exExt (setThis (addWithScope globalScopes 0 "Dup" (Decl.cls exDup)
            SymbolType.S_CLASS).2 1 1) 1 exDup.members).ret = false
      ∧ (exDupI.CheckDecls exExt globalScopes 0).ret = false := by
  decide

/-! ## Pass 3: every part is checked -/

theorem CheckFormals_eq (x : Ext) (h : Scopes) (env : Nat) (vs : List VarDecl) :
    (CheckFormals x h env vs).1
      = ⟨vs.all (fun v => (v.Check x h env).1.ret),
          vs.flatMap (fun v => (v.Check x h env).1.reports)⟩ := by
  induction vs with
  | nil => rfl
  | cons v vs ih => simp [CheckFormals, ih]

theorem CheckMembers_eq (x : Ext) (h : Scopes) (env : Nat) (ms : List Member) :
    (CheckMembers x h env ms).1
      = ⟨ms.all (fun m => (m.Check x h env).1.ret),
          ms.flatMap (fun m => (m.Check x h env).1.reports)⟩ := by
  induction ms with
  | nil => rfl
  | cons m ms ih => simp [CheckMembers, ih]

theorem CheckPrototypes_eq (x : Ext) (h : Scopes) (env : Nat) (fs : List FnDecl) :
    (CheckPrototypes x h env fs).1
      = ⟨fs.all (fun f => (f.Check x h env).1.ret),
          fs.flatMap (fun f => (f.Check x h env).1.reports)⟩ := by
  induction fs with
  | nil => rfl
  | cons f fs ih => simp [CheckPrototypes, ih]

/-- C13. When `CheckAgainstParents` and `CheckAgainstInterfaces` return,
`ClassDecl::Check` returns the AND of their flags and of the flags of `Check`
of every member, and its reports are theirs followed by the reports of every
member in declaration order, whatever the flags of the earlier parts.  In the
same way `FnDecl::Check` returns the AND over the return type, every formal and
the body, with the reports of every formal and of the body, and
`InterfaceDecl::Check` the AND over every member with the reports of every
member. -/
theorem Check_visits_all (x : Ext) (c : ClassDecl) (h : Scopes) (env classEnv : Nat)
    (vFunctions : Hashtable VFunction) (rp ri : CheckResult)
    (hp : c.CheckAgainstParents x h env classEnv = some rp)
    (hi : c.CheckAgainstInterfaces x h env classEnv vFunctions = some ri) :
    (c.Check x h env classEnv vFunctions).map Prod.fst
        = some ⟨rp.ret && ri.ret && c.members.all (fun m => (m.Check x h env).1.ret),
            rp.reports ++ ri.reports
              ++ c.members.flatMap (fun m => (m.Check x h env).1.reports)⟩
      ∧ (∀ f : FnDecl, (f.Check x h env).1
          = ⟨x.TypeCheck f.returnType h env
              && f.formals.all (fun v => (v.Check x h env).1.ret)
              && (match f.body with
                  | none => true
                  | some b => (x.StmtCheck b h env).1),
            f.formals.flatMap (fun v => (v.Check x h env).1.reports)
              ++ (match f.body with
                  | none => []
                  | some b => (x.StmtCheck b h env).2)⟩)
      ∧ (∀ i : InterfaceDecl, (i.Check x h env).1
          = ⟨i.members.all (fun f => (f.Check x h env).1.ret),
            i.members.flatMap (fun f => (f.Check x h env).1.reports)⟩) := by
  refine ⟨?_, ?_, ?_⟩
  · simp only [ClassDecl.Check, hp, hi, Option.map_some', CheckMembers_eq]
  · intro f
    unfold FnDecl.Check
    cases hb : f.body with
    | none => simp [CheckFormals_eq]
    | some b => simp [CheckFormals_eq]
  · intro i
    simp only [InterfaceDecl.Check, CheckPrototypes_eq]

/-- Witness for C13: in `Q3 extends P` the override check fails first, and the
member `y` with the unresolved type `Missing` is still checked and reported. -/
theorem Check_visits_all_witness :
    (exQ3.Check exStrictExt exPQ3Scopes 0 3 []).map Prod.fst
        = some ⟨false, [Report.OverrideMismatch (exF2 194),
            Report.IdentifierNotDeclared ⟨"Missing", 193⟩ reasonT.LookingForType]⟩
      ∧ (exQ3.Check exStrictExt exPQ3Scopes 0 3 []).map Prod.fst
        = some ⟨false && true && exQ3.members.all (fun m => (m.Check exStrictExt exPQ3Scopes 0).1.ret),
            [Report.OverrideMismatch (exF2 194)] ++ []
              ++ exQ3.members.flatMap (fun m => (m.Check exStrictExt exPQ3Scopes 0).1.reports)⟩ :=
  ⟨by decide,
   (Check_visits_all exStrictExt exQ3 exPQ3Scopes 0 3 []
      ⟨false, [Report.OverrideMismatch (exF2 194)]⟩ ⟨true, []⟩ (by decide) (by decide)).1⟩

/-- C18. `VarDecl::Check` returns the result of checking the type of the
variable.  When that is `false` it reports one `IdentifierNotDeclared(identifier
of the type, looking for type)` and leaves `Type::errorType` as the type of
the variable; when it is `true` it reports nothing and leaves the variable as
it is. -/
theorem VarDecl_Check_eq (x : Ext) (v : VarDecl) (h : Scopes) (env : Nat) :
    (v.Check x h env).1.ret = x.TypeCheck v.type h env
      ∧ v.Check x h env
        = if x.TypeCheck v.type h env = true then (⟨true, []⟩, v)
          else (⟨false, [Report.IdentifierNotDeclared (x.GetIdent v.type)
                  reasonT.LookingForType]⟩,
                ⟨v.id, Ty.errorType⟩) := by
  unfold VarDecl.Check
  cases ht : x.TypeCheck v.type h env <;> simp

/-! ## Pass 3: what a passed check says about the obligations -/

theorem CheckObligations_true (x : Ext) (h : Scopes) (classEnv : Nat) (vfs : List VFunction)
    (st st2 : ObligationState)
    (hrun : CheckObligations x h classEnv vfs st = some st2) (ht : st2.ret = true) :
    st.ret = true ∧ ∀ vf ∈ vfs, ∃ sym method,
      findInClass h classEnv vf.prototype.GetName (some SymbolType.S_FUNCTION) = some sym
        ∧ sym.node = Decl.fn method ∧ method.TypeEqual x vf.prototype = true := by
  induction vfs generalizing st with
  | nil =>
    simp only [CheckObligations, Option.some.injEq] at hrun
    subst hrun
    exact ⟨ht, by simp⟩
  | cons vf vfs ih =>
    simp only [CheckObligations] at hrun
    cases hs : CheckObligation x h classEnv st vf with
    | none => simp [hs] at hrun
    | some s1 =>
      simp only [hs] at hrun
      obtain ⟨h1, hrest⟩ := ih s1 hrun
      unfold CheckObligation at hs
      cases hf : findInClass h classEnv vf.prototype.GetName (some SymbolType.S_FUNCTION) with
      | none =>
        simp only [hf, Option.some.injEq] at hs
        subst hs
        simp at h1
      | some sym =>
        simp only [hf] at hs
        cases hn : sym.node with
        | fn method =>
          simp only [hn] at hs
          cases hte : method.TypeEqual x vf.prototype with
          | false =>
            simp only [hte, Bool.not_false, if_true, Option.some.injEq] at hs
            subst hs
            simp at h1
          | true =>
            simp only [hte, Bool.not_true, Bool.false_eq_true, if_false,
              Option.some.injEq] at hs
            subst hs
            refine ⟨h1, ?_⟩
            intro w hw
            rcases List.mem_cons.1 hw with hw | hw
            · subst hw
              exact ⟨sym, method, hf, hn, hte⟩
            · exact hrest w hw
        | var v => simp [hn] at hs
        | cls v => simp [hn] at hs
        | intf v => simp [hn] at hs

theorem CheckObligation_grows (x : Ext) (h : Scopes) (classEnv : Nat) (st s1 : ObligationState)
    (vf : VFunction) (hs : CheckObligation x h classEnv st vf = some s1) :
    (∀ rep ∈ st.reports, rep ∈ s1.reports) ∧ (st.ret = false → s1.ret = false) := by
  unfold CheckObligation at hs
  split at hs
  · simp only [Option.some.injEq] at hs
    subst hs
    exact ⟨fun rep hr => hr, fun _ => rfl⟩
  · split at hs
    · split at hs
      · simp only [Option.some.injEq] at hs
        subst hs
        exact ⟨fun rep hr => List.mem_append_left _ hr, fun _ => rfl⟩
      · simp only [Option.some.injEq] at hs
        subst hs
        exact ⟨fun rep hr => hr, fun hf => hf⟩
    · simp at hs

theorem CheckObligations_grows (x : Ext) (h : Scopes) (classEnv : Nat) (vfs : List VFunction)
    (st st2 : ObligationState) (hrun : CheckObligations x h classEnv vfs st = some st2) :
    (∀ rep ∈ st.reports, rep ∈ st2.reports) ∧ (st.ret = false → st2.ret = false) := by
  induction vfs generalizing st with
  | nil =>
    simp only [CheckObligations, Option.some.injEq] at hrun
    subst hrun
    exact ⟨fun rep hr => hr, fun hf => hf⟩
  | cons vf vfs ih =>
    simp only [CheckObligations] at hrun
    cases hs : CheckObligation x h classEnv st vf with
    | none => simp [hs] at hrun
    | some s1 =>
      simp only [hs] at hrun
      obtain ⟨a1, a2⟩ := CheckObligation_grows x h classEnv st s1 vf hs
      obtain ⟨b1, b2⟩ := ih s1 hrun
      exact ⟨fun rep hr => b1 rep (a1 rep hr), fun hf => b2 (a2 hf)⟩

theorem CheckObligations_mismatch (x : Ext) (h : Scopes) (classEnv : Nat)
    (vfs : List VFunction) (st st2 : ObligationState)
    (hrun : CheckObligations x h classEnv vfs st = some st2)
    (vf : VFunction) (hvf : vf ∈ vfs) (sym : Symbol) (method : FnDecl)
    (hfind : findInClass h classEnv vf.prototype.GetName (some SymbolType.S_FUNCTION)
      = some sym)
    (hnode : sym.node = Decl.fn method) (hte : method.TypeEqual x vf.prototype = false) :
    Report.OverrideMismatch method ∈ st2.reports ∧ st2.ret = false := by
  induction vfs generalizing st with
  | nil => simp at hvf
  | cons w vfs ih =>
    simp only [CheckObligations] at hrun
    cases hs : CheckObligation x h classEnv st w with
    | none => simp [hs] at hrun
    | some s1 =>
      simp only [hs] at hrun
      rcases List.mem_cons.1 hvf with hw | hw
      · subst hw
        simp only [CheckObligation, hfind, hnode, hte, Bool.not_false, if_true,
          Option.some.injEq] at hs
        subst hs
        obtain ⟨b1, b2⟩ := CheckObligations_grows x h classEnv vfs _ st2 hrun
        exact ⟨b1 _ (by simp), b2 rfl⟩
      · exact ih s1 hrun hw

/-- How `CheckAgainstInterfaces` is put together from its two loops. -/
theorem CheckAgainstInterfaces_some (x : Ext) (c : ClassDecl) (h : Scopes)
    (env classEnv : Nat) (vFunctions : Hashtable VFunction) (ri : CheckResult)
    (hri : c.CheckAgainstInterfaces x h env classEnv vFunctions = some ri) :
    ∃ r0 st, CheckInterfacesExist h env c.implements = some r0
      ∧ CheckObligations x h classEnv (vFunctions.map Prod.snd) ⟨r0.ret, r0.reports, []⟩
          = some st
      ∧ ri = ⟨st.ret, st.reports
          ++ st.incompleteIntfs.map (fun e => Report.InterfaceNotImplemented c e.2)⟩ := by
  unfold ClassDecl.CheckAgainstInterfaces at hri
  cases he : CheckInterfacesExist h env c.implements with
  | none => simp [he] at hri
  | some r0 =>
    simp only [he] at hri
    cases hs : CheckObligations x h classEnv (vFunctions.map Prod.snd)
        ⟨r0.ret, r0.reports, []⟩ with
    | none => simp [hs] at hri
    | some st =>
      simp only [hs, Option.some.injEq] at hri
      exact ⟨r0, st, rfl, hs, hri.symm⟩

/-- C19. If `ClassDecl::Check` returns `true`, then for every obligation of the
table `vFunctions` the lookup in the class itself finds a function under the
name of the prototype, and that function is type-equal to the prototype. -/
theorem Check_true_obligations_met (x : Ext) (c c2 : ClassDecl) (h : Scopes)
    (env classEnv : Nat) (vFunctions : Hashtable VFunction) (r : CheckResult)
    (hr : c.Check x h env classEnv vFunctions = some (r, c2)) (ht : r.ret = true) :
    ∀ e ∈ vFunctions, ∃ sym method,
      findInClass h classEnv e.2.prototype.GetName (some SymbolType.S_FUNCTION) = some sym
        ∧ sym.node = Decl.fn method ∧ method.TypeEqual x e.2.prototype = true := by
  unfold ClassDecl.Check at hr
  cases hp : c.CheckAgainstParents x h env classEnv with
  | none => simp [hp] at hr
  | some rp =>
    cases hi : c.CheckAgainstInterfaces x h env classEnv vFunctions with
    | none => simp [hp, hi] at hr
    | some ri =>
      simp only [hp, hi, Option.some.injEq, Prod.mk.injEq] at hr
      obtain ⟨hr1, _⟩ := hr
      subst hr1
      simp only [Bool.and_eq_true] at ht
      obtain ⟨r0, st, _, hs, rfl⟩ :=
        CheckAgainstInterfaces_some x c h env classEnv vFunctions ri hi
      obtain ⟨_, hall⟩ := CheckObligations_true x h classEnv _ _ st hs ht.1.2
      intro e he
      exact hall e.2 (List.mem_map.2 ⟨e, he, rfl⟩)

/-- Witness for C19: `G implements I4` declares `f` as `I4` requires it. -/
theorem Check_true_obligations_met_witness :
    (exGood.Check exExt (scopesOf exExt exGoodProgram) 0 3
        (vFunctionsOf exExt exGoodProgram exGood.id)).map Prod.fst = some ⟨true, []⟩
      ∧ vFunctionsOf exExt exGoodProgram exGood.id
        = [("f", ⟨⟨⟨"f", 201⟩, exInt, [⟨⟨"a", 202⟩, exInt⟩], none⟩, ⟨⟨"I4", 211⟩⟩, false⟩)]
      ∧ ∀ e ∈ vFunctionsOf exExt exGoodProgram exGood.id, ∃ sym method,
          findInClass (scopesOf exExt exGoodProgram) 3 e.2.prototype.GetName
              (some SymbolType.S_FUNCTION) = some sym
            ∧ sym.node = Decl.fn method ∧ method.TypeEqual exExt e.2.prototype = true :=
  ⟨by decide, by decide,
   Check_true_obligations_met exExt exGood exGood (scopesOf exExt exGoodProgram) 0 3
    (vFunctionsOf exExt exGoodProgram exGood.id) ⟨true, []⟩ (by decide) rfl⟩

/-- Counterexample for C20: `H implements I4` declares `f(int, int)` where `I4`
requires `f(int)`.  The class has a function with the name of the obligation
that is not type-equal to the prototype, and all that the three passes report
is `OverrideMismatch(H.f)`: there is no `InterfaceNotImplemented`. -/
theorem CheckAgainstInterfaces_mismatch_counterexample :
    vFunctionsOf exExt exMismatchProgram exH.id
        = [("f", ⟨⟨⟨"f", 201⟩, exInt, [⟨⟨"a", 202⟩, exInt⟩], none⟩, ⟨⟨"I4", 221⟩⟩, false⟩)]
      ∧ (findInClass (scopesOf exExt exMismatchProgram) 3 "f"
          (some SymbolType.S_FUNCTION)).map Symbol.node = some (Decl.fn (exF2 222))
      ∧ (exF2 222).TypeEqual exExt ⟨⟨"f", 201⟩, exInt, [⟨⟨"a", 202⟩, exInt⟩], none⟩ = false
      ∧ exH.CheckAgainstInterfaces exExt (scopesOf exExt exMismatchProgram) 0 3
          (vFunctionsOf exExt exMismatchProgram exH.id)
        = some ⟨false, [Report.OverrideMismatch (exF2 222)]⟩
      ∧ (CheckAll exExt exMismatchProgram).map (fun r => (r.ok, r.reports))
        = some (false, [Report.OverrideMismatch (exF2 222)]) := by
  decide

/-- C20, amended. If the class declares a function under the name of one of
its obligations and that function is not type-equal to the prototype of the
obligation, `CheckAgainstInterfaces` returns `false` and reports
`OverrideMismatch` for the function of the class; every
`InterfaceNotImplemented` it reports is for an interface type of an obligation
that has no function of its name in the class.  The lookups of the implements
names are taken to return, and a function symbol of the class to hold a
function declaration. -/
theorem CheckAgainstInterfaces_mismatch (x : Ext) (c : ClassDecl) (h : Scopes)
    (env classEnv : Nat) (vFunctions : Hashtable VFunction)
    (hexist : CheckInterfacesExist h env c.implements ≠ none)
    (hfn : ∀ vf ∈ vFunctions.map Prod.snd, methodCastOk h classEnv vf = true)
    (vf : VFunction) (hvf : vf ∈ vFunctions.map Prod.snd) (sym : Symbol) (method : FnDecl)
    (hfind : findInClass h classEnv vf.prototype.GetName (some SymbolType.S_FUNCTION)
      = some sym)
    (hnode : sym.node = Decl.fn method) (hte : method.TypeEqual x vf.prototype = false) :
    ∃ r, c.CheckAgainstInterfaces x h env classEnv vFunctions = some r
      ∧ Report.OverrideMismatch method ∈ r.reports
      ∧ r.ret = false
      ∧ ∀ cd t, Report.InterfaceNotImplemented cd t ∈ r.reports
          → ∃ w ∈ vFunctions.map Prod.snd, w.intfType = t ∧ missingIn h classEnv w = true := by
  cases he : CheckInterfacesExist h env c.implements with
  | none => exact absurd he hexist
  | some r0 =>
    have hr0 := CheckInterfacesExist_reports h env c.implements r0 he
    obtain ⟨st, hst⟩ := CheckObligations_returns x h classEnv (vFunctions.map Prod.snd)
      ⟨r0.ret, r0.reports, []⟩ hfn
    have hinv0 : IncompleteInv h classEnv ⟨r0.ret, r0.reports, []⟩ [] := by
      refine ⟨by simp, by simp, by simp, hr0⟩
    have hinv := CheckObligations_inv x h classEnv (vFunctions.map Prod.snd) _ st [] hinv0 hst
    simp only [List.nil_append] at hinv
    obtain ⟨_, hent, _, hrep⟩ := hinv
    obtain ⟨m1, m2⟩ := CheckObligations_mismatch x h classEnv _ _ st hst vf hvf sym method
      hfind hnode hte
    refine ⟨⟨st.ret, st.reports
        ++ st.incompleteIntfs.map (fun e => Report.InterfaceNotImplemented c e.2)⟩,
      by simp only [ClassDecl.CheckAgainstInterfaces, he, hst], ?_, m2, ?_⟩
    · exact List.mem_append_left _ m1
    · intro cd t hmem
      rcases List.mem_append.1 hmem with hmem | hmem
      · exact absurd rfl (hrep _ hmem cd t)
      · obtain ⟨e, he2, heq⟩ := List.mem_map.1 hmem
        simp only [Report.InterfaceNotImplemented.injEq] at heq
        obtain ⟨_, w, hw, i2, i3⟩ := hent e he2
        exact ⟨w, hw, i2.trans heq.2, i3⟩

/-- Witness for C20, amended: the class `H` of the counterexample. -/
theorem CheckAgainstInterfaces_mismatch_witness :
    ∃ r, exH.CheckAgainstInterfaces exExt (scopesOf exExt exMismatchProgram) 0 3
          (vFunctionsOf exExt exMismatchProgram exH.id) = some r
      ∧ Report.OverrideMismatch (exF2 222) ∈ r.reports
      ∧ r.ret = false
      ∧ ∀ cd t, Report.InterfaceNotImplemented cd t ∈ r.reports
          → ∃ w ∈ (vFunctionsOf exExt exMismatchProgram exH.id).map Prod.snd,
              w.intfType = t ∧ missingIn (scopesOf exExt exMismatchProgram) 3 w = true :=
  CheckAgainstInterfaces_mismatch exExt exH (scopesOf exExt exMismatchProgram) 0 3
    (vFunctionsOf exExt exMismatchProgram exH.id) (by decide) (by decide)
    ⟨⟨⟨"f", 201⟩, exInt, [⟨⟨"a", 202⟩, exInt⟩], none⟩, ⟨⟨"I4", 221⟩⟩, false⟩ (by decide)
    ⟨SymbolType.S_FUNCTION, Decl.fn (exF2 222), some 4, none⟩ (exF2 222)
    (by decide) rfl (by decide)

/-! ## Emission: class objects -/

theorem getClass_id (st : EmitState) (c : Identifier) (o : ClassObj)
    (h : getClass st c = some o) : o.info.decl.id = c := by
  unfold getClass at h
  have := List.find?_some h
  simpa using this

theorem getClass_setClass (st : EmitState) (obj : ClassObj) (c : Identifier) :
    getClass (setClass st obj) c
      = (getClass st c).map
          (fun o => if o.info.decl.id == obj.info.decl.id then obj else o) := by
  unfold getClass setClass
  simp only
  rw [List.find?_map]
  have hfun : ((fun o : ClassObj => o.info.decl.id == c)
      ∘ fun o => if o.info.decl.id == obj.info.decl.id then obj else o)
      = fun o : ClassObj => o.info.decl.id == c := by
    funext o
    simp only [Function.comp]
    by_cases ho : o.info.decl.id = obj.info.decl.id
    · simp [ho]
    · simp [ho]
  rw [hfun]

theorem fallocOf_setClass (st : EmitState) (obj : ClassObj) (c : Identifier) :
    fallocOf (setClass st obj) c
      = if (getClass st c).isSome ∧ obj.info.decl.id = c then obj.classFalloc
        else fallocOf st c := by
  unfold fallocOf
  rw [getClass_setClass]
  cases hg : getClass st c with
  | none => simp
  | some o =>
    have hid := getClass_id st c o hg
    by_cases hc : obj.info.decl.id = c
    · simp [hid, hc]
    · have hc2 : ¬ (c = obj.info.decl.id) := fun e => hc e.symm
      simp [hid, hc, hc2]

/-- From `st` to `st2` no class object appears or disappears, and a class that
was emitted stays emitted. -/
theorem emitted_setClass (st : EmitState) (obj : ClassObj) (hobj : obj.classFalloc.isSome = true)
    (c : Identifier) :
    (getClass (setClass st obj) c).isSome = (getClass st c).isSome
      ∧ (emitted st c = true → emitted (setClass st obj) c = true) := by
  refine ⟨?_, ?_⟩
  · rw [getClass_setClass]
    cases getClass st c <;> simp
  · intro he
    unfold emitted at he ⊢
    rw [fallocOf_setClass]
    split
    · exact hobj
    · exact he

theorem FnDecl_Emit_frame (x : Ext) (f : FnDecl) (st st2 : EmitState)
    (h : f.Emit x st = some st2) :
    st2.classes = st.classes ∧ st2.vTables = st.vTables ∧ st2.fieldLists = st.fieldLists
      ∧ st2.methodLabels = st.methodLabels ∧ st2.fnEnvs = st.fnEnvs := by
  unfold FnDecl.Emit at h
  simp only at h
  split at h
  · simp at h
  · split at h
    · simp at h
    · split at h
      · simp at h
      · simp only [Option.some.injEq] at h
        subst h
        simp [EmitState.request]

theorem getClass_congr (st st2 : EmitState) (h : st2.classes = st.classes) (c : Identifier) :
    getClass st2 c = getClass st c := by
  unfold getClass
  rw [h]

theorem fallocOf_congr (st st2 : EmitState) (h : st2.classes = st.classes) (c : Identifier) :
    fallocOf st2 c = fallocOf st c := by
  unfold fallocOf
  rw [getClass_congr st st2 h]

/-- What `EmitMember` does to the class objects: a method leaves them alone. -/
theorem EmitMember_method_classes (x : Ext) (cid : Identifier) (label : String) (i : Nat)
    (f : FnDecl) (st st2 : EmitState)
    (h : EmitMember x cid label i (Member.method f) st = some st2) :
    st2.classes = st.classes := by
  unfold EmitMember at h
  split at h
  · simp at h
  · simp only at h
    split at h
    · simp at h
    · split at h
      · simp at h
      · split at h
        · simp at h
        · exact ((FnDecl_Emit_frame x f _ st2 h).1).trans (by simp [SetMethodLabel])
        · exact ((FnDecl_Emit_frame x f _ st2 h).1).trans (by simp [SetMethodLabel])

/-- What `EmitMember` does for a field: one allocation of four bytes from the
allocator of the class, stored as the location of the symbol that `find`
returns for the name of the field from the class scope. -/
theorem EmitMember_field (x : Ext) (cid : Identifier) (label : String) (i : Nat)
    (v : VarDecl) (st st2 : EmitState)
    (h : EmitMember x cid label i (Member.field v) st = some st2) :
    ∃ obj fa fl fields h2, getClass st cid = some obj ∧ obj.classFalloc = some fa
      ∧ obj.fields = some fl ∧ st.fieldLists[fl]? = some fields
      ∧ setLocation st.scopes obj.info.classEnv v.id.name (some SymbolType.S_VARIABLE)
          (fa.Alloc v.id.name 4).1 = some h2
      ∧ st2 = setClass
          { st with fieldLists := st.fieldLists.set fl (fields ++ [v]), scopes := h2 }
          { obj with classFalloc := some (fa.Alloc v.id.name 4).2 } := by
  unfold EmitMember at h
  split at h
  · simp at h
  · next obj hobj =>
    simp only at h
    split at h
    · next fl fa hfl hfa =>
      split at h
      · simp at h
      · next fields hfields =>
        unfold VarDecl.Emit at h
        simp only at h
        split at h
        · simp at h
        · next r hr =>
          split at hr
          · simp at hr
          · next h2 hset =>
            simp only [Option.some.injEq] at hr
            subst hr
            simp only [Option.some.injEq] at h
            exact ⟨obj, fa, fl, fields, h2, hobj, hfa, hfl, hfields, hset, h.symm⟩
    · simp at h

theorem EmitMember_step (x : Ext) (cid : Identifier) (label : String) (i : Nat)
    (m : Member) (st st2 : EmitState) (h : EmitMember x cid label i m st = some st2)
    (c : Identifier) :
    (getClass st2 c).isSome = (getClass st c).isSome
      ∧ (emitted st c = true → emitted st2 c = true) := by
  cases m with
  | method f =>
    have hc := EmitMember_method_classes x cid label i f st st2 h
    unfold emitted
    rw [getClass_congr st st2 hc, fallocOf_congr st st2 hc]
    exact ⟨rfl, fun he => he⟩
  | field v =>
    obtain ⟨obj, fa, fl, fields, h2, _, _, _, _, _, rfl⟩ :=
      EmitMember_field x cid label i v st st2 h
    have := emitted_setClass
      { st with fieldLists := st.fieldLists.set fl (fields ++ [v]), scopes := h2 }
      { obj with classFalloc := some (fa.Alloc v.id.name 4).2 } rfl c
    exact this

theorem EmitMembers_step (x : Ext) (cid : Identifier) (label : String) (ms : List Member)
    (i : Nat) (st st2 : EmitState) (h : EmitMembers x cid label i ms st = some st2)
    (c : Identifier) :
    (getClass st2 c).isSome = (getClass st c).isSome
      ∧ (emitted st c = true → emitted st2 c = true) := by
  induction ms generalizing i st with
  | nil =>
    simp only [EmitMembers, Option.some.injEq] at h
    subst h
    exact ⟨rfl, fun he => he⟩
  | cons m ms ih =>
    simp only [EmitMembers] at h
    cases hm : EmitMember x cid label i m st with
    | none => simp [hm] at h
    | some s1 =>
      simp only [hm] at h
      obtain ⟨a1, a2⟩ := EmitMember_step x cid label i m st s1 hm c
      obtain ⟨b1, b2⟩ := ih (i + 1) s1 h
      exact ⟨b1.trans a1, fun he => b2 (a2 he)⟩

theorem EmitVTable_classes (cid : Identifier) (label : String) (st st2 : EmitState)
    (h : EmitVTable cid label st = some st2) :
    st2.classes = st.classes ∧ st2.vTables = st.vTables ∧ st2.fieldLists = st.fieldLists
      ∧ st2.methodLabels = st.methodLabels ∧ st2.scopes = st.scopes := by
  unfold EmitVTable at h
  split at h
  · simp at h
  · split at h
    · simp at h
    · split at h
      · simp at h
      · simp only [Option.some.injEq] at h
        subst h
        simp [EmitState.request]

/-- A call of `ClassDecl::Emit` on a class whose `classFalloc` is set returns
at once. -/
theorem ClassDecl_Emit_done (x : Ext) (fuel : Nat) (cid : Identifier) (st : EmitState)
    (he : emitted st cid = true) : ClassDecl.Emit x (fuel + 1) cid st = some st := by
  unfold emitted fallocOf at he
  cases hg : getClass st cid with
  | none => simp [hg] at he
  | some obj =>
    simp only [hg] at he
    simp only [ClassDecl.Emit, hg, he, if_true]

/-- The steps of a call of `ClassDecl::Emit` on a class that was not emitted
yet: the class label, the lists and the allocator (new ones, or those of the
parent after the parent's own call), the member loop, the dispatch table. -/
theorem ClassDecl_Emit_first (x : Ext) (fuel : Nat) (cid : Identifier) (st st2 : EmitState)
    (obj : ClassObj) (hobj : getClass st cid = some obj) (hno : obj.classFalloc = none)
    (hrun : ClassDecl.Emit x (fuel + 1) cid st = some st2) :
    ∃ sa sb,
      ((obj.info.decl.extends_ = none
          ∧ sa = setClass
              { st.request (Request.NewClassLabel obj.info.decl.id.name) with
                vTables := st.vTables ++ [[]], fieldLists := st.fieldLists ++ [[]] }
              { obj with vTable := some st.vTables.length,
                         fields := some st.fieldLists.length,
                         classFalloc := some ⟨Segment.classRelative, Direction.FRAME_UP,
                           x.FrameBase Segment.classRelative Direction.FRAME_UP,
                           x.FrameBase Segment.classRelative Direction.FRAME_UP⟩ })
        ∨ (∃ ex parent s1 pobj pf, obj.info.decl.extends_ = some ex
            ∧ obj.info.parent = some parent
            ∧ ClassDecl.Emit x fuel parent.id
                (st.request (Request.NewClassLabel obj.info.decl.id.name)) = some s1
            ∧ getClass s1 parent.id = some pobj ∧ pobj.classFalloc = some pf
            ∧ sa = setClass s1
                { obj with vTable := pobj.vTable, fields := pobj.fields,
                           classFalloc := some pf.inherit }))
      ∧ EmitMembers x cid (x.NewClassLabel obj.info.decl.id.name) 0 obj.info.decl.members sa
          = some sb
      ∧ EmitVTable cid (x.NewClassLabel obj.info.decl.id.name) sb = some st2 := by
  simp only [ClassDecl.Emit, hobj, hno, Option.isSome_none, Bool.false_eq_true, if_false]
    at hrun
  cases hex : obj.info.decl.extends_ with
  | none =>
    simp only [hex] at hrun
    split at hrun
    · simp at hrun
    · next sb hsb =>
      exact ⟨_, sb, Or.inl ⟨rfl, rfl⟩, hsb, hrun⟩
  | some ex =>
    simp only [hex] at hrun
    cases hpar : obj.info.parent with
    | none => simp [hpar] at hrun
    | some parent =>
      simp only [hpar] at hrun
      cases hp : ClassDecl.Emit x fuel parent.id
          (st.request (Request.NewClassLabel obj.info.decl.id.name)) with
      | none => simp [hp] at hrun
      | some s1 =>
        simp only [hp] at hrun
        cases hpo : getClass s1 parent.id with
        | none => simp [hpo] at hrun
        | some pobj =>
          simp only [hpo] at hrun
          cases hpf : pobj.GetFalloc with
          | none => simp [hpf] at hrun
          | some pf =>
            simp only [hpf] at hrun
            split at hrun
            · simp at hrun
            · next sb hsb =>
              exact ⟨_, sb, Or.inr ⟨ex, parent, s1, pobj, pf, rfl, rfl, hp, hpo, hpf, rfl⟩,
                hsb, hrun⟩

theorem ClassesKept_refl (st : EmitState) : ClassesKept st st :=
  fun _ => ⟨rfl, fun he => he⟩

theorem ClassesKept_trans (a b c : EmitState) (h1 : ClassesKept a b) (h2 : ClassesKept b c) :
    ClassesKept a c :=
  fun i => ⟨(h2 i).1.trans (h1 i).1, fun he => (h2 i).2 ((h1 i).2 he)⟩

theorem ClassesKept_of_classes (st st2 : EmitState) (h : st2.classes = st.classes) :
    ClassesKept st st2 := by
  intro c
  unfold emitted
  rw [getClass_congr st st2 h, fallocOf_congr st st2 h]
  exact ⟨rfl, fun he => he⟩

theorem setClass_kept (s : EmitState) (o : ClassObj) (cid : Identifier)
    (hs : (getClass s cid).isSome = true) (hid : o.info.decl.id = cid)
    (hfa : o.classFalloc.isSome = true) :
    ClassesKept s (setClass s o) ∧ emitted (setClass s o) cid = true := by
  refine ⟨fun c => emitted_setClass s o hfa c, ?_⟩
  unfold emitted
  rw [fallocOf_setClass]
  simp [hs, hid, hfa]

/-- A call of `ClassDecl::Emit` that returns keeps the class objects and leaves
the class it was called on with `classFalloc` set. -/
theorem ClassDecl_Emit_kept (x : Ext) (fuel : Nat) :
    ∀ (cid : Identifier) (st st2 : EmitState), ClassDecl.Emit x fuel cid st = some st2 →
      ClassesKept st st2 ∧ emitted st2 cid = true := by
  induction fuel with
  | zero =>
    intro cid st st2 h
    simp [ClassDecl.Emit] at h
  | succ fuel ih =>
    intro cid st st2 h
    cases hg : getClass st cid with
    | none => simp [ClassDecl.Emit, hg] at h
    | some obj =>
      have hid := getClass_id st cid obj hg
      cases hfa : obj.classFalloc with
      | some fa =>
        have he : emitted st cid = true := by simp [emitted, fallocOf, hg, hfa]
        rw [ClassDecl_Emit_done x fuel cid st he] at h
        cases h
        exact ⟨ClassesKept_refl st, he⟩
      | none =>
        obtain ⟨sa, sb, hsa, hmem, hvt⟩ := ClassDecl_Emit_first x fuel cid st st2 obj hg hfa h
        have hab : ClassesKept sa sb := fun c =>
          EmitMembers_step x cid _ obj.info.decl.members 0 sa sb hmem c
        have hbc : ClassesKept sb st2 :=
          ClassesKept_of_classes sb st2 (EmitVTable_classes cid _ sb st2 hvt).1
        have hsa2 : ClassesKept st sa ∧ emitted sa cid = true := by
          rcases hsa with ⟨_, hsa⟩ | ⟨ex, parent, s1, pobj, pf, _, _, hp, _, _, hsa⟩
          · rw [hsa]
            have hg2 : (getClass
                { st.request (Request.NewClassLabel obj.info.decl.id.name) with
                  vTables := st.vTables ++ [[]], fieldLists := st.fieldLists ++ [[]] }
                cid).isSome = true := by
              have hg3 : getClass
                  { st.request (Request.NewClassLabel obj.info.decl.id.name) with
                    vTables := st.vTables ++ [[]], fieldLists := st.fieldLists ++ [[]] }
                  cid = some obj := hg
              rw [hg3]
              rfl
            exact ⟨ClassesKept_trans st _ _ (ClassesKept_of_classes st _ rfl)
                (setClass_kept _ _ cid hg2 (by exact hid) (by rfl)).1,
              (setClass_kept _ _ cid hg2 (by exact hid) (by rfl)).2⟩
          · rw [hsa]
            obtain ⟨k1, _⟩ := ih parent.id _ s1 hp
            have k0 : ClassesKept st (st.request (Request.NewClassLabel obj.info.decl.id.name)) :=
              ClassesKept_of_classes st _ rfl
            have k01 := ClassesKept_trans _ _ _ k0 k1
            have hs1 : (getClass s1 cid).isSome = true := by
              rw [(k01 cid).1, hg]
              rfl
            exact ⟨ClassesKept_trans st _ _ k01 (setClass_kept _ _ cid hs1 (by exact hid) (by rfl)).1,
              (setClass_kept _ _ cid hs1 (by exact hid) (by rfl)).2⟩
        have hall := ClassesKept_trans _ _ _ hsa2.1 (ClassesKept_trans _ _ _ hab hbc)
        exact ⟨hall, (ClassesKept_trans _ _ _ hab hbc cid).2 hsa2.2⟩

theorem EmitClasses_kept (x : Ext) (ds : List Decl) (st st2 : EmitState)
    (h : EmitClasses x ds st = some st2) : ClassesKept st st2 := by
  induction ds generalizing st with
  | nil =>
    simp only [EmitClasses, Option.some.injEq] at h
    subst h
    exact ClassesKept_refl st
  | cons d ds ih =>
    cases d with
    | cls c =>
      simp only [EmitClasses] at h
      cases hc : ClassDecl.Emit x (st.classes.length + 1) c.id st with
      | none => simp [hc] at h
      | some s1 =>
        simp only [hc] at h
        exact ClassesKept_trans _ _ _ (ClassDecl_Emit_kept x _ c.id st s1 hc).1 (ih s1 h)
    | var v => exact ih st (by simpa [EmitClasses] using h)
    | fn f => exact ih st (by simpa [EmitClasses] using h)
    | intf i => exact ih st (by simpa [EmitClasses] using h)

/-- C14. Once a call of `ClassDecl::Emit` on a class has returned, the test
`classFalloc != NULL` holds for the class, it still holds after the classes of
any list of declarations were emitted, and a call of `ClassDecl::Emit` on the
class in any state in which it holds returns the state as it is: no request,
no allocation, no change of a dispatch table, a field list or an allocator. -/
theorem Emit_again_is_noop (x : Ext) (fuel : Nat) (cid : Identifier) (st st1 : EmitState)
    (hfirst : ClassDecl.Emit x fuel cid st = some st1) :
    emitted st1 cid = true
      ∧ (∀ ds st2, EmitClasses x ds st1 = some st2 → emitted st2 cid = true)
      ∧ (∀ s fuel2, emitted s cid = true → ClassDecl.Emit x (fuel2 + 1) cid s = some s)
      ∧ (∀ ds st2 fuel2, EmitClasses x ds st1 = some st2
          → ClassDecl.Emit x (fuel2 + 1) cid st2 = some st2) := by
  have h1 := (ClassDecl_Emit_kept x fuel cid st st1 hfirst).2
  have h2 : ∀ ds st2, EmitClasses x ds st1 = some st2 → emitted st2 cid = true :=
    fun ds st2 hds => (EmitClasses_kept x ds st1 st2 hds cid).2 h1
  exact ⟨h1, h2, fun s fuel2 he => ClassDecl_Emit_done x fuel2 cid s he,
    fun ds st2 fuel2 hds => ClassDecl_Emit_done x fuel2 cid st2 (h2 ds st2 hds)⟩

/-- Witness for C14: `P` emitted first in the sibling program, then `S` and
`T`; a second call on `P` changes nothing. -/
theorem Emit_again_is_noop_witness :
    ClassDecl.Emit exExt 4 exP.id exSiblingStart = some exSiblingAfterP
      ∧ exSiblingAfterP.requests.length = 6
      ∧ ClassDecl.Emit exExt 4 exP.id exSiblingAfterP = some exSiblingAfterP
      ∧ emitted exSiblingAfterP exP.id = true
      ∧ (∀ ds st2, EmitClasses exExt ds exSiblingAfterP = some st2
          → emitted st2 exP.id = true) :=
  ⟨by decide, by decide, by decide,
   (Emit_again_is_noop exExt 4 exP.id exSiblingStart exSiblingAfterP (by decide)).1,
   (Emit_again_is_noop exExt 4 exP.id exSiblingStart exSiblingAfterP (by decide)).2.1⟩

/-! ## Emission: field lists and field offsets -/

/-- C15, evaluated. Scenario 1 of the specification holds: for `class A { int
x; }` and `class B2 extends A { int y; }` the field list of `B2` is `[x, y]` and
its dispatch table is empty.  With the sibling `class C2 extends A { int z; }`
emitted after `B2`, the program passes the three passes and the field list of
`C2` is `[x, y, z]`: it holds `y`, a field of `B2`, which is neither `C2` nor an
ancestor of `C2`. -/
theorem Emit_sibling_fields :
    (emitAfterCheck exExt [Decl.cls exA, Decl.cls exB2]).bind (fun st => fieldsOf st exB2.id)
        = some [⟨⟨"x", 41⟩, exInt⟩, ⟨⟨"y", 232⟩, exInt⟩]
      ∧ (emitAfterCheck exExt [Decl.cls exA, Decl.cls exB2]).bind (fun st => vTableOf st exB2.id)
        = some []
      ∧ (CheckAll exExt exFieldProgram).map (fun r => (r.ok, r.reports)) = some (true, [])
      ∧ (emitAfterCheck exExt exFieldProgram).bind (fun st => fieldsOf st exC2.id)
        = some [⟨⟨"x", 41⟩, exInt⟩, ⟨⟨"y", 232⟩, exInt⟩, ⟨⟨"z", 242⟩, exInt⟩]
      ∧ Member.field ⟨⟨"y", 232⟩, exInt⟩ ∈ exB2.members
      ∧ Member.field ⟨⟨"y", 232⟩, exInt⟩ ∉ exC2.members ++ exA.members := by
  decide

theorem after_zero (fa : FrameAllocator) : fa.after 0 = fa := by
  cases fa with
  | mk s d b o => cases d <;> simp [FrameAllocator.after]

theorem after_after (fa : FrameAllocator) (a b : Nat) :
    (fa.after a).after b = fa.after (a + b) := by
  cases fa with
  | mk s d b0 o =>
    cases d
    · simp only [FrameAllocator.after, FrameAllocator.mk.injEq, true_and]
      push_cast
      ring
    · simp only [FrameAllocator.after, FrameAllocator.mk.injEq, true_and]
      push_cast
      ring

theorem Alloc_eq_after (fa : FrameAllocator) (name : String) :
    fa.Alloc name 4 = (⟨fa.segment, fa.offset⟩, fa.after 1) := by
  cases fa with
  | mk s d b o => cases d <;> simp [FrameAllocator.Alloc, FrameAllocator.after]

/-- The member loop taken apart at one member. -/
theorem EmitMembers_split (x : Ext) (cid : Identifier) (label : String)
    (pre : List Member) (m : Member) (post : List Member) (i : Nat) (st st2 : EmitState)
    (h : EmitMembers x cid label i (pre ++ m :: post) st = some st2) :
    ∃ sp sq, EmitMembers x cid label i pre st = some sp
      ∧ EmitMember x cid label (i + pre.length) m sp = some sq
      ∧ EmitMembers x cid label (i + pre.length + 1) post sq = some st2 := by
  induction pre generalizing i st with
  | nil =>
    simp only [List.nil_append, EmitMembers] at h
    cases hm : EmitMember x cid label i m st with
    | none => simp [hm] at h
    | some sq =>
      simp only [hm] at h
      exact ⟨st, sq, rfl, by simpa using hm, by simpa using h⟩
  | cons p pre ih =>
    simp only [List.cons_append, EmitMembers] at h
    cases hp : EmitMember x cid label i p st with
    | none => simp [hp] at h
    | some s1 =>
      simp only [hp] at h
      obtain ⟨sp, sq, a1, a2, a3⟩ := ih (i + 1) s1 h
      refine ⟨sp, sq, by simp [EmitMembers, hp, a1], ?_, ?_⟩
      · have : i + (p :: pre).length = i + 1 + pre.length := by simp; omega
        rw [this]
        exact a2
      · have : i + (p :: pre).length + 1 = i + 1 + pre.length + 1 := by simp; omega
        rw [this]
        exact a3

/-- What one member does to the allocators: a method nothing, a field one
allocation from the allocator of the class being emitted. -/
theorem EmitMember_falloc (x : Ext) (cid : Identifier) (label : String) (i : Nat)
    (m : Member) (st st2 : EmitState) (h : EmitMember x cid label i m st = some st2) :
    (∀ c, c ≠ cid → fallocOf st2 c = fallocOf st c)
      ∧ (∀ fa, fallocOf st cid = some fa
          → fallocOf st2 cid = some (fa.after (fieldCount [m]))) := by
  cases m with
  | method f =>
    have hc := EmitMember_method_classes x cid label i f st st2 h
    refine ⟨fun c _ => fallocOf_congr st st2 hc c, ?_⟩
    intro fa hfa
    rw [fallocOf_congr st st2 hc cid, hfa]
    simp [fieldCount, after_zero]
  | field v =>
    obtain ⟨obj, fa0, fl, fields, h2, hobj, hfa0, _, _, _, rfl⟩ :=
      EmitMember_field x cid label i v st st2 h
    have hid := getClass_id st cid obj hobj
    have hbase : ∀ c, fallocOf
        { st with fieldLists := st.fieldLists.set fl (fields ++ [v]), scopes := h2 } c
        = fallocOf st c := fun c => rfl
    refine ⟨?_, ?_⟩
    · intro c hc
      rw [fallocOf_setClass, hbase]
      have hne : ¬ (obj.info.decl.id = c) := by
        rw [hid]
        exact fun e => hc e.symm
      simp [hne]
    · intro fa hfa
      have hfa1 : fa0 = fa := by
        unfold fallocOf at hfa
        rw [hobj] at hfa
        simp only [hfa0, Option.some.injEq] at hfa
        exact hfa
      subst hfa1
      rw [fallocOf_setClass]
      have hg : (getClass
          { st with fieldLists := st.fieldLists.set fl (fields ++ [v]), scopes := h2 }
          cid).isSome = true := by
        have : getClass
            { st with fieldLists := st.fieldLists.set fl (fields ++ [v]), scopes := h2 } cid
            = some obj := hobj
        rw [this]
        rfl
      simp [hg, hid, Alloc_eq_after, fieldCount]

theorem fieldCount_cons (m : Member) (ms : List Member) :
    fieldCount (m :: ms) = fieldCount [m] + fieldCount ms := by
  cases m with
  | method f => simp [fieldCount]
  | field v =>
    simp only [fieldCount]
    omega

theorem fieldCount_append (a b : List Member) :
    fieldCount (a ++ b) = fieldCount a + fieldCount b := by
  induction a with
  | nil => simp [fieldCount]
  | cons m a ih =>
    rw [List.cons_append, fieldCount_cons, ih, fieldCount_cons m a]
    omega

theorem EmitMembers_falloc (x : Ext) (cid : Identifier) (label : String) (ms : List Member)
    (i : Nat) (st st2 : EmitState) (h : EmitMembers x cid label i ms st = some st2) :
    (∀ c, c ≠ cid → fallocOf st2 c = fallocOf st c)
      ∧ (∀ fa, fallocOf st cid = some fa
          → fallocOf st2 cid = some (fa.after (fieldCount ms))) := by
  induction ms generalizing i st with
  | nil =>
    simp only [EmitMembers, Option.some.injEq] at h
    subst h
    exact ⟨fun c _ => rfl, fun fa hfa => by simp [fieldCount, after_zero, hfa]⟩
  | cons m ms ih =>
    simp only [EmitMembers] at h
    cases hm : EmitMember x cid label i m st with
    | none => simp [hm] at h
    | some s1 =>
      simp only [hm] at h
      obtain ⟨a1, a2⟩ := EmitMember_falloc x cid label i m st s1 hm
      obtain ⟨b1, b2⟩ := ih (i + 1) s1 h
      refine ⟨fun c hc => (b1 c hc).trans (a1 c hc), ?_⟩
      intro fa hfa
      rw [b2 _ (a2 fa hfa), after_after, fieldCount_cons m ms]

theorem infoOf_congr (st st2 : EmitState) (h : st2.classes = st.classes) (c : Identifier) :
    infoOf st2 c = infoOf st c := by
  unfold infoOf
  rw [getClass_congr st st2 h]

/-- Storing a class object that carries the same `info` as the one it replaces
changes no `info`. -/
theorem infoOf_setClass (s : EmitState) (o old : ClassObj)
    (hold : getClass s o.info.decl.id = some old) (hinfo : o.info = old.info)
    (c : Identifier) : infoOf (setClass s o) c = infoOf s c := by
  unfold infoOf
  rw [getClass_setClass]
  cases hg : getClass s c with
  | none => rfl
  | some oc =>
    have hid := getClass_id s c oc hg
    by_cases hc : oc.info.decl.id = o.info.decl.id
    · have : c = o.info.decl.id := by rw [← hid, hc]
      subst this
      rw [hold] at hg
      cases hg
      simp [hinfo]
    · simp [hc]

theorem EmitMember_info (x : Ext) (cid : Identifier) (label : String) (i : Nat)
    (m : Member) (st st2 : EmitState) (h : EmitMember x cid label i m st = some st2)
    (c : Identifier) : infoOf st2 c = infoOf st c := by
  cases m with
  | method f =>
    exact infoOf_congr st st2 (EmitMember_method_classes x cid label i f st st2 h) c
  | field v =>
    obtain ⟨obj, fa0, fl, fields, h2, hobj, _, _, _, _, rfl⟩ :=
      EmitMember_field x cid label i v st st2 h
    have hid := getClass_id st cid obj hobj
    have hold : getClass
        { st with fieldLists := st.fieldLists.set fl (fields ++ [v]), scopes := h2 }
        ({ obj with classFalloc := some (fa0.Alloc v.id.name 4).2 } : ClassObj).info.decl.id
        = some obj := by
      have : getClass st obj.info.decl.id = some obj := by rw [hid]; exact hobj
      exact this
    exact infoOf_setClass _ _ obj hold rfl c

theorem EmitMembers_info (x : Ext) (cid : Identifier) (label : String) (ms : List Member)
    (i : Nat) (st st2 : EmitState) (h : EmitMembers x cid label i ms st = some st2)
    (c : Identifier) : infoOf st2 c = infoOf st c := by
  induction ms generalizing i st with
  | nil =>
    simp only [EmitMembers, Option.some.injEq] at h
    subst h
    rfl
  | cons m ms ih =>
    simp only [EmitMembers] at h
    cases hm : EmitMember x cid label i m st with
    | none => simp [hm] at h
    | some s1 =>
      simp only [hm] at h
      exact (ih (i + 1) s1 h).trans (EmitMember_info x cid label i m st s1 hm c)

theorem after_up (fa : FrameAllocator) (k : Nat) (hd : fa.direction = Direction.FRAME_UP) :
    fa.after k = ⟨fa.segment, Direction.FRAME_UP, fa.base, fa.offset + 4 * k⟩ := by
  cases fa with
  | mk s d b o =>
    simp only at hd
    subst hd
    simp [FrameAllocator.after]

theorem after_kind (fa : FrameAllocator) (k : Nat) :
    (fa.after k).segment = fa.segment ∧ (fa.after k).direction = fa.direction := by
  simp [FrameAllocator.after]

theorem EmitMember_falloc_map (x : Ext) (cid : Identifier) (label : String) (i : Nat)
    (m : Member) (st st2 : EmitState) (h : EmitMember x cid label i m st = some st2) :
    fallocOf st2 cid = (fallocOf st cid).map (fun fa => fa.after (fieldCount [m])) := by
  cases h0 : fallocOf st cid with
  | some fa => simpa using (EmitMember_falloc x cid label i m st st2 h).2 fa h0
  | none =>
    cases m with
    | method f =>
      rw [fallocOf_congr st st2 (EmitMember_method_classes x cid label i f st st2 h) cid, h0]
      rfl
    | field v =>
      obtain ⟨obj, fa0, _, _, _, hobj, hfa0, _, _, _, _⟩ :=
        EmitMember_field x cid label i v st st2 h
      unfold fallocOf at h0
      rw [hobj] at h0
      simp only [hfa0] at h0
      exact absurd h0 (by simp)

theorem EmitMembers_falloc_map (x : Ext) (cid : Identifier) (label : String)
    (ms : List Member) (i : Nat) (st st2 : EmitState)
    (h : EmitMembers x cid label i ms st = some st2) :
    fallocOf st2 cid = (fallocOf st cid).map (fun fa => fa.after (fieldCount ms)) := by
  induction ms generalizing i st with
  | nil =>
    simp only [EmitMembers, Option.some.injEq] at h
    subst h
    cases fallocOf st cid <;> simp [fieldCount, after_zero]
  | cons m ms ih =>
    simp only [EmitMembers] at h
    cases hm : EmitMember x cid label i m st with
    | none => simp [hm] at h
    | some s1 =>
      simp only [hm] at h
      rw [ih (i + 1) s1 h, EmitMember_falloc_map x cid label i m st s1 hm, fieldCount_cons m ms]
      cases fallocOf st cid <;> simp [after_after]

/-- The member loop keeps every class allocator class-relative and growing
up. -/
theorem EmitMembers_allocators (x : Ext) (cid : Identifier) (label : String)
    (ms : List Member) (i : Nat) (st st2 : EmitState)
    (h : EmitMembers x cid label i ms st = some st2) (hinv : ClassAllocators st) :
    ClassAllocators st2 := by
  intro c fa hfa
  by_cases hc : c = cid
  · subst hc
    rw [EmitMembers_falloc_map x c label ms i st st2 h] at hfa
    cases h0 : fallocOf st c with
    | none => simp [h0] at hfa
    | some fa0 =>
      simp only [h0, Option.map_some', Option.some.injEq] at hfa
      subst hfa
      obtain ⟨k1, k2⟩ := hinv c fa0 h0
      obtain ⟨j1, j2⟩ := after_kind fa0 (fieldCount ms)
      exact ⟨j1.trans k1, j2.trans k2⟩
  · rw [(EmitMembers_falloc x cid label ms i st st2 h).1 c hc] at hfa
    exact hinv c fa hfa

theorem emitted_false_of_none (st : EmitState) (cid : Identifier) (obj : ClassObj)
    (hg : getClass st cid = some obj) (hno : obj.classFalloc = none) :
    fallocOf st cid = none := by
  unfold fallocOf
  rw [hg]
  exact hno

/-- Storing the object of the class `cid` changes the allocator of `cid`
only. -/
theorem fallocOf_setClass_other (s : EmitState) (o : ClassObj) (cid c : Identifier)
    (hid : o.info.decl.id = cid) (hc : c ≠ cid) :
    fallocOf (setClass s o) c = fallocOf s c := by
  rw [fallocOf_setClass]
  have hne : ¬ (o.info.decl.id = c) := by
    rw [hid]
    exact fun e => hc e.symm
  simp [hne]

theorem fallocOf_setClass_self (s : EmitState) (o : ClassObj) (cid : Identifier)
    (hid : o.info.decl.id = cid) (hs : (getClass s cid).isSome = true) :
    fallocOf (setClass s o) cid = o.classFalloc := by
  rw [fallocOf_setClass]
  simp [hs, hid]

theorem ClassAllocators_setClass (s : EmitState) (o : ClassObj)
    (hinv : ClassAllocators s)
    (ho : ∀ fa, o.classFalloc = some fa
      → fa.segment = Segment.classRelative ∧ fa.direction = Direction.FRAME_UP) :
    ClassAllocators (setClass s o) := by
  intro c fa hfa
  rw [fallocOf_setClass] at hfa
  split at hfa
  · exact ho fa hfa
  · exact hinv c fa hfa

/-- A call of `ClassDecl::Emit` that returns leaves the allocators of the
classes emitted before as they are, keeps every class allocator class-relative
and growing up, and changes no field of passes 1 and 2. -/
theorem ClassDecl_Emit_allocs (x : Ext) (fuel : Nat) :
    ∀ (cid : Identifier) (st st2 : EmitState), ClassDecl.Emit x fuel cid st = some st2 →
      (∀ c, emitted st c = true → fallocOf st2 c = fallocOf st c)
        ∧ (ClassAllocators st → ClassAllocators st2)
        ∧ (∀ c, infoOf st2 c = infoOf st c) := by
  induction fuel with
  | zero =>
    intro cid st st2 h
    simp [ClassDecl.Emit] at h
  | succ fuel ih =>
    intro cid st st2 h
    cases hg : getClass st cid with
    | none => simp [ClassDecl.Emit, hg] at h
    | some obj =>
      have hid := getClass_id st cid obj hg
      cases hfa : obj.classFalloc with
      | some fa =>
        have he : emitted st cid = true := by simp [emitted, fallocOf, hg, hfa]
        rw [ClassDecl_Emit_done x fuel cid st he] at h
        cases h
        exact ⟨fun c _ => rfl, fun hinv => hinv, fun c => rfl⟩
      | none =>
        have hnone := emitted_false_of_none st cid obj hg hfa
        obtain ⟨sa, sb, hsa, hmem, hvt⟩ := ClassDecl_Emit_first x fuel cid st st2 obj hg hfa h
        have hvc := (EmitVTable_classes cid _ sb st2 hvt).1
        have hmf := EmitMembers_falloc x cid _ obj.info.decl.members 0 sa sb hmem
        have hne : ∀ c, emitted st c = true → c ≠ cid := by
          intro c hc e
          subst e
          unfold emitted at hc
          rw [hnone] at hc
          exact absurd hc (by simp)
        have hsa2 : (∀ c, c ≠ cid → emitted st c = true → fallocOf sa c = fallocOf st c)
            ∧ (ClassAllocators st → ClassAllocators sa)
            ∧ (∀ c, infoOf sa c = infoOf st c) := by
          rcases hsa with ⟨_, hsa⟩ | ⟨ex, parent, s1, pobj, pf, _, _, hp, hpo, hpf, hsa⟩
          · rw [hsa]
            refine ⟨?_, ?_, ?_⟩
            · intro c hc _
              rw [fallocOf_setClass_other _ _ cid c (by exact hid) hc]
              rfl
            · intro hinv
              apply ClassAllocators_setClass
              · exact hinv
              · intro fa hfa2
                simp only [Option.some.injEq] at hfa2
                subst hfa2
                exact ⟨rfl, rfl⟩
            · intro c
              have hold : getClass
                  { st.request (Request.NewClassLabel obj.info.decl.id.name) with
                    vTables := st.vTables ++ [[]], fieldLists := st.fieldLists ++ [[]] }
                  obj.info.decl.id = some obj := by
                rw [hid]
                exact hg
              rw [infoOf_setClass _ _ obj (by exact hold) (by rfl) c]
              rfl
          · rw [hsa]
            obtain ⟨i1, i2, i3⟩ := ih parent.id _ s1 hp
            have hinfo : infoOf s1 cid = some obj.info := by
              rw [i3 cid]
              show infoOf st cid = some obj.info
              simp [infoOf, hg]
            obtain ⟨old, hold, holdinfo⟩ : ∃ old, getClass s1 cid = some old
                ∧ old.info = obj.info := by
              unfold infoOf at hinfo
              cases hgo : getClass s1 cid with
              | none => simp [hgo] at hinfo
              | some old => exact ⟨old, rfl, by simpa [hgo] using hinfo⟩
            refine ⟨?_, ?_, ?_⟩
            · intro c hc hec
              rw [fallocOf_setClass_other _ _ cid c (by exact hid) hc]
              exact i1 c hec
            · intro hinv
              have hinv1 : ClassAllocators s1 := i2 hinv
              apply ClassAllocators_setClass
              · exact hinv1
              · intro fa hfa2
                simp only [Option.some.injEq] at hfa2
                subst hfa2
                have hpf2 : fallocOf s1 parent.id = some pf := by
                  unfold fallocOf
                  rw [hpo]
                  exact hpf
                exact hinv1 parent.id pf hpf2
            · intro c
              have hold2 : getClass s1 obj.info.decl.id = some old := by
                rw [hid]
                exact hold
              rw [infoOf_setClass _ _ old (by exact hold2) (by exact holdinfo.symm) c]
              exact i3 c
        refine ⟨?_, ?_, ?_⟩
        · intro c hc
          have hcn := hne c hc
          rw [fallocOf_congr sb st2 hvc c, hmf.1 c hcn]
          exact hsa2.1 c hcn hc
        · intro hinv
          intro c fa hfa2
          rw [fallocOf_congr sb st2 hvc c] at hfa2
          exact EmitMembers_allocators x cid _ obj.info.decl.members 0 sa sb hmem
            (hsa2.2.1 hinv) c fa hfa2
        · intro c
          rw [infoOf_congr sb st2 hvc c,
            EmitMembers_info x cid _ obj.info.decl.members 0 sa sb hmem c]
          exact hsa2.2.2 c

/-- A class that is its own resolved parent is never emitted: the calls
`parent->Emit` do not end. -/
theorem ClassDecl_Emit_self_parent (x : Ext) (cid : Identifier) (obj : ClassObj)
    (ex : NamedType) (parent : ClassDecl) (hno : obj.classFalloc = none)
    (hex : obj.info.decl.extends_ = some ex) (hpar : obj.info.parent = some parent)
    (hself : parent.id = cid) (fuel : Nat) :
    ∀ st, getClass st cid = some obj → ClassDecl.Emit x fuel cid st = none := by
  induction fuel with
  | zero =>
    intro st _
    simp [ClassDecl.Emit]
  | succ fuel ih =>
    intro st hg
    cases hr : ClassDecl.Emit x (fuel + 1) cid st with
    | none => rfl
    | some st2 =>
      obtain ⟨sa, sb, hsa, _, _⟩ := ClassDecl_Emit_first x fuel cid st st2 obj hg hno hr
      rcases hsa with ⟨hn, _⟩ | ⟨ex2, parent2, s1, pobj, pf, _, hp2, hp, _, _, _⟩
      · rw [hex] at hn
        exact absurd hn (by simp)
      · rw [hpar] at hp2
        cases hp2
        rw [hself] at hp
        have := ih (st.request (Request.NewClassLabel obj.info.decl.id.name)) hg
        rw [this] at hp
        exact absurd hp (by simp)

theorem ClassAllocators_start (r : Checked) : ClassAllocators (EmitState.start r) := by
  intro c fa hfa
  unfold fallocOf getClass EmitState.start at hfa
  simp only [List.find?_map] at hfa
  cases hf : List.find? ((fun o : ClassObj => o.info.decl.id == c)
      ∘ fun ci => (⟨ci, none, none, none⟩ : ClassObj)) r.classes with
  | none => simp [hf] at hfa
  | some ci => simp [hf] at hfa

/-- What a first call of `ClassDecl::Emit` that returns does to the allocators.
Let a class with a resolved parent be emitted for the first time and let the
call return, all class allocators that exist being class-relative and growing
up.  The call emits the parent first; let `pf` be the parent's allocator when
that returns.  Then the class starts with an allocator at the cursor
`pf.offset`; before any member, the cursor is
`pf.offset + 4 * (number of fields before it)`; a field is given the
class-relative location at that cursor, stored with the symbol `find` returns
for its name from the class scope, and moves the cursor by 4; a method leaves
the allocator of the class as it is; at the end the cursor is
`pf.offset + 4 * (number of fields)`.  The allocators of the classes emitted
before, and that of the parent, are unchanged. -/
theorem Emit_returned_offsets (x : Ext) (fuel : Nat) (cid : Identifier) (st st2 : EmitState)
    (obj : ClassObj) (ex : NamedType) (parent : ClassDecl)
    (hinv : ClassAllocators st)
    (hobj : getClass st cid = some obj) (hno : obj.classFalloc = none)
    (hex : obj.info.decl.extends_ = some ex) (hpar : obj.info.parent = some parent)
    (hrun : ClassDecl.Emit x (fuel + 1) cid st = some st2) :
    ∃ s1 pf sa sb,
      ClassDecl.Emit x fuel parent.id
          (st.request (Request.NewClassLabel obj.info.decl.id.name)) = some s1
        ∧ fallocOf s1 parent.id = some pf
        ∧ pf.segment = Segment.classRelative ∧ pf.direction = Direction.FRAME_UP
        ∧ fallocOf sa cid
            = some ⟨Segment.classRelative, Direction.FRAME_UP, pf.base, pf.offset⟩
        ∧ EmitMembers x cid (x.NewClassLabel obj.info.decl.id.name) 0 obj.info.decl.members sa
            = some sb
        ∧ (∀ pre m post, obj.info.decl.members = pre ++ m :: post →
            ∃ sp sq,
              EmitMembers x cid (x.NewClassLabel obj.info.decl.id.name) 0 pre sa = some sp
              ∧ EmitMember x cid (x.NewClassLabel obj.info.decl.id.name) pre.length m sp
                  = some sq
              ∧ fallocOf sp cid = some ⟨Segment.classRelative, Direction.FRAME_UP, pf.base,
                  pf.offset + 4 * (fieldCount pre : Nat)⟩
              ∧ (match m with
                  | Member.field v =>
                    setLocation sp.scopes obj.info.classEnv v.id.name
                        (some SymbolType.S_VARIABLE)
                        ⟨Segment.classRelative, pf.offset + 4 * (fieldCount pre : Nat)⟩
                      = some sq.scopes
                    ∧ fallocOf sq cid = some ⟨Segment.classRelative, Direction.FRAME_UP,
                        pf.base, pf.offset + 4 * (fieldCount pre + 1 : Nat)⟩
                  | Member.method _ => fallocOf sq cid = fallocOf sp cid))
        ∧ fallocOf st2 cid = some ⟨Segment.classRelative, Direction.FRAME_UP, pf.base,
            pf.offset + 4 * (fieldCount obj.info.decl.members : Nat)⟩
        ∧ (∀ c, emitted st c = true → fallocOf st2 c = fallocOf st c)
        ∧ fallocOf st2 parent.id = some pf := by
  have hid := getClass_id st cid obj hobj
  obtain ⟨sa, sb, hsa, hmem, hvt⟩ := ClassDecl_Emit_first x fuel cid st st2 obj hobj hno hrun
  rcases hsa with ⟨hn, _⟩ | ⟨ex2, parent2, s1, pobj, pf, _, hp2, hp, hpo, hpf, hsa⟩
  · rw [hex] at hn
    exact absurd hn (by simp)
  rw [hpar] at hp2
  cases hp2
  have hvc := (EmitVTable_classes cid _ sb st2 hvt).1
  obtain ⟨i1, i2, i3⟩ := ClassDecl_Emit_allocs x fuel parent.id _ s1 hp
  obtain ⟨k1, k2⟩ := ClassDecl_Emit_kept x fuel parent.id _ s1 hp
  have hinv1 : ClassAllocators s1 := i2 hinv
  have hpf2 : fallocOf s1 parent.id = some pf := by
    unfold fallocOf
    rw [hpo]
    exact hpf
  obtain ⟨hseg, hdir⟩ := hinv1 parent.id pf hpf2
  have hs1 : (getClass s1 cid).isSome = true := by
    rw [(k1 cid).1]
    show (getClass st cid).isSome = true
    rw [hobj]
    rfl
  have hne : parent.id ≠ cid := by
    intro e
    have := ClassDecl_Emit_self_parent x cid obj ex parent hno hex hpar e fuel
      (st.request (Request.NewClassLabel obj.info.decl.id.name)) hobj
    rw [e] at hp
    rw [this] at hp
    exact absurd hp (by simp)
  have hfa_sa : fallocOf sa cid
      = some ⟨Segment.classRelative, Direction.FRAME_UP, pf.base, pf.offset⟩ := by
    rw [hsa, fallocOf_setClass_self _ _ cid (by exact hid) hs1]
    simp [FrameAllocator.inherit, hseg, hdir]
  have hinfo_sa : infoOf sa cid = some obj.info := by
    rw [hsa]
    unfold infoOf
    rw [getClass_setClass]
    cases hg1 : getClass s1 cid with
    | none => simp [hg1] at hs1
    | some old =>
      have := getClass_id s1 cid old hg1
      simp [this, hid]
  have hafter : ∀ k : Nat,
      (⟨Segment.classRelative, Direction.FRAME_UP, pf.base, pf.offset⟩ : FrameAllocator).after k
        = ⟨Segment.classRelative, Direction.FRAME_UP, pf.base, pf.offset + 4 * (k : Nat)⟩ :=
    fun k => by simp [FrameAllocator.after]
  refine ⟨s1, pf, sa, sb, hp, hpf2, hseg, hdir, hfa_sa, hmem, ?_, ?_, ?_, ?_⟩
  · intro pre m post hsplit
    rw [hsplit] at hmem
    obtain ⟨sp, sq, a1, a2, _⟩ := EmitMembers_split x cid _ pre m post 0 sa sb hmem
    simp only [Nat.zero_add] at a2
    have hsp : fallocOf sp cid = some ⟨Segment.classRelative, Direction.FRAME_UP, pf.base,
        pf.offset + 4 * (fieldCount pre : Nat)⟩ := by
      rw [EmitMembers_falloc_map x cid _ pre 0 sa sp a1, hfa_sa]
      simp [hafter]
    refine ⟨sp, sq, a1, a2, hsp, ?_⟩
    cases m with
    | method f =>
      exact fallocOf_congr sp sq (EmitMember_method_classes x cid _ _ f sp sq a2) cid
    | field v =>
      have hsq := EmitMember_falloc_map x cid _ _ (Member.field v) sp sq a2
      rw [hsp] at hsq
      obtain ⟨obj2, fa0, fl, fields, h2, hobj2, hfa0, _, _, hset, hsqeq⟩ :=
        EmitMember_field x cid _ _ v sp sq a2
      have hfa0eq : fa0 = ⟨Segment.classRelative, Direction.FRAME_UP, pf.base,
          pf.offset + 4 * (fieldCount pre : Nat)⟩ := by
        unfold fallocOf at hsp
        rw [hobj2] at hsp
        simp only [hfa0, Option.some.injEq] at hsp
        exact hsp
      have hinfo2 : obj2.info = obj.info := by
        have := EmitMembers_info x cid _ pre 0 sa sp a1 cid
        rw [hinfo_sa] at this
        unfold infoOf at this
        rw [hobj2] at this
        simpa using this
      refine ⟨?_, ?_⟩
      · rw [hsqeq]
        show setLocation sp.scopes obj.info.classEnv v.id.name (some SymbolType.S_VARIABLE) _
          = some h2
        rw [← hinfo2, ← hset, hfa0eq]
        rfl
      · rw [hsq]
        simp only [Option.map_some', fieldCount, FrameAllocator.after, Option.some.injEq,
          FrameAllocator.mk.injEq, true_and]
        push_cast
        ring
  · rw [fallocOf_congr sb st2 hvc cid,
      EmitMembers_falloc_map x cid _ obj.info.decl.members 0 sa sb hmem, hfa_sa]
    simp [hafter]
  · exact (ClassDecl_Emit_allocs x (fuel + 1) cid st st2 hrun).1
  · rw [fallocOf_congr sb st2 hvc parent.id,
      (EmitMembers_falloc x cid _ obj.info.decl.members 0 sa sb hmem).1 parent.id hne, hsa,
      fallocOf_setClass_other _ _ cid parent.id (by exact hid) hne]
    exact hpf2

/-- The field offsets on an example: `B2 extends A` in the field program; `A { int x; }` ends at
cursor 4, the field `y` of `B2` is at offset 4 and `B2` ends at cursor 8. -/
theorem Emit_returned_offsets_example :
    fallocOf exFieldAfterB2 exA.id
        = some ⟨Segment.classRelative, Direction.FRAME_UP, 0, 4⟩
      ∧ fallocOf exFieldAfterB2 exB2.id
        = some ⟨Segment.classRelative, Direction.FRAME_UP, 0, 8⟩
      ∧ (findInClass exFieldAfterB2.scopes 2 "y" (some SymbolType.S_VARIABLE)).map
          (fun s => s.location) = some (some ⟨Segment.classRelative, 4⟩)
      ∧ ∃ s1 pf sa sb,
          ClassDecl.Emit exExt 3 exA.id
              (exFieldStart.request (Request.NewClassLabel exB2Obj.info.decl.id.name)) = some s1
            ∧ fallocOf s1 exA.id = some pf
            ∧ pf.segment = Segment.classRelative ∧ pf.direction = Direction.FRAME_UP
            ∧ fallocOf sa exB2.id
                = some ⟨Segment.classRelative, Direction.FRAME_UP, pf.base, pf.offset⟩
            ∧ EmitMembers exExt exB2.id (exExt.NewClassLabel exB2Obj.info.decl.id.name) 0
                exB2Obj.info.decl.members sa = some sb
            ∧ (∀ pre m post, exB2Obj.info.decl.members = pre ++ m :: post →
                ∃ sp sq,
                  EmitMembers exExt exB2.id (exExt.NewClassLabel exB2Obj.info.decl.id.name) 0
                      pre sa = some sp
                  ∧ EmitMember exExt exB2.id (exExt.NewClassLabel exB2Obj.info.decl.id.name)
                      pre.length m sp = some sq
                  ∧ fallocOf sp exB2.id = some ⟨Segment.classRelative, Direction.FRAME_UP,
                      pf.base, pf.offset + 4 * (fieldCount pre : Nat)⟩
                  ∧ (match m with
                      | Member.field v =>
                        setLocation sp.scopes exB2Obj.info.classEnv v.id.name
                            (some SymbolType.S_VARIABLE)
                            ⟨Segment.classRelative, pf.offset + 4 * (fieldCount pre : Nat)⟩
                          = some sq.scopes
                        ∧ fallocOf sq exB2.id = some ⟨Segment.classRelative,
                            Direction.FRAME_UP, pf.base,
                            pf.offset + 4 * (fieldCount pre + 1 : Nat)⟩
                      | Member.method _ => fallocOf sq exB2.id = fallocOf sp exB2.id))
            ∧ fallocOf exFieldAfterB2 exB2.id = some ⟨Segment.classRelative,
                Direction.FRAME_UP, pf.base,
                pf.offset + 4 * (fieldCount exB2Obj.info.decl.members : Nat)⟩
            ∧ (∀ c, emitted exFieldStart c = true
                → fallocOf exFieldAfterB2 c = fallocOf exFieldStart c)
            ∧ fallocOf exFieldAfterB2 exA.id = some pf :=
  ⟨by decide, by decide, by decide,
   Emit_returned_offsets exExt 3 exB2.id exFieldStart exFieldAfterB2 exB2Obj ⟨⟨"A", 231⟩⟩ exA
    (ClassAllocators_start _) (by decide) rfl rfl rfl (by decide)⟩

/-! ## Emission: the dispatch table request -/

theorem FnDecl_Emit_requests (x : Ext) (f : FnDecl) (st st2 : EmitState)
    (h : f.Emit x st = some st2) :
    ∃ rs, st2.requests = st.requests ++ rs
      ∧ (StmtsPlain x → ∀ r ∈ rs, r.isGenVTable = false) := by
  refine ⟨st2.requests.drop st.requests.length, ?_, ?_⟩
  · unfold FnDecl.Emit at h
    simp only at h
    split at h
    · simp at h
    · split at h
      · simp at h
      · split at h
        · simp at h
        · simp only [Option.some.injEq] at h
          subst h
          simp [EmitState.request]
  · intro hs r hr
    unfold FnDecl.Emit at h
    simp only at h
    split at h
    · simp at h
    · split at h
      · simp at h
      · split at h
        · simp at h
        · simp only [Option.some.injEq] at h
          subst h
          simp only [EmitState.request, List.append_assoc, List.drop_left, List.mem_cons,
            List.mem_append, List.singleton_append, List.cons_append, List.nil_append,
            List.mem_singleton, List.not_mem_nil, or_false] at hr
          rcases hr with rfl | rfl | hr | rfl | rfl
          · rfl
          · rfl
          · exact hs _ _ _ _ r hr
          · rfl
          · rfl

theorem overrideLoop_mem (x : Ext) (m : FnDecl) (vt : List FnDecl) (i : Nat) (t2 : List FnDecl) :
    ∀ n, overrideLoop x m vt i n = some (some t2) → ∀ f ∈ t2, f ∈ vt ∨ f = m := by
  intro n
  induction n with
  | zero =>
    intro h
    simp [overrideLoop] at h
  | succ n ih =>
    intro h f hf
    simp only [overrideLoop] at h
    split at h
    · simp at h
    · split at h
      · split at h
        · simp at h
        · rename_i t1 hrem
          split at h
          · simp at h
          · rename_i t3 hins
            simp only [Option.some.injEq] at h
            subst h
            unfold RemoveAt at hrem
            unfold InsertAt at hins
            split at hrem
            · simp only [Option.some.injEq] at hrem
              split at hins
              · simp only [Option.some.injEq] at hins
                subst hins
                simp only [List.mem_append, List.mem_cons] at hf
                rcases hf with hf | rfl | hf
                · left
                  have := List.mem_of_mem_take hf
                  rw [← hrem] at this
                  exact List.mem_of_mem_eraseIdx this
                · right
                  rfl
                · left
                  have := List.mem_of_mem_drop hf
                  rw [← hrem] at this
                  exact List.mem_of_mem_eraseIdx this
              · simp at hins
            · simp at hrem
      · exact ih h f hf

theorem GetMethodLabel_congr (st st2 : EmitState) (h : st2.methodLabels = st.methodLabels)
    (f : FnDecl) : GetMethodLabel st2 f = GetMethodLabel st f := by
  unfold GetMethodLabel
  rw [h]

theorem GetMethodLabel_cons_self (st st2 : EmitState) (f : FnDecl) (l : String)
    (h : st2.methodLabels = (f.id, l) :: st.methodLabels) : GetMethodLabel st2 f = some l := by
  unfold GetMethodLabel
  rw [h]
  simp

theorem GetMethodLabel_cons_isSome (st st2 : EmitState) (e : Identifier × String)
    (h : st2.methodLabels = e :: st.methodLabels) (f : FnDecl)
    (hf : (GetMethodLabel st f).isSome = true) : (GetMethodLabel st2 f).isSome = true := by
  unfold GetMethodLabel at hf ⊢
  rw [h, List.find?_cons]
  split
  · rfl
  · exact hf

theorem GetMethodLabel_mem (st : EmitState) (f : FnDecl) (l : String)
    (h : GetMethodLabel st f = some l) : (f.id, l) ∈ st.methodLabels := by
  unfold GetMethodLabel at h
  cases hfind : st.methodLabels.find? (fun e => e.1 == f.id) with
  | none => simp [hfind] at h
  | some e =>
    simp only [hfind, Option.map_some', Option.some.injEq] at h
    have h1 := List.find?_some hfind
    have h2 := List.mem_of_find?_eq_some hfind
    have he : e = (f.id, l) := by
      have : e.1 = f.id := by simpa using h1
      rw [← this, ← h]
    rw [← he]
    exact h2

/-- What `EmitMember` does for a method: the table of the class gets the
method in place of an entry or at the end, the method gets its label, and
`FnDecl::Emit` runs. -/
theorem EmitMember_method (x : Ext) (cid : Identifier) (label : String) (i : Nat)
    (f : FnDecl) (st st2 : EmitState)
    (h : EmitMember x cid label i (Member.method f) st = some st2) :
    ∃ obj vt vTable t, getClass st cid = some obj ∧ obj.vTable = some vt
      ∧ st.vTables[vt]? = some vTable ∧ (∀ g ∈ t, g ∈ vTable ∨ g = f)
      ∧ f.Emit x (SetMethodLabel { st with vTables := st.vTables.set vt t } f label)
          = some st2 := by
  unfold EmitMember at h
  split at h
  · simp at h
  · rename_i obj hobj
    simp only at h
    split at h
    · simp at h
    · rename_i vt hvt
      split at h
      · simp at h
      · rename_i vTable hvTable
        split at h
        · simp at h
        · rename_i t2 hloop
          exact ⟨obj, vt, vTable, t2, hobj, hvt, hvTable,
            overrideLoop_mem x f vTable i t2 _ hloop, h⟩
        · refine ⟨obj, vt, vTable, vTable ++ [f], hobj, hvt, hvTable, ?_, h⟩
          intro g hg
          simp only [List.mem_append, List.mem_singleton] at hg
          exact hg

theorem EmitVTable_eq (cid : Identifier) (label : String) (st st2 : EmitState)
    (h : EmitVTable cid label st = some st2) :
    ∃ vt, vTableOf st cid = some vt
      ∧ st2 = st.request (Request.GenVTable label (vt.map (GetMethodLabel st))) := by
  unfold EmitVTable at h
  unfold vTableOf
  cases hobj : getClass st cid with
  | none => simp [hobj] at h
  | some obj =>
    cases hvt : obj.vTable with
    | none => simp [hobj, hvt] at h
    | some vt =>
      cases hT : st.vTables[vt]? with
      | none => simp [hobj, hvt, hT] at h
      | some vTable =>
        simp only [hobj, hvt, hT, Option.some.injEq] at h
        exact ⟨vTable, by simp only [hvt, hT], h.symm⟩

theorem LabelsInv_congr (x : Ext) (st st2 : EmitState)
    (hl : st2.methodLabels = st.methodLabels) (hi : ∀ c, infoOf st2 c = infoOf st c)
    (h : LabelsInv x st) : LabelsInv x st2 := by
  intro e he
  rw [hl] at he
  obtain ⟨c, info, g, h1, h2, h3, h4⟩ := h e he
  exact ⟨c, info, g, (hi c).trans h1, h2, h3, h4⟩

theorem TablesLabelled_congr (st st2 : EmitState) (hv : st2.vTables = st.vTables)
    (hl : st2.methodLabels = st.methodLabels) (h : TablesLabelled st) :
    TablesLabelled st2 := by
  intro vt hvt f hf
  rw [hv] at hvt
  rw [GetMethodLabel_congr st st2 hl]
  exact h vt hvt f hf

theorem infoOf_setClass_same (s : EmitState) (o : ClassObj)
    (h : infoOf s o.info.decl.id = some o.info) (c : Identifier) :
    infoOf (setClass s o) c = infoOf s c := by
  unfold infoOf at h
  cases hg : getClass s o.info.decl.id with
  | none => simp [hg] at h
  | some old =>
    simp only [hg, Option.map_some', Option.some.injEq] at h
    exact infoOf_setClass s o old hg h.symm c

/-- One round of the member loop keeps the labels and the tables in order and
adds requests; a `GenVTable` among them could only come from a statement. -/
theorem EmitMember_labels (x : Ext) (cid : Identifier) (i : Nat) (m : Member)
    (st st2 : EmitState) (info : ClassInfo)
    (hinfo : infoOf st cid = some info) (hm : m ∈ info.decl.members)
    (hl : LabelsInv x st) (ht : TablesLabelled st)
    (h : EmitMember x cid (x.NewClassLabel info.decl.id.name) i m st = some st2) :
    LabelsInv x st2 ∧ TablesLabelled st2
      ∧ ∃ rs, st2.requests = st.requests ++ rs
          ∧ (StmtsPlain x → ∀ r ∈ rs, r.isGenVTable = false) := by
  have hi := EmitMember_info x cid _ i m st st2 h
  cases m with
  | field v =>
    obtain ⟨obj, fa0, fl, fields, h2, hobj, _, _, _, _, heq⟩ :=
      EmitMember_field x cid _ i v st st2 h
    have e1 : st2.methodLabels = st.methodLabels := by rw [heq]; rfl
    have e2 : st2.vTables = st.vTables := by rw [heq]; rfl
    have e3 : st2.requests = st.requests := by rw [heq]; rfl
    exact ⟨LabelsInv_congr x st st2 e1 hi hl, TablesLabelled_congr st st2 e2 e1 ht, [],
      by rw [e3, List.append_nil], fun _ r hr => by cases hr⟩
  | method f =>
    obtain ⟨obj, vt, vTable, t, hobj, hvt, hT, hmem, hf⟩ :=
      EmitMember_method x cid _ i f st st2 h
    obtain ⟨_, e2, _, e4, _⟩ := FnDecl_Emit_frame x f _ st2 hf
    obtain ⟨rs, hrs, hplain⟩ := FnDecl_Emit_requests x f _ st2 hf
    have hml : st2.methodLabels
        = (f.id, x.NewClassLabel info.decl.id.name ++ "." ++ f.id.name) :: st.methodLabels := by
      rw [e4]
      rfl
    have hvs : st2.vTables = st.vTables.set vt t := by
      rw [e2]
      rfl
    have hreq : st2.requests = st.requests ++ rs := by
      rw [hrs]
      rfl
    refine ⟨?_, ?_, rs, hreq, hplain⟩
    · intro e he
      rw [hml] at he
      rcases List.mem_cons.mp he with rfl | he
      · exact ⟨cid, info, f, (hi cid).trans hinfo, hm, rfl, rfl⟩
      · obtain ⟨c, info2, g, h1, h2, h3, h4⟩ := hl e he
        exact ⟨c, info2, g, (hi c).trans h1, h2, h3, h4⟩
    · intro vT hvT g hg
      rw [hvs] at hvT
      have hold : ∀ g vT, vT ∈ st.vTables → g ∈ vT → (GetMethodLabel st2 g).isSome = true :=
        fun g vT h1 h2 => GetMethodLabel_cons_isSome st st2 _ hml g (ht vT h1 g h2)
      rcases List.mem_or_eq_of_mem_set hvT with hvT | rfl
      · exact hold g vT hvT hg
      · rcases hmem g hg with hg | rfl
        · exact hold g vTable (List.getElem?_mem hT) hg
        · rw [GetMethodLabel_cons_self st st2 _ _ hml]
          rfl

theorem EmitMembers_labels (x : Ext) (cid : Identifier) (info : ClassInfo) (ms : List Member) :
    ∀ i st st2, infoOf st cid = some info → (∀ m ∈ ms, m ∈ info.decl.members)
      → LabelsInv x st → TablesLabelled st
      → EmitMembers x cid (x.NewClassLabel info.decl.id.name) i ms st = some st2
      → LabelsInv x st2 ∧ TablesLabelled st2
        ∧ ∃ rs, st2.requests = st.requests ++ rs
            ∧ (StmtsPlain x → ∀ r ∈ rs, r.isGenVTable = false) := by
  induction ms with
  | nil =>
    intro i st st2 _ _ hl ht h
    simp only [EmitMembers, Option.some.injEq] at h
    subst h
    exact ⟨hl, ht, [], by simp, fun _ r hr => by cases hr⟩
  | cons m ms ih =>
    intro i st st2 hinfo hsub hl ht h
    simp only [EmitMembers] at h
    cases hm : EmitMember x cid (x.NewClassLabel info.decl.id.name) i m st with
    | none => simp [hm] at h
    | some s1 =>
      simp only [hm] at h
      obtain ⟨a1, a2, r1, a3, a4⟩ :=
        EmitMember_labels x cid i m st s1 info hinfo (hsub m (List.mem_cons_self _ _)) hl ht hm
      have hinfo1 := (EmitMember_info x cid _ i m st s1 hm cid).trans hinfo
      obtain ⟨b1, b2, r2, b3, b4⟩ :=
        ih (i + 1) s1 st2 hinfo1 (fun m2 h2 => hsub m2 (List.mem_cons_of_mem _ h2)) a1 a2 h
      refine ⟨b1, b2, r1 ++ r2, by rw [b3, a3, List.append_assoc], fun hp r hr => ?_⟩
      rcases List.mem_append.mp hr with hr | hr
      · exact a4 hp r hr
      · exact b4 hp r hr

/-- The requests of a first call of `ClassDecl::Emit`, given what the calls on
the parent do: the class label, the requests of the call on the parent, the
requests of the members, the dispatch table. -/
theorem ClassDecl_Emit_trace (x : Ext) (fuel : Nat)
    (ih : ∀ cid st st2, ClassDecl.Emit x fuel cid st = some st2
      → LabelsInv x st → TablesLabelled st
      → LabelsInv x st2 ∧ TablesLabelled st2 ∧ ∃ rs, st2.requests = st.requests ++ rs)
    (cid : Identifier) (st st2 : EmitState) (obj : ClassObj)
    (hobj : getClass st cid = some obj) (hno : obj.classFalloc = none)
    (hl : LabelsInv x st) (ht : TablesLabelled st)
    (hrun : ClassDecl.Emit x (fuel + 1) cid st = some st2) :
    ∃ parentReqs memberReqs vt,
      LabelsInv x st2 ∧ TablesLabelled st2 ∧ vTableOf st2 cid = some vt
        ∧ st2.requests = st.requests ++ [Request.NewClassLabel obj.info.decl.id.name]
            ++ parentReqs ++ memberReqs
            ++ [Request.GenVTable (x.NewClassLabel obj.info.decl.id.name)
                  (vt.map (GetMethodLabel st2))]
        ∧ (StmtsPlain x → ∀ r ∈ memberReqs, r.isGenVTable = false)
        ∧ (obj.info.decl.extends_ = none → parentReqs = [])
        ∧ (∀ ex parent, obj.info.decl.extends_ = some ex → obj.info.parent = some parent →
            ∃ s1, ClassDecl.Emit x fuel parent.id
                  (st.request (Request.NewClassLabel obj.info.decl.id.name)) = some s1
              ∧ s1.requests = st.requests ++ [Request.NewClassLabel obj.info.decl.id.name]
                  ++ parentReqs) := by
  have hid := getClass_id st cid obj hobj
  have hinfo : infoOf st cid = some obj.info := by
    unfold infoOf
    rw [hobj]
    rfl
  obtain ⟨sa, sb, hsa, hmem, hvt⟩ := ClassDecl_Emit_first x fuel cid st st2 obj hobj hno hrun
  have hfirst : ∃ parentReqs, LabelsInv x sa ∧ TablesLabelled sa
      ∧ infoOf sa cid = some obj.info
      ∧ sa.requests = st.requests ++ [Request.NewClassLabel obj.info.decl.id.name]
          ++ parentReqs
      ∧ (obj.info.decl.extends_ = none → parentReqs = [])
      ∧ (∀ ex parent, obj.info.decl.extends_ = some ex → obj.info.parent = some parent →
          ∃ s1, ClassDecl.Emit x fuel parent.id
                (st.request (Request.NewClassLabel obj.info.decl.id.name)) = some s1
            ∧ s1.requests = st.requests ++ [Request.NewClassLabel obj.info.decl.id.name]
                ++ parentReqs) := by
    rcases hsa with ⟨hn, hsa⟩ | ⟨ex2, parent2, s1, pobj, pf, hex, hp2, hp, hpo, hpf, hsa⟩
    · have hi : ∀ c, infoOf sa c = infoOf st c := by
        intro c
        rw [hsa]
        refine (infoOf_setClass_same _ _ ?_ c).trans (infoOf_congr st _ rfl c)
        refine (infoOf_congr st _ rfl _).trans ?_
        show infoOf st obj.info.decl.id = some obj.info
        rw [hid]
        exact hinfo
      have e1 : sa.methodLabels = st.methodLabels := by rw [hsa]; rfl
      have e2 : sa.vTables = st.vTables ++ [[]] := by rw [hsa]; rfl
      have e3 : sa.requests
          = st.requests ++ [Request.NewClassLabel obj.info.decl.id.name] := by rw [hsa]; rfl
      refine ⟨[], LabelsInv_congr x st sa e1 hi hl, ?_, (hi cid).trans hinfo,
        by rw [e3, List.append_nil], fun _ => rfl, ?_⟩
      · intro vT hvT g hg
        rw [e2] at hvT
        rw [GetMethodLabel_congr st sa e1]
        rcases List.mem_append.mp hvT with hvT | hvT
        · exact ht vT hvT g hg
        · rw [List.mem_singleton.mp hvT] at hg
          cases hg
      · intro ex parent hex _
        rw [hn] at hex
        exact absurd hex (by simp)
    · have hl0 : LabelsInv x (st.request (Request.NewClassLabel obj.info.decl.id.name)) :=
        LabelsInv_congr x st _ rfl (fun c => infoOf_congr st _ rfl c) hl
      have ht0 : TablesLabelled (st.request (Request.NewClassLabel obj.info.decl.id.name)) :=
        TablesLabelled_congr st _ rfl rfl ht
      obtain ⟨hl1, ht1, rs1, hrs1⟩ := ih parent2.id _ s1 hp hl0 ht0
      have hi1 : infoOf s1 cid = some obj.info :=
        ((ClassDecl_Emit_allocs x fuel parent2.id _ s1 hp).2.2 cid).trans
          ((infoOf_congr st _ rfl cid).trans hinfo)
      have hi : ∀ c, infoOf sa c = infoOf s1 c := by
        intro c
        rw [hsa]
        refine infoOf_setClass_same _ _ ?_ c
        show infoOf s1 obj.info.decl.id = some obj.info
        rw [hid]
        exact hi1
      have e1 : sa.methodLabels = s1.methodLabels := by rw [hsa]; rfl
      have e2 : sa.vTables = s1.vTables := by rw [hsa]; rfl
      have e3 : sa.requests = s1.requests := by rw [hsa]; rfl
      have hreq : s1.requests
          = st.requests ++ [Request.NewClassLabel obj.info.decl.id.name] ++ rs1 := by
        rw [hrs1]
        rfl
      refine ⟨rs1, LabelsInv_congr x s1 sa e1 hi hl1, TablesLabelled_congr s1 sa e2 e1 ht1,
        (hi cid).trans hi1, by rw [e3, hreq], ?_, ?_⟩
      · intro hn
        rw [hex] at hn
        exact absurd hn (by simp)
      · intro ex parent _ hpar
        rw [hp2] at hpar
        cases hpar
        exact ⟨s1, hp, hreq⟩
  obtain ⟨parentReqs, hla, hta, hia, hra, hroot, hparent⟩ := hfirst
  obtain ⟨hlb, htb, memberReqs, hrb, hplain⟩ :=
    EmitMembers_labels x cid obj.info obj.info.decl.members 0 sa sb hia (fun m hm => hm)
      hla hta hmem
  obtain ⟨vt, hvT, hst2⟩ := EmitVTable_eq cid _ sb st2 hvt
  have f1 : st2.methodLabels = sb.methodLabels := by rw [hst2]; rfl
  have f2 : st2.vTables = sb.vTables := by rw [hst2]; rfl
  have f3 : st2.classes = sb.classes := by rw [hst2]; rfl
  have f4 : vTableOf st2 cid = some vt := by
    rw [← hvT]
    unfold vTableOf
    rw [getClass_congr sb st2 f3, f2]
  have f5 : (vt.map (GetMethodLabel st2)) = (vt.map (GetMethodLabel sb)) := by
    apply List.map_congr_left
    intro f _
    exact GetMethodLabel_congr sb st2 f1 f
  refine ⟨parentReqs, memberReqs, vt,
    LabelsInv_congr x sb st2 f1 (fun c => infoOf_congr sb st2 f3 c) hlb,
    TablesLabelled_congr sb st2 f2 f1 htb, f4, ?_, hplain, hroot, hparent⟩
  rw [f5, hst2]
  show sb.requests ++ _ = _
  rw [hrb, hra]

/-- A call of `ClassDecl::Emit` keeps the labels and the tables in order and
only adds requests. -/
theorem ClassDecl_Emit_labels (x : Ext) (fuel : Nat) :
    ∀ cid st st2, ClassDecl.Emit x fuel cid st = some st2
      → LabelsInv x st → TablesLabelled st
      → LabelsInv x st2 ∧ TablesLabelled st2 ∧ ∃ rs, st2.requests = st.requests ++ rs := by
  induction fuel with
  | zero =>
    intro cid st st2 h
    simp [ClassDecl.Emit] at h
  | succ fuel ih =>
    intro cid st st2 h hl ht
    cases hobj : getClass st cid with
    | none => simp [ClassDecl.Emit, hobj] at h
    | some obj =>
      cases hfa : obj.classFalloc with
      | some fa =>
        have he : emitted st cid = true := by
          unfold emitted fallocOf
          rw [hobj]
          simp [hfa]
        rw [ClassDecl_Emit_done x fuel cid st he] at h
        cases h
        exact ⟨hl, ht, [], by simp⟩
      | none =>
        obtain ⟨p, m, vt, h1, h2, _, h4, _⟩ :=
          ClassDecl_Emit_trace x fuel ih cid st st2 obj hobj hfa hl ht h
        exact ⟨h1, h2, _, by rw [h4, List.append_assoc, List.append_assoc, List.append_assoc]⟩

/-- The label of a table entry is the class label of a class that declares a
method with the identifier of the entry, a dot, and the name. -/
theorem label_of_entry (x : Ext) (st : EmitState) (hl : LabelsInv x st)
    (ht : TablesLabelled st) (vTable : List FnDecl) (hv : vTable ∈ st.vTables)
    (f : FnDecl) (hf : f ∈ vTable) :
    ∃ c info g, infoOf st c = some info ∧ Member.method g ∈ info.decl.members
      ∧ g.id = f.id
      ∧ GetMethodLabel st f
          = some (x.NewClassLabel info.decl.id.name ++ "." ++ f.id.name) := by
  have hs := ht vTable hv f hf
  cases hg : GetMethodLabel st f with
  | none => simp [hg] at hs
  | some l =>
    obtain ⟨c, info, g, h1, h2, h3, h4⟩ := hl _ (GetMethodLabel_mem st f l hg)
    simp only at h3 h4
    exact ⟨c, info, g, h1, h2, h3, by rw [h4, h3]⟩

theorem LabelsInv_of_nil (x : Ext) (st : EmitState) (h : st.methodLabels = []) :
    LabelsInv x st := by
  intro e he
  rw [h] at he
  cases he

theorem TablesLabelled_of_nil (st : EmitState) (h : st.vTables = []) : TablesLabelled st := by
  intro vt hvt
  rw [h] at hvt
  cases hvt

theorem exExt_plain : StmtsPlain exExt := by
  intro body fa h env r hr
  exact absurd hr (List.not_mem_nil r)

/-- The requests of a first call of `ClassDecl::Emit` that returns.  Let
`ClassDecl::Emit` be called on a class that was not emitted yet and return, in a state in which the labels set so far are those of
`SetMethodLabel` and every table entry has one, statement bodies registering
no dispatch table.  Then the requests of the call are: `NewClassLabel` for the
name of the class, the requests of the call on the parent (none without a
parent or with a parent emitted before), the requests of the members, among
which there is no `GenVTable`, and last one `GenVTable` keyed by the label that
`NewClassLabel` gave.  Its label list is the final dispatch table of the class
entry by entry, and the label of an entry is the class label of a class that
declares a method with the identifier of the entry, a dot and the name of the
method; when the identifier belongs to the methods of one class name only, that
is the class in which the entry is declared. -/
theorem Emit_returned_requests (x : Ext) (fuel : Nat) (cid : Identifier) (st st2 : EmitState)
    (obj : ClassObj) (hl : LabelsInv x st) (ht : TablesLabelled st) (hstmt : StmtsPlain x)
    (hobj : getClass st cid = some obj) (hno : obj.classFalloc = none)
    (hrun : ClassDecl.Emit x (fuel + 1) cid st = some st2) :
    ∃ parentReqs memberReqs vt,
      vTableOf st2 cid = some vt
        ∧ st2.requests = st.requests ++ [Request.NewClassLabel obj.info.decl.id.name]
            ++ parentReqs ++ memberReqs
            ++ [Request.GenVTable (x.NewClassLabel obj.info.decl.id.name)
                  (vt.map (GetMethodLabel st2))]
        ∧ (∀ r ∈ memberReqs, r.isGenVTable = false)
        ∧ List.countP Request.isGenVTable
            (memberReqs ++ [Request.GenVTable (x.NewClassLabel obj.info.decl.id.name)
              (vt.map (GetMethodLabel st2))]) = 1
        ∧ (obj.info.decl.extends_ = none → parentReqs = [])
        ∧ (∀ parent, obj.info.parent = some parent → emitted st parent.id = true
            → parentReqs = [])
        ∧ (∀ ex parent, obj.info.decl.extends_ = some ex → obj.info.parent = some parent →
            ∃ s1, ClassDecl.Emit x fuel parent.id
                  (st.request (Request.NewClassLabel obj.info.decl.id.name)) = some s1
              ∧ s1.requests = st.requests ++ [Request.NewClassLabel obj.info.decl.id.name]
                  ++ parentReqs)
        ∧ (vt.map (GetMethodLabel st2)).length = vt.length
        ∧ (∀ (k : Nat) (f : FnDecl), vt[k]? = some f
            → (vt.map (GetMethodLabel st2))[k]? = some (GetMethodLabel st2 f))
        ∧ (∀ f ∈ vt, ∃ c info g, infoOf st2 c = some info
            ∧ Member.method g ∈ info.decl.members ∧ g.id = f.id
            ∧ GetMethodLabel st2 f
                = some (x.NewClassLabel info.decl.id.name ++ "." ++ f.id.name))
        ∧ (∀ f ∈ vt, ∀ c info, infoOf st2 c = some info
            → Member.method f ∈ info.decl.members
            → (∀ c2 info2 g, infoOf st2 c2 = some info2
                → Member.method g ∈ info2.decl.members → g.id = f.id
                → info2.decl.id.name = info.decl.id.name)
            → GetMethodLabel st2 f
                = some (x.NewClassLabel info.decl.id.name ++ "." ++ f.id.name)) := by
  obtain ⟨parentReqs, memberReqs, vt, hl2, ht2, hvt, hreq, hplain, hroot, hparent⟩ :=
    ClassDecl_Emit_trace x fuel (ClassDecl_Emit_labels x fuel) cid st st2 obj hobj hno hl ht hrun
  have hmemVt : vt ∈ st2.vTables := by
    unfold vTableOf at hvt
    cases hg : getClass st2 cid with
    | none => simp [hg] at hvt
    | some o =>
      cases hv : o.vTable with
      | none => simp [hg, hv] at hvt
      | some n =>
        simp only [hg, hv] at hvt
        exact List.getElem?_mem hvt
  have hentry := fun f hf => label_of_entry x st2 hl2 ht2 vt hmemVt f hf
  refine ⟨parentReqs, memberReqs, vt, hvt, hreq, hplain hstmt, ?_, hroot, ?_, hparent,
    List.length_map _ _, ?_, hentry, ?_⟩
  · rw [List.countP_append, List.countP_eq_zero.mpr (fun r hr => by simp [hplain hstmt r hr])]
    rfl
  · intro parent hpar hemit
    cases hex : obj.info.decl.extends_ with
    | none => exact hroot hex
    | some ex =>
      obtain ⟨s1, hp, hs1⟩ := hparent ex parent hex hpar
      cases fuel with
      | zero => simp [ClassDecl.Emit] at hp
      | succ k =>
        have he0 : emitted (st.request (Request.NewClassLabel obj.info.decl.id.name))
            parent.id = true := hemit
        rw [ClassDecl_Emit_done x k parent.id _ he0] at hp
        cases hp
        have : st.requests ++ [Request.NewClassLabel obj.info.decl.id.name]
            = st.requests ++ [Request.NewClassLabel obj.info.decl.id.name] ++ parentReqs :=
          hs1
        exact (List.self_eq_append_right.mp this)
  · intro k f hk
    rw [List.getElem?_map, hk]
    rfl
  · intro f hf c info hinfo hmem huniq
    obtain ⟨c2, info2, g, h1, h2, h3, h4⟩ := hentry f hf
    rw [h4, huniq c2 info2 g h1 h2 h3]

/-- The requests on an example: the class `S extends P { void g() }` of the sibling
program, emitted before its parent `P { int f(int a) }`: the call requests the
table of `P` inside the call on the parent and then one table for `S`, with
the labels `P.f` and `S.g`. -/
theorem Emit_returned_requests_example :
    vTableRequests exSiblingAfterS "S" = [[some "P.f", some "S.g"]]
      ∧ vTableRequests exSiblingAfterS "P" = [[some "P.f"]]
      ∧ ∃ parentReqs memberReqs vt,
        vTableOf exSiblingAfterS exS.id = some vt
          ∧ exSiblingAfterS.requests
              = exSiblingStart.requests ++ [Request.NewClassLabel exSObj.info.decl.id.name]
                ++ parentReqs ++ memberReqs
                ++ [Request.GenVTable (exExt.NewClassLabel exSObj.info.decl.id.name)
                      (vt.map (GetMethodLabel exSiblingAfterS))]
          ∧ (∀ r ∈ memberReqs, r.isGenVTable = false)
          ∧ List.countP Request.isGenVTable
              (memberReqs ++ [Request.GenVTable (exExt.NewClassLabel exSObj.info.decl.id.name)
                (vt.map (GetMethodLabel exSiblingAfterS))]) = 1
          ∧ (exSObj.info.decl.extends_ = none → parentReqs = [])
          ∧ (∀ parent, exSObj.info.parent = some parent
              → emitted exSiblingStart parent.id = true → parentReqs = [])
          ∧ (∀ ex parent, exSObj.info.decl.extends_ = some ex
              → exSObj.info.parent = some parent →
              ∃ s1, ClassDecl.Emit exExt 3 parent.id
                    (exSiblingStart.request
                      (Request.NewClassLabel exSObj.info.decl.id.name)) = some s1
                ∧ s1.requests = exSiblingStart.requests
                    ++ [Request.NewClassLabel exSObj.info.decl.id.name] ++ parentReqs)
          ∧ (vt.map (GetMethodLabel exSiblingAfterS)).length = vt.length
          ∧ (∀ (k : Nat) (f : FnDecl), vt[k]? = some f
              → (vt.map (GetMethodLabel exSiblingAfterS))[k]?
                  = some (GetMethodLabel exSiblingAfterS f))
          ∧ (∀ f ∈ vt, ∃ c info g, infoOf exSiblingAfterS c = some info
              ∧ Member.method g ∈ info.decl.members ∧ g.id = f.id
              ∧ GetMethodLabel exSiblingAfterS f
                  = some (exExt.NewClassLabel info.decl.id.name ++ "." ++ f.id.name))
          ∧ (∀ f ∈ vt, ∀ c info, infoOf exSiblingAfterS c = some info
              → Member.method f ∈ info.decl.members
              → (∀ c2 info2 g, infoOf exSiblingAfterS c2 = some info2
                  → Member.method g ∈ info2.decl.members → g.id = f.id
                  → info2.decl.id.name = info.decl.id.name)
              → GetMethodLabel exSiblingAfterS f
                  = some (exExt.NewClassLabel info.decl.id.name ++ "." ++ f.id.name)) :=
  ⟨by decide, by decide,
   Emit_returned_requests exExt 3 exS.id exSiblingStart exSiblingAfterS exSObj
    (LabelsInv_of_nil _ _ (by decide)) (TablesLabelled_of_nil _ (by decide)) exExt_plain
    (by decide) (by decide) (by decide)⟩

/-! ## Scanner: the table of token names -/

set_option maxRecDepth 100000 in
/-- C21, evaluated. `gTokenNames` has `T_NumTokenTypes` = 298 elements and 34
initialisers.  The token types whose entry is their identifier are `T_Void` to
`T_ReadLine`; for the eight token types `T_Unsigned` to `T_Typeof` the entry is
a null pointer, for `T_Unsigned` at position 34. -/
theorem gTokenNames_incomplete :
    gTokenNamesInit.length = 34
      ∧ TokenType.T_NumTokenTypes.val = 298
      ∧ gTokenNames.length = 298
      ∧ TokenType.tokens.length = 42
      ∧ TokenType.tokens.filter (fun t => decide (gTokenName t = some (some t.identifier)))
        = [.T_Void, .T_Int, .T_Double, .T_Bool, .T_String, .T_Class, .T_Null, .T_Dims,
           .T_LessEqual, .T_GreaterEqual, .T_Equal, .T_NotEqual, .T_And, .T_Or, .T_While,
           .T_For, .T_If, .T_Else, .T_Return, .T_Break, .T_Extends, .T_This, .T_Implements,
           .T_Interface, .T_New, .T_NewArray, .T_Identifier, .T_StringConstant,
           .T_IntConstant, .T_DoubleConstant, .T_BoolConstant, .T_Print, .T_ReadInteger,
           .T_ReadLine]
      ∧ TokenType.tokens.filter (fun t => decide (gTokenName t = some none))
        = [.T_Unsigned, .T_Continue, .T_LeftShift, .T_RightShift, .T_Increment,
           .T_Decrement, .T_Sizeof, .T_Typeof]
      ∧ TokenType.T_Unsigned.val - TokenType.T_Void.val = 34
      ∧ gTokenName TokenType.T_Unsigned = some none
      ∧ TokenType.T_Unsigned.identifier = "T_Unsigned" := by
  decide

/-! ## Emission: a function -/

/-- The loop over the formals taken apart at one formal: the formals before it
have moved the cursor by four bytes each, and it gets the location at the
cursor. -/
theorem EmitFormals_split (env : Nat) (pre : List VarDecl) (v : VarDecl) (post : List VarDecl) :
    ∀ (fa : FrameAllocator) (h : Scopes) (r : FrameAllocator × Scopes),
      EmitFormals fa h env (pre ++ v :: post) = some r →
      ∃ hp hq, EmitFormals fa h env pre = some (fa.after pre.length, hp)
        ∧ setLocation hp env v.id.name (some SymbolType.S_VARIABLE)
            ⟨(fa.after pre.length).segment, (fa.after pre.length).offset⟩ = some hq
        ∧ EmitFormals (fa.after (pre.length + 1)) hq env post = some r := by
  induction pre with
  | nil =>
    intro fa h r hrun
    simp only [List.nil_append, EmitFormals, VarDecl.Emit] at hrun
    rw [Alloc_eq_after] at hrun
    cases hs : setLocation h env v.id.name (some SymbolType.S_VARIABLE)
        ⟨fa.segment, fa.offset⟩ with
    | none => simp [hs] at hrun
    | some hq =>
      simp only [hs] at hrun
      refine ⟨h, hq, ?_, ?_, ?_⟩
      · simp [EmitFormals, after_zero]
      · simpa [after_zero] using hs
      · simpa using hrun
  | cons w pre ih =>
    intro fa h r hrun
    simp only [List.cons_append, EmitFormals, VarDecl.Emit] at hrun
    rw [Alloc_eq_after] at hrun
    cases hs : setLocation h env w.id.name (some SymbolType.S_VARIABLE)
        ⟨fa.segment, fa.offset⟩ with
    | none => simp [hs] at hrun
    | some h1 =>
      simp only [hs] at hrun
      obtain ⟨hp, hq, a1, a2, a3⟩ := ih (fa.after 1) h1 r hrun
      rw [after_after] at a1 a2 a3
      have e1 : 1 + pre.length = (w :: pre).length := by simp [Nat.add_comm]
      have e2 : 1 + (pre.length + 1) = (w :: pre).length + 1 := by simp [Nat.add_comm]
      rw [e1] at a1 a2
      rw [e2] at a3
      refine ⟨hp, hq, ?_, a2, a3⟩
      simp only [EmitFormals, VarDecl.Emit]
      rw [Alloc_eq_after]
      simp only [hs]
      exact a1

theorem EmitFormals_falloc (env : Nat) (vs : List VarDecl) :
    ∀ (fa : FrameAllocator) (h : Scopes) (r : FrameAllocator × Scopes),
      EmitFormals fa h env vs = some r → r.1 = fa.after vs.length := by
  induction vs with
  | nil =>
    intro fa h r hrun
    simp only [EmitFormals, Option.some.injEq] at hrun
    rw [← hrun]
    simp [after_zero]
  | cons w vs ih =>
    intro fa h r hrun
    simp only [EmitFormals, VarDecl.Emit] at hrun
    rw [Alloc_eq_after] at hrun
    cases hs : setLocation h env w.id.name (some SymbolType.S_VARIABLE)
        ⟨fa.segment, fa.offset⟩ with
    | none => simp [hs] at hrun
    | some h1 =>
      simp only [hs] at hrun
      rw [ih (fa.after 1) h1 r hrun, after_after]
      congr 1
      simp [Nat.add_comm]

/-- C22. A call of `FnDecl::Emit` that returns has found the scope `fnEnv` of
the function and its body, and has done this, in this order: `GenLabel` with
the method label when one is set and with the name of the function otherwise;
`GenBeginFunc`; for the formals in the order of the declaration one allocation
of four bytes each from the new fp-relative allocator that grows up, the formal
at position `k` getting the fp-relative location at `base + 4 * k`; the
requests of the body, which is given the new fp-relative allocator that grows
down; `SetFrameSize` with the size of the allocator the body leaves behind;
`GenEndFunc`.  No class object changes, so no class allocator does, the one
that `ClassDecl::Emit` passes included. -/
theorem FnDecl_Emit_order (x : Ext) (f : FnDecl) (st st2 : EmitState)
    (h : f.Emit x st = some st2) :
    ∃ fnEnv body hf,
      envOf st.fnEnvs f.id = some fnEnv ∧ f.body = some body
        ∧ (paramFalloc x).segment = Segment.fpRelative
        ∧ (paramFalloc x).direction = Direction.FRAME_UP
        ∧ (bodyFalloc x).segment = Segment.fpRelative
        ∧ (bodyFalloc x).direction = Direction.FRAME_DOWN
        ∧ EmitFormals (paramFalloc x) st.scopes fnEnv f.formals
            = some ((paramFalloc x).after f.formals.length, hf)
        ∧ (∀ pre v post, f.formals = pre ++ v :: post →
            ∃ hp hq,
              EmitFormals (paramFalloc x) st.scopes fnEnv pre
                  = some ((paramFalloc x).after pre.length, hp)
              ∧ setLocation hp fnEnv v.id.name (some SymbolType.S_VARIABLE)
                  ⟨Segment.fpRelative, (paramFalloc x).base + 4 * (pre.length : Nat)⟩ = some hq
              ∧ EmitFormals ((paramFalloc x).after (pre.length + 1)) hq fnEnv post
                  = some ((paramFalloc x).after f.formals.length, hf))
        ∧ st2.requests = st.requests
            ++ [Request.GenLabel ((GetMethodLabel st f).getD f.id.name), Request.GenBeginFunc]
            ++ (x.StmtEmit body (bodyFalloc x) hf fnEnv).1
            ++ [Request.SetFrameSize (x.StmtEmit body (bodyFalloc x) hf fnEnv).2.1.GetSize,
                Request.GenEndFunc]
        ∧ st2.scopes = (x.StmtEmit body (bodyFalloc x) hf fnEnv).2.2
        ∧ st2.classes = st.classes ∧ st2.vTables = st.vTables
        ∧ st2.fieldLists = st.fieldLists ∧ st2.methodLabels = st.methodLabels := by
  have hframe := FnDecl_Emit_frame x f st st2 h
  unfold FnDecl.Emit at h
  simp only at h
  split at h
  · simp at h
  · next fnEnv hE =>
    split at h
    · simp at h
    · next rf hF =>
      split at h
      · simp at h
      · next body hB =>
        have hF2 : EmitFormals (paramFalloc x) st.scopes fnEnv f.formals = some rf := hF
        have hrf : rf = ((paramFalloc x).after f.formals.length, rf.2) :=
          Prod.ext (EmitFormals_falloc fnEnv f.formals _ _ rf hF2) rfl
        simp only [Option.some.injEq] at h
        refine ⟨fnEnv, body, rf.2, hE, hB, rfl, rfl, rfl, rfl, ?_, ?_, ?_, ?_,
          hframe.1, hframe.2.1, hframe.2.2.1, hframe.2.2.2.1⟩
        · exact hF2.trans (congrArg some hrf)
        · intro pre v post hsplit
          rw [hsplit] at hF2
          obtain ⟨hp, hq, a1, a2, a3⟩ := EmitFormals_split fnEnv pre v post _ _ rf hF2
          refine ⟨hp, hq, a1, ?_, ?_⟩
          · rw [after_up _ _ rfl] at a2
            exact a2
          · exact a3.trans (congrArg some hrf)
        · rw [← h]
          cases hl : GetMethodLabel st f <;> simp [EmitState.request, bodyFalloc, hl]
        · rw [← h]
          rfl

/-- Witness for C22: `int f(int a)` of `P` with the method label `P.f` set:
the requests are `GenLabel P.f`, `GenBeginFunc`, `SetFrameSize 0`, `GenEndFunc`
and the formal `a` is at the fp-relative offset 0. -/
theorem FnDecl_Emit_order_witness :
    exAfterF.requests
        = [Request.GenLabel "P.f", Request.GenBeginFunc, Request.SetFrameSize 0,
           Request.GenEndFunc]
      ∧ (findLocal exAfterF.scopes 2 "a").map (fun s => s.location)
          = some (some ⟨Segment.fpRelative, 0⟩)
      ∧ ∃ fnEnv body hf,
        envOf exLabelled.fnEnvs (exF1 11).id = some fnEnv ∧ (exF1 11).body = some body
          ∧ (paramFalloc exExt).segment = Segment.fpRelative
          ∧ (paramFalloc exExt).direction = Direction.FRAME_UP
          ∧ (bodyFalloc exExt).segment = Segment.fpRelative
          ∧ (bodyFalloc exExt).direction = Direction.FRAME_DOWN
          ∧ EmitFormals (paramFalloc exExt) exLabelled.scopes fnEnv (exF1 11).formals
              = some ((paramFalloc exExt).after (exF1 11).formals.length, hf)
          ∧ (∀ pre v post, (exF1 11).formals = pre ++ v :: post →
              ∃ hp hq,
                EmitFormals (paramFalloc exExt) exLabelled.scopes fnEnv pre
                    = some ((paramFalloc exExt).after pre.length, hp)
                ∧ setLocation hp fnEnv v.id.name (some SymbolType.S_VARIABLE)
                    ⟨Segment.fpRelative, (paramFalloc exExt).base + 4 * (pre.length : Nat)⟩
                    = some hq
                ∧ EmitFormals ((paramFalloc exExt).after (pre.length + 1)) hq fnEnv post
                    = some ((paramFalloc exExt).after (exF1 11).formals.length, hf))
          ∧ exAfterF.requests = exLabelled.requests
              ++ [Request.GenLabel ((GetMethodLabel exLabelled (exF1 11)).getD (exF1 11).id.name),
                  Request.GenBeginFunc]
              ++ (exExt.StmtEmit body (bodyFalloc exExt) hf fnEnv).1
              ++ [Request.SetFrameSize
                    (exExt.StmtEmit body (bodyFalloc exExt) hf fnEnv).2.1.GetSize,
                  Request.GenEndFunc]
          ∧ exAfterF.scopes = (exExt.StmtEmit body (bodyFalloc exExt) hf fnEnv).2.2
          ∧ exAfterF.classes = exLabelled.classes ∧ exAfterF.vTables = exLabelled.vTables
          ∧ exAfterF.fieldLists = exLabelled.fieldLists
          ∧ exAfterF.methodLabels = exLabelled.methodLabels :=
  ⟨by decide, by decide, FnDecl_Emit_order exExt (exF1 11) exLabelled exAfterF (by decide)⟩

/-! ## Emission: the override search -/

/-- The override search stops in its first round when the member position is
not an index of the table. -/
theorem overrideLoop_outside (x : Ext) (m : FnDecl) (vTable : List FnDecl) (i n : Nat)
    (hi : vTable.length ≤ i) : overrideLoop x m vTable i (n + 1) = none := by
  have : Nth vTable i = none := by
    unfold Nth
    exact List.getElem?_eq_none hi
  simp [overrideLoop, this]

/-- C23, evaluated. The program `class W { void g() int f(int a) }` passes the
three passes without a report.  In `ClassDecl::Emit` on `W` the method at
member position 0 is appended to the empty table; for the method at member
position 1 the search reads `vTable->Nth(1)` in a table of one element, an
index outside the table, and the call does not return: no class of the
program is emitted. -/
theorem Emit_index_outside_table :
    (CheckAll exExt [Decl.cls exW]).map (fun r => (r.ok, r.reports)) = some (true, [])
      ∧ exW.extends_ = none
      ∧ exW.members = [Member.method (exG 301), Member.method (exF1 302)]
      ∧ (EmitMember exExt exW.id "W" 0 (Member.method (exG 301)) exWEntered).bind
          (fun s => vTableOf s exW.id) = some [exG 301]
      ∧ Nth [exG 301] 1 = none
      ∧ overrideLoop exExt (exF1 302) [exG 301] 1 [exG 301].length = none
      ∧ (EmitMember exExt exW.id "W" 0 (Member.method (exG 301)) exWEntered).bind
          (fun s => EmitMember exExt exW.id "W" 1 (Member.method (exF1 302)) s) = none
      ∧ ClassDecl.Emit exExt 1 exW.id exWStart = none
      ∧ ClassDecl.Emit exExt 2 exW.id exWStart = none
      ∧ emitAfterCheck exExt [Decl.cls exW] = none := by
  decide

/-- C24, evaluated. The program `class L extends L { }` passes the three passes
without a report, and pass 2 sets the parent of `L` to `L` itself.
`ClassDecl::Emit` on `L` calls `parent->Emit` before `classFalloc` is set, so
every call makes the same call again: with no bound on the depth of the calls
does it return. -/
theorem Emit_self_parent_diverges :
    (CheckAll exExt [Decl.cls exLoop]).map (fun r => (r.ok, r.reports)) = some (true, [])
      ∧ getClass exLoopStart exLoop.id = some exLoopObj
      ∧ exLoopObj.info.parent = some exLoop
      ∧ ∀ fuel, ClassDecl.Emit exExt fuel exLoop.id exLoopStart = none :=
  ⟨by decide, by decide, rfl,
   fun fuel => ClassDecl_Emit_self_parent exExt exLoop.id exLoopObj ⟨⟨"L", 311⟩⟩ exLoop
     rfl rfl rfl rfl fuel exLoopStart (by decide)⟩

/-- C25, evaluated. The program `class P { int f(int a) }
class V extends P { void g() void h() }` passes the three passes without a
report and its emission returns.  The final dispatch table of `V` is
`[P.f, V.h]`: `g`, appended at index 1, was replaced by `h`, the method at
member position 1, whose signature is type-equal to that of `g`.  The method
`g` declared in `V` has no slot. -/
theorem Emit_method_replaced :
    (CheckAll exExt exReplaceProgram).map (fun r => (r.ok, r.reports)) = some (true, [])
      ∧ (emitAfterCheck exExt exReplaceProgram).isSome = true
      ∧ (emitAfterCheck exExt exReplaceProgram).bind (fun st => vTableOf st exV.id)
        = some [exF1 11, exH0 323]
      ∧ (emitAfterCheck exExt exReplaceProgram).map (fun st => vTableRequests st "V")
        = some [[some "P.f", some "V.h"]]
      ∧ Member.method (exG 322) ∈ exV.members
      ∧ exG 322 ∉ [exF1 11, exH0 323]
      ∧ (exH0 323).TypeEqual exExt (exG 322) = true := by
  decide

/-! ## Signature equality as a relation -/

theorem TypeEqualFormals_types (x : Ext) (as : List VarDecl) :
    ∀ as2 bs bs2 : List VarDecl, as.map VarDecl.type = as2.map VarDecl.type
      → bs.map VarDecl.type = bs2.map VarDecl.type
      → TypeEqualFormals x as bs = TypeEqualFormals x as2 bs2 := by
  induction as with
  | nil =>
    intro as2 bs bs2 h1 _
    cases as2 with
    | nil => simp [TypeEqualFormals]
    | cons a2 as2 => simp at h1
  | cons a as ih =>
    intro as2 bs bs2 h1 h2
    cases as2 with
    | nil => simp at h1
    | cons a2 as2 =>
      simp only [List.map_cons, List.cons.injEq] at h1
      cases bs with
      | nil =>
        cases bs2 with
        | nil => simp [TypeEqualFormals]
        | cons b2 bs2 => simp at h2
      | cons b bs =>
        cases bs2 with
        | nil => simp at h2
        | cons b2 bs2 =>
          simp only [List.map_cons, List.cons.injEq] at h2
          simp only [TypeEqualFormals, h1.1, h2.1, ih as2 bs bs2 h1.2 h2.2]

/-- `FnDecl::TypeEqual` reads the return types and the types of the formals
only. -/
theorem TypeEqual_types (x : Ext) (f f2 g g2 : FnDecl)
    (hr1 : f.returnType = f2.returnType)
    (hf1 : f.formals.map VarDecl.type = f2.formals.map VarDecl.type)
    (hr2 : g.returnType = g2.returnType)
    (hf2 : g.formals.map VarDecl.type = g2.formals.map VarDecl.type) :
    f.TypeEqual x g = f2.TypeEqual x g2 := by
  have l1 : f.formals.length = f2.formals.length := by
    have := congrArg List.length hf1
    simpa using this
  have l2 : g.formals.length = g2.formals.length := by
    have := congrArg List.length hf2
    simpa using this
  unfold FnDecl.TypeEqual
  rw [hr1, hr2, l1, l2, TypeEqualFormals_types x f.formals f2.formals g.formals g2.formals hf1 hf2]

/-- C26. If `Type::IsEquivalentTo` is reflexive, symmetric and transitive, then
so is `FnDecl::TypeEqual`; and two calls of `TypeEqual` on functions with the
same return types and the same lists of types of the formals give the same
result, whatever the names of the functions and of the formals. -/
theorem TypeEqual_equivalence (x : Ext)
    (hrefl : ∀ a, x.IsEquivalentTo a a = true)
    (hsymm : ∀ a b, x.IsEquivalentTo a b = true → x.IsEquivalentTo b a = true)
    (htrans : ∀ a b c, x.IsEquivalentTo a b = true → x.IsEquivalentTo b c = true
      → x.IsEquivalentTo a c = true) :
    (∀ f : FnDecl, f.TypeEqual x f = true)
      ∧ (∀ f g : FnDecl, f.TypeEqual x g = true → g.TypeEqual x f = true)
      ∧ (∀ f g k : FnDecl, f.TypeEqual x g = true → g.TypeEqual x k = true
          → f.TypeEqual x k = true)
      ∧ (∀ f f2 g g2 : FnDecl, f.returnType = f2.returnType
          → f.formals.map VarDecl.type = f2.formals.map VarDecl.type
          → g.returnType = g2.returnType
          → g.formals.map VarDecl.type = g2.formals.map VarDecl.type
          → f.TypeEqual x g = f2.TypeEqual x g2) := by
  refine ⟨?_, ?_, ?_, fun f f2 g g2 h1 h2 h3 h4 => TypeEqual_types x f f2 g g2 h1 h2 h3 h4⟩
  · intro f
    exact (TypeEqual_iff x f f).2 ⟨hrefl _, rfl, fun i _ _ => hrefl _⟩
  · intro f g h
    obtain ⟨h1, h2, h3⟩ := (TypeEqual_iff x f g).1 h
    exact (TypeEqual_iff x g f).2 ⟨hsymm _ _ h1, h2.symm, fun i hi hj => hsymm _ _ (h3 i hj hi)⟩
  · intro f g k hfg hgk
    obtain ⟨h1, h2, h3⟩ := (TypeEqual_iff x f g).1 hfg
    obtain ⟨k1, k2, k3⟩ := (TypeEqual_iff x g k).1 hgk
    refine (TypeEqual_iff x f k).2 ⟨htrans _ _ _ h1 k1, h2.trans k2, fun i hi hj => ?_⟩
    have hg : i < g.formals.length := by
      rw [← h2]
      exact hi
    exact htrans _ _ _ (h3 i hi hg) (k3 i hg hj)

/-- Witness for C26: equivalence of types as identity.  `int f(int a)` and
`int other(int q)` are type-equal. -/
theorem TypeEqual_equivalence_witness :
    (exF1 1).TypeEqual exExt exRenamed = true
      ∧ (∀ a, exExt.IsEquivalentTo a a = true)
      ∧ (∀ a b, exExt.IsEquivalentTo a b = true → exExt.IsEquivalentTo b a = true)
      ∧ (∀ a b c, exExt.IsEquivalentTo a b = true → exExt.IsEquivalentTo b c = true
          → exExt.IsEquivalentTo a c = true)
      ∧ ((∀ f : FnDecl, f.TypeEqual exExt f = true)
        ∧ (∀ f g : FnDecl, f.TypeEqual exExt g = true → g.TypeEqual exExt f = true)
        ∧ (∀ f g k : FnDecl, f.TypeEqual exExt g = true → g.TypeEqual exExt k = true
            → f.TypeEqual exExt k = true)
        ∧ (∀ f f2 g g2 : FnDecl, f.returnType = f2.returnType
            → f.formals.map VarDecl.type = f2.formals.map VarDecl.type
            → g.returnType = g2.returnType
            → g.formals.map VarDecl.type = g2.formals.map VarDecl.type
            → f.TypeEqual exExt g = f2.TypeEqual exExt g2)) :=
  ⟨by decide,
   fun a => by simp [exExt],
   fun a b h => by simp [exExt] at h ⊢; exact h.symm,
   fun a b c h1 h2 => by simp [exExt] at h1 h2 ⊢; exact h1.trans h2,
   TypeEqual_equivalence exExt (fun a => by simp [exExt])
     (fun a b h => by simp [exExt] at h ⊢; exact h.symm)
     (fun a b c h1 h2 => by simp [exExt] at h1 h2 ⊢; exact h1.trans h2)⟩

/-! ## Emission: calls that stop in the member loop -/

/-- A first call of `ClassDecl::Emit` on a class without parent does not
return when its member loop does not. -/
theorem ClassDecl_Emit_root_stops (x : Ext) (cid : Identifier) (st : EmitState)
    (obj : ClassObj) (hobj : getClass st cid = some obj) (hno : obj.classFalloc = none)
    (hex : obj.info.decl.extends_ = none)
    (hmem : EmitMembers x cid (x.NewClassLabel obj.info.decl.id.name) 0 obj.info.decl.members
        (setClass
          { st.request (Request.NewClassLabel obj.info.decl.id.name) with
            vTables := st.vTables ++ [[]], fieldLists := st.fieldLists ++ [[]] }
          { obj with vTable := some st.vTables.length,
                     fields := some st.fieldLists.length,
                     classFalloc := some ⟨Segment.classRelative, Direction.FRAME_UP,
                       x.FrameBase Segment.classRelative Direction.FRAME_UP,
                       x.FrameBase Segment.classRelative Direction.FRAME_UP⟩ }) = none)
    (fuel : Nat) : ClassDecl.Emit x fuel cid st = none := by
  cases fuel with
  | zero => simp [ClassDecl.Emit]
  | succ fuel =>
    cases hr : ClassDecl.Emit x (fuel + 1) cid st with
    | none => rfl
    | some st2 =>
      obtain ⟨sa, sb, hsa, hm, _⟩ := ClassDecl_Emit_first x fuel cid st st2 obj hobj hno hr
      rcases hsa with ⟨_, hsa⟩ | ⟨ex2, parent2, s1, pobj, pf, hex2, _⟩
      · rw [hsa, hmem] at hm
        exact absurd hm (by simp)
      · rw [hex] at hex2
        exact absurd hex2 (by simp)

/-- A first call of `ClassDecl::Emit` on a class whose parent was emitted
before does not return when its member loop does not. -/
theorem ClassDecl_Emit_child_stops (x : Ext) (cid : Identifier) (st : EmitState)
    (obj : ClassObj) (ex : NamedType) (parent : ClassDecl) (pobj : ClassObj)
    (pf : FrameAllocator)
    (hobj : getClass st cid = some obj) (hno : obj.classFalloc = none)
    (hex : obj.info.decl.extends_ = some ex) (hpar : obj.info.parent = some parent)
    (hp : getClass st parent.id = some pobj) (hpf : pobj.classFalloc = some pf)
    (hmem : EmitMembers x cid (x.NewClassLabel obj.info.decl.id.name) 0 obj.info.decl.members
        (setClass (st.request (Request.NewClassLabel obj.info.decl.id.name))
          { obj with vTable := pobj.vTable, fields := pobj.fields,
                     classFalloc := some pf.inherit }) = none)
    (fuel : Nat) : ClassDecl.Emit x fuel cid st = none := by
  cases fuel with
  | zero => simp [ClassDecl.Emit]
  | succ fuel =>
    cases hr : ClassDecl.Emit x (fuel + 1) cid st with
    | none => rfl
    | some st2 =>
      obtain ⟨sa, sb, hsa, hm, _⟩ := ClassDecl_Emit_first x fuel cid st st2 obj hobj hno hr
      rcases hsa with ⟨hn, _⟩ | ⟨ex2, parent2, s1, pobj2, pf2, _, hp2, hpe, hpo, hpf2, hsa⟩
      · rw [hex] at hn
        exact absurd hn (by simp)
      · rw [hpar] at hp2
        cases hp2
        have he0 : emitted (st.request (Request.NewClassLabel obj.info.decl.id.name))
            parent.id = true := by
          show emitted st parent.id = true
          unfold emitted fallocOf
          rw [hp]
          simp [hpf]
        cases fuel with
        | zero => simp [ClassDecl.Emit] at hpe
        | succ k =>
          rw [ClassDecl_Emit_done x k parent.id _ he0] at hpe
          cases hpe
          have hpo2 : getClass st parent.id = some pobj2 := hpo
          rw [hp] at hpo2
          cases hpo2
          rw [hpf] at hpf2
          cases hpf2
          rw [hsa, hmem] at hm
          exact absurd hm (by simp)

/-- C16, evaluated. The program `class P { int f(int a) }
class Z extends P { int a; int b; void g() int c; }` passes the three passes
without a report.  In `ClassDecl::Emit` on `Z`, with `P` emitted and its
allocator at the cursor 0, the fields `a` and `b` get the offsets 0 and 4 and
the cursor of `Z` is 8.  For `g`, at member position 2, the override search
reads `vTable->Nth(2)` in the table `[P.f]` of one element and the call does
not return, whatever the bound on the depth of the calls: the field `c`, the
third field of `Z`, gets no offset; its place would be the cursor 8. -/
theorem Emit_field_without_offset :
    (CheckAll exExt exUnreachedProgram).map (fun r => (r.ok, r.reports)) = some (true, [])
      ∧ exZ.members
        = [Member.field ⟨⟨"a", 502⟩, exInt⟩, Member.field ⟨⟨"b", 503⟩, exInt⟩,
           Member.method (exG 504), Member.field ⟨⟨"c", 505⟩, exInt⟩]
      ∧ fallocOf exZAfterP exP.id
        = some ⟨Segment.classRelative, Direction.FRAME_UP, 0, 0⟩
      ∧ (EmitMembers exExt exZ.id "Z" 0 (exZ.members.take 2) exZEntered).bind
          (fun s => fallocOf s exZ.id)
        = some ⟨Segment.classRelative, Direction.FRAME_UP, 0, 8⟩
      ∧ (EmitMembers exExt exZ.id "Z" 0 (exZ.members.take 2) exZEntered).bind
          (fun s => (findInClass s.scopes 3 "a" (some SymbolType.S_VARIABLE)).map
            (fun y => y.location))
        = some (some ⟨Segment.classRelative, 0⟩)
      ∧ (EmitMembers exExt exZ.id "Z" 0 (exZ.members.take 2) exZEntered).bind
          (fun s => (findInClass s.scopes 3 "b" (some SymbolType.S_VARIABLE)).map
            (fun y => y.location))
        = some (some ⟨Segment.classRelative, 4⟩)
      ∧ (EmitMembers exExt exZ.id "Z" 0 (exZ.members.take 2) exZEntered).bind
          (fun s => (findInClass s.scopes 3 "c" (some SymbolType.S_VARIABLE)).map
            (fun y => y.location))
        = some none
      ∧ (EmitMembers exExt exZ.id "Z" 0 (exZ.members.take 2) exZEntered).bind
          (fun s => vTableOf s exZ.id)
        = some [exF1 11]
      ∧ Nth [exF1 11] 2 = none
      ∧ (EmitMembers exExt exZ.id "Z" 0 (exZ.members.take 2) exZEntered).bind
          (fun s => EmitMember exExt exZ.id "Z" 2 (Member.method (exG 504)) s) = none
      ∧ (∀ fuel, ClassDecl.Emit exExt fuel exZ.id exZAfterP = none)
      ∧ emitAfterCheck exExt exUnreachedProgram = none :=
  ⟨by decide, by decide, by decide, by decide, by decide, by decide, by decide, by decide,
   by decide, by decide,
   fun fuel => ClassDecl_Emit_child_stops exExt exZ.id exZAfterP exZObj ⟨⟨"P", 501⟩⟩ exP exPObj
     ⟨Segment.classRelative, Direction.FRAME_UP, 0, 0⟩
     (by decide) (by decide) (by decide) (by decide) (by decide) (by decide) (by decide) fuel,
   by decide⟩

/-- C17, evaluated. The program
`class Stack { int sp; void push(int v) int pop() }` passes the three passes
without a report.  In the first call of `ClassDecl::Emit` on `Stack` the class
label is requested, `sp` gets its offset, and `push` is appended to the empty
table and emitted.  For `pop`, at member position 2, the override search reads
`vTable->Nth(2)` in the table `[push]` of one element and the call does not
return, whatever the bound on the depth of the calls: the requests made are
the class label and the code of `push`, no `GenVTable`. -/
theorem Emit_without_vtable_request :
    (CheckAll exExt [Decl.cls exStack]).map (fun r => (r.ok, r.reports)) = some (true, [])
      ∧ exStack.extends_ = none
      ∧ exStack.members
        = [Member.field ⟨⟨"sp", 601⟩, exInt⟩, Member.method exPush, Member.method exPop]
      ∧ (EmitMembers exExt exStack.id "Stack" 0 (exStack.members.take 2) exStackEntered).map
          (fun s => s.requests)
        = some [Request.NewClassLabel "Stack", Request.GenLabel "Stack.push",
            Request.GenBeginFunc, Request.SetFrameSize 0, Request.GenEndFunc]
      ∧ (EmitMembers exExt exStack.id "Stack" 0 (exStack.members.take 2) exStackEntered).bind
          (fun s => vTableOf s exStack.id)
        = some [exPush]
      ∧ Nth [exPush] 2 = none
      ∧ (EmitMembers exExt exStack.id "Stack" 0 (exStack.members.take 2) exStackEntered).bind
          (fun s => EmitMember exExt exStack.id "Stack" 2 (Member.method exPop) s) = none
      ∧ (∀ fuel, ClassDecl.Emit exExt fuel exStack.id exStackStart = none)
      ∧ emitAfterCheck exExt [Decl.cls exStack] = none :=
  ⟨by decide, by decide, by decide, by decide, by decide, by decide, by decide,
   fun fuel => ClassDecl_Emit_root_stops exExt exStack.id exStackStart exStackObj
     (by decide) (by decide) (by decide) (by decide) fuel,
   by decide⟩

end Decaf
